import Mathlib

/-!
# RecipeWebsite: the storage component, the routes and the recipe form

A shallow embedding of `database/recipedb.js` (class `RecipeDatabase`), of the routes
of `server/server.js`, and of the form logic of the client (`pages/AddRecipe.jsx`,
`components/StarRating.jsx`, `formatTime` of `pages/Home.jsx`).

Modelling conventions.
* A table is the list of its rows in insertion order; `INSERT` appends, `UPDATE` maps.
* A `SERIAL` column draws its value from a sequence. Sequences are not transactional:
  a value drawn inside a transaction that is rolled back stays consumed.
* A statement that raises an error puts the transaction in the aborted state, in which
  every further statement raises `inFailedTransaction` until `ROLLBACK`.
* JavaScript `null` and `undefined` are both `none` (the driver sends either as SQL NULL).
* Numbers are integers. A `REAL` column holds the number it is given rounded to single
  precision (`toReal`) and rejects a number too large to round to a finite value; a read
  gives the number the column holds. `INTEGER` columns accept the 32 bit signed range.
  The amount of an ingredient line may also be NaN, which `parseFloat` returns for a value
  that is not a number and which a `REAL` column stores.
* `CURRENT_TIMESTAMP` is an input `now` of the call.
* `ORDER BY` on a text column follows the collation of the database, an input of the read.
* A field of `req.body` is a JavaScript value. Truthiness, `trim`, property reads and
  `map` are computed; the numeric readings (`<` and `>` on a value, `parseInt`,
  `parseFloat`) and `JSON.parse` are inputs of the handler, collected in `JsRuntime`.
* A route takes the flag `isDatabaseInitialized` as an input; `startServer` says when it
  is set.
* The state of the form is a record of its `useState` values; a handler is a function
  from the state to the next state.
-/

namespace RecipeDb

/-! ## Data model (`createTables`) -/

/-- Errors raised by a statement, or by the JavaScript around it. -/
inductive DbError where
  | notNullViolation
  | checkViolation
  | uniqueViolation
  | foreignKeyViolation
  | numericOutOfRange
  | invalidTextRepresentation
  | sequenceExhausted
  | inFailedTransaction
  | typeError
  deriving DecidableEq, Repr

/-- Row of table `recipes`. -/
structure RecipeRow where
  id : Nat
  name : String
  picture_path : Option String
  cooking_time : Option Int
  estimated_price : Option Int
  rating : Option Int
  created_at : Option Nat
  updated_at : Option Nat
  deriving DecidableEq, Repr

/-- Row of table `ingredients`. -/
structure IngredientRow where
  id : Nat
  name : String
  unit : Option String
  deriving DecidableEq, Repr

/-- A JavaScript number: an integer, or NaN. -/
inductive JsNumber where
  | int (n : Int)
  | nan
  deriving DecidableEq, Repr

instance (n : Nat) : OfNat JsNumber n := ⟨JsNumber.int n⟩

/-- Row of table `recipe_ingredients`. -/
structure RecipeIngredientRow where
  id : Nat
  recipe_id : Nat
  ingredient_id : Nat
  amount : JsNumber
  unit : Option String
  deriving DecidableEq, Repr

/-- Row of table `recipe_steps`. -/
structure RecipeStepRow where
  id : Nat
  recipe_id : Nat
  step_number : Nat
  instruction : String
  deriving DecidableEq, Repr

/-- The four tables the operations touch (`step_ingredients` is created but never used). -/
structure Tables where
  recipes : List RecipeRow
  ingredients : List IngredientRow
  recipe_ingredients : List RecipeIngredientRow
  recipe_steps : List RecipeStepRow
  deriving DecidableEq, Repr

/-- Last value handed out by the sequence behind each `SERIAL` column. -/
structure Sequences where
  recipes : Nat
  ingredients : Nat
  recipe_ingredients : Nat
  recipe_steps : Nat
  deriving DecidableEq, Repr

/-- A database state: committed rows and sequence positions. -/
structure Database where
  tables : Tables
  seqs : Sequences
  deriving DecidableEq, Repr

/-- State right after `createTables` on a fresh database. -/
def createTables : Database :=
  { tables := { recipes := [], ingredients := [], recipe_ingredients := [], recipe_steps := [] },
    seqs := { recipes := 0, ingredients := 0, recipe_ingredients := 0, recipe_steps := 0 } }

/-- Largest value of an `INTEGER` column and of a `SERIAL` sequence. -/
def int4Max : Nat := 2147483647

/-- A parameter bound to an `INTEGER` column must lie in the 32 bit signed range. -/
def inInt4 : Option Int → Bool
  | none => true
  | some v => decide (-2147483648 ≤ v) && decide (v ≤ 2147483647)

/-- Bound of a `REAL` column: a number of this magnitude no longer rounds to a finite
single-precision value (`2^128 - 2^103`). -/
def realBound : Int := 340282356779733661637539395458142568448

/-- A parameter bound to a `REAL` column must round to a finite single-precision value. -/
def inReal : Option Int → Bool
  | none => true
  | some v => decide (-realBound < v) && decide (v < realBound)

/-- The range of `REAL` on a JavaScript number; `NaN` is a value of the type. -/
def inRealNumber : Option JsNumber → Bool
  | some (JsNumber.int v) => inReal (some v)
  | _ => true

/-- Number of low bits a `REAL` column drops from a magnitude: single precision keeps the
24 leading bits. The first argument bounds the recursion; 128 suffices in the range of
`REAL`. -/
def realShift : Nat → Nat → Nat
  | 0, _ => 0
  | fuel + 1, m => if m < 16777216 then 0 else realShift fuel (m / 2) + 1

/-- A magnitude rounded to single precision: to the nearest number with 24 significant
bits, a tie to the one whose last bit is 0. -/
def roundReal (m : Nat) : Nat :=
  let e := realShift 128 m
  let q := m / 2 ^ e
  let r := m % 2 ^ e
  if 2 * r < 2 ^ e then q * 2 ^ e
  else if 2 ^ e < 2 * r then (q + 1) * 2 ^ e
  else if q % 2 = 0 then q * 2 ^ e
  else (q + 1) * 2 ^ e

/-- The number a `REAL` column holds for the number it is given. -/
def toReal (v : Int) : Int :=
  if v < 0 then -(roundReal v.natAbs : Int) else (roundReal v.natAbs : Int)

/-- The value a `REAL` column holds for an amount; `NaN` is kept. -/
def toRealNumber : JsNumber → JsNumber
  | JsNumber.int v => JsNumber.int (toReal v)
  | JsNumber.nan => JsNumber.nan

/-- Column constraint `CHECK (rating >= 1 AND rating <= 5)`; NULL passes a check. -/
def ratingCheck : Option Int → Bool
  | none => true
  | some v => decide (1 ≤ v) && decide (v ≤ 5)

/-! ## Transactions and statements -/

/-- An open transaction: working copy of the tables, sequences, aborted flag.
The flag is set exactly when a statement has raised an error. -/
structure Tx where
  tables : Tables
  seqs : Sequences
  aborted : Bool
  deriving DecidableEq, Repr

/-- Statement `BEGIN`. -/
def Tx.begin (db : Database) : Tx :=
  { tables := db.tables, seqs := db.seqs, aborted := false }

/-- Statement `COMMIT`: the working copy becomes the committed state. -/
def Tx.commit (tx : Tx) : Database :=
  { tables := tx.tables, seqs := tx.seqs }

/-- Statement `ROLLBACK`: the committed rows of `db` are restored, sequences stay advanced. -/
def Tx.rollback (db : Database) (tx : Tx) : Database :=
  { tables := db.tables, seqs := tx.seqs }

/-- A statement raises `e`: no row changes, the transaction becomes aborted. -/
def Tx.raise {α : Type} (tx : Tx) (e : DbError) : Except DbError α × Tx :=
  (Except.error e, { tx with aborted := true })

/-- The statement
`INSERT INTO recipes (name, picture_path, cooking_time, estimated_price, rating)
 VALUES ($1, $2, $3, $4, $5) RETURNING id`. -/
def insertRecipe (tx : Tx) (name picture_path : Option String)
    (cooking_time estimated_price rating : Option Int) (now : Nat) : Except DbError Nat × Tx :=
  if tx.aborted then (Except.error DbError.inFailedTransaction, tx)
  else if (inInt4 cooking_time && inInt4 rating && inReal estimated_price) = false then
    tx.raise DbError.numericOutOfRange
  else if int4Max ≤ tx.seqs.recipes then tx.raise DbError.sequenceExhausted
  else
    let id := tx.seqs.recipes + 1
    let tx1 : Tx := { tx with seqs := { tx.seqs with recipes := id } }
    match name with
    | none => tx1.raise DbError.notNullViolation
    | some n =>
      if ratingCheck rating = false then tx1.raise DbError.checkViolation
      else if id ∈ tx1.tables.recipes.map (fun r => r.id) then tx1.raise DbError.uniqueViolation
      else
        let row : RecipeRow :=
          { id := id, name := n, picture_path := picture_path, cooking_time := cooking_time,
            estimated_price := estimated_price.map toReal, rating := rating,
            created_at := some now, updated_at := some now }
        (Except.ok id,
          { tx1 with tables := { tx1.tables with recipes := tx1.tables.recipes ++ [row] } })

/-- The action `DO UPDATE SET unit = EXCLUDED.unit` on the row whose name conflicts. -/
def setUnit (name : String) (unit : Option String) (r : IngredientRow) : IngredientRow :=
  if r.name = name then { r with unit := unit } else r

/-- The statement
`INSERT INTO ingredients (name, unit) VALUES ($1, $2)
 ON CONFLICT (name) DO UPDATE SET unit = EXCLUDED.unit RETURNING id`.
The default of `id` is evaluated before the conflict is detected, so the sequence
advances on both branches. -/
def upsertIngredient (tx : Tx) (name unit : Option String) : Except DbError Nat × Tx :=
  if tx.aborted then (Except.error DbError.inFailedTransaction, tx)
  else if int4Max ≤ tx.seqs.ingredients then tx.raise DbError.sequenceExhausted
  else
    let id := tx.seqs.ingredients + 1
    let tx1 : Tx := { tx with seqs := { tx.seqs with ingredients := id } }
    match name with
    | none => tx1.raise DbError.notNullViolation
    | some n =>
      match tx1.tables.ingredients.find? (fun r => decide (r.name = n)) with
      | some existing =>
        let rows : List IngredientRow := tx1.tables.ingredients.map (setUnit n unit)
        (Except.ok existing.id, { tx1 with tables := { tx1.tables with ingredients := rows } })
      | none =>
        if id ∈ tx1.tables.ingredients.map (fun r => r.id) then tx1.raise DbError.uniqueViolation
        else
          let row : IngredientRow := { id := id, name := n, unit := unit }
          (Except.ok id,
            { tx1 with tables :=
                { tx1.tables with ingredients := tx1.tables.ingredients ++ [row] } })

/-- The statement `SELECT id FROM ingredients WHERE name = $1`; the result is the list
of the `id` values of the rows found. -/
def selectIngredientId (tx : Tx) (name : Option String) : Except DbError (List Nat) × Tx :=
  if tx.aborted then (Except.error DbError.inFailedTransaction, tx)
  else
    match name with
    | none => (Except.ok [], tx)
    | some n =>
      (Except.ok ((tx.tables.ingredients.filter (fun r => decide (r.name = n))).map
        (fun r => r.id)), tx)

/-- The statement
`INSERT INTO recipe_ingredients (recipe_id, ingredient_id, amount, unit)
 VALUES ($1, $2, $3, $4)`. -/
def insertRecipeIngredient (tx : Tx) (recipe_id ingredient_id : Nat)
    (amount : Option JsNumber)
    (unit : Option String) : Except DbError Unit × Tx :=
  if tx.aborted then (Except.error DbError.inFailedTransaction, tx)
  else if inRealNumber amount = false then tx.raise DbError.numericOutOfRange
  else if int4Max ≤ tx.seqs.recipe_ingredients then tx.raise DbError.sequenceExhausted
  else
    let id := tx.seqs.recipe_ingredients + 1
    let tx1 : Tx := { tx with seqs := { tx.seqs with recipe_ingredients := id } }
    match amount with
    | none => tx1.raise DbError.notNullViolation
    | some a =>
      if id ∈ tx1.tables.recipe_ingredients.map (fun r => r.id) then
        tx1.raise DbError.uniqueViolation
      else if (recipe_id, ingredient_id) ∈
          tx1.tables.recipe_ingredients.map (fun r => (r.recipe_id, r.ingredient_id)) then
        tx1.raise DbError.uniqueViolation
      else if recipe_id ∉ tx1.tables.recipes.map (fun r => r.id) then
        tx1.raise DbError.foreignKeyViolation
      else if ingredient_id ∉ tx1.tables.ingredients.map (fun r => r.id) then
        tx1.raise DbError.foreignKeyViolation
      else
        let row : RecipeIngredientRow :=
          { id := id, recipe_id := recipe_id, ingredient_id := ingredient_id,
            amount := toRealNumber a, unit := unit }
        (Except.ok (),
          { tx1 with tables :=
              { tx1.tables with recipe_ingredients := tx1.tables.recipe_ingredients ++ [row] } })

/-- The statement
`INSERT INTO recipe_steps (recipe_id, step_number, instruction)
 VALUES ($1, $2, $3) RETURNING id`. -/
def insertRecipeStep (tx : Tx) (recipe_id step_number : Nat) (instruction : Option String) :
    Except DbError Nat × Tx :=
  if tx.aborted then (Except.error DbError.inFailedTransaction, tx)
  else if int4Max ≤ tx.seqs.recipe_steps then tx.raise DbError.sequenceExhausted
  else
    let id := tx.seqs.recipe_steps + 1
    let tx1 : Tx := { tx with seqs := { tx.seqs with recipe_steps := id } }
    match instruction with
    | none => tx1.raise DbError.notNullViolation
    | some text =>
      if id ∈ tx1.tables.recipe_steps.map (fun r => r.id) then
        tx1.raise DbError.uniqueViolation
      else if (recipe_id, step_number) ∈
          tx1.tables.recipe_steps.map (fun r => (r.recipe_id, r.step_number)) then
        tx1.raise DbError.uniqueViolation
      else if recipe_id ∉ tx1.tables.recipes.map (fun r => r.id) then
        tx1.raise DbError.foreignKeyViolation
      else
        let row : RecipeStepRow :=
          { id := id, recipe_id := recipe_id, step_number := step_number, instruction := text }
        (Except.ok id,
          { tx1 with tables :=
              { tx1.tables with recipe_steps := tx1.tables.recipe_steps ++ [row] } })

/-! ## `addRecipe` -/

/-- One element of `recipeData.ingredients`. -/
structure IngredientInput where
  name : Option String
  amount : Option JsNumber
  unit : Option String
  deriving DecidableEq, Repr

/-- One element of `recipeData.steps`. -/
structure StepInput where
  instruction : Option String
  deriving DecidableEq, Repr

/-- The argument `recipeData` of `addRecipe`. -/
structure RecipeData where
  name : Option String
  picture_path : Option String
  cooking_time : Option Int
  estimated_price : Option Int
  rating : Option Int
  ingredients : List IngredientInput
  steps : List StepInput
  deriving DecidableEq, Repr

/-- JavaScript `s || null` on a string or absent value: the empty string is falsy. -/
def orNullText : Option String → Option String
  | none => none
  | some s => if s = "" then none else some s

/-- JavaScript `n || null` on a number or absent value: zero is falsy. -/
def orNullNumber : Option Int → Option Int
  | none => none
  | some n => if n = 0 then none else some n

/-- Body of the loop `for (const ingredient of recipeData.ingredients)`: upsert the
ingredient (falling back to a `SELECT` when the upsert throws), read `rows[0].id`,
insert the link. -/
def addIngredient (recipeId : Nat) (ingredient : IngredientInput) (tx : Tx) :
    Except DbError Unit × Tx :=
  let ingredientResult : Except DbError (List Nat) × Tx :=
    match upsertIngredient tx ingredient.name (orNullText ingredient.unit) with
    | (Except.ok id, tx1) => (Except.ok [id], tx1)
    | (Except.error _, tx1) => selectIngredientId tx1 ingredient.name
  match ingredientResult with
  | (Except.error e, tx2) => (Except.error e, tx2)
  | (Except.ok rows, tx2) =>
    match rows.head? with
    | none => (Except.error DbError.typeError, tx2)
    | some ingredientId =>
      insertRecipeIngredient tx2 recipeId ingredientId ingredient.amount ingredient.unit

/-- The loop over `recipeData.ingredients`; a throw leaves the loop. -/
def addIngredients (recipeId : Nat) : List IngredientInput → Tx → Except DbError Unit × Tx
  | [], tx => (Except.ok (), tx)
  | ingredient :: rest, tx =>
    match addIngredient recipeId ingredient tx with
    | (Except.error e, tx1) => (Except.error e, tx1)
    | (Except.ok _, tx1) => addIngredients recipeId rest tx1

/-- The loop `for (const [index, step] of recipeData.steps.entries())`, from `index` on;
each step is inserted with `step_number = index + 1`. -/
def addSteps (recipeId : Nat) : Nat → List StepInput → Tx → Except DbError Unit × Tx
  | _, [], tx => (Except.ok (), tx)
  | index, step :: rest, tx =>
    match insertRecipeStep tx recipeId (index + 1) step.instruction with
    | (Except.error e, tx1) => (Except.error e, tx1)
    | (Except.ok _, tx1) => addSteps recipeId (index + 1) rest tx1

/-- The statements of `addRecipe` between `BEGIN` and `COMMIT`. -/
def addRecipeTx (tx : Tx) (recipeData : RecipeData) (now : Nat) : Except DbError Nat × Tx :=
  match insertRecipe tx recipeData.name (orNullText recipeData.picture_path)
      (orNullNumber recipeData.cooking_time) (orNullNumber recipeData.estimated_price)
      (orNullNumber recipeData.rating) now with
  | (Except.error e, tx1) => (Except.error e, tx1)
  | (Except.ok recipeId, tx1) =>
    match addIngredients recipeId recipeData.ingredients tx1 with
    | (Except.error e, tx2) => (Except.error e, tx2)
    | (Except.ok _, tx2) =>
      match addSteps recipeId 0 recipeData.steps tx2 with
      | (Except.error e, tx3) => (Except.error e, tx3)
      | (Except.ok _, tx3) => (Except.ok recipeId, tx3)

/-- The method `addRecipe`: `BEGIN`, the statements, then `COMMIT` and the new id, or
`ROLLBACK` and the error rethrown. The second component is the database afterwards. -/
def addRecipe (db : Database) (recipeData : RecipeData) (now : Nat) :
    Except DbError Nat × Database :=
  match addRecipeTx (Tx.begin db) recipeData now with
  | (Except.ok recipeId, tx) => (Except.ok recipeId, tx.commit)
  | (Except.error e, tx) => (Except.error e, Tx.rollback db tx)

/-- A sequence of `addRecipe` calls, each with its argument and clock reading. -/
def addRecipes (db : Database) : List (RecipeData × Nat) → Database
  | [] => db
  | call :: rest => addRecipes (addRecipe db call.1 call.2).2 rest

/-! ## Reads -/

/-- Collation of the database: the total preorder `ORDER BY` uses on text. -/
structure Collation where
  le : String → String → Bool
  total : ∀ a b, le a b = true ∨ le b a = true
  trans : ∀ a b c, le a b = true → le b c = true → le a c = true

/-- Row of the ingredient query of `getRecipe`: `i.name, ri.amount, COALESCE(...) as unit`. -/
structure IngredientEntry where
  name : String
  amount : JsNumber
  unit : Option String
  deriving DecidableEq, Repr

/-- Row of the step query of `getRecipe`: `step_number, instruction`. -/
structure StepEntry where
  step_number : Nat
  instruction : String
  deriving DecidableEq, Repr

/-- The object `getRecipe` returns: the recipe row spread, plus `ingredients` and `steps`. -/
structure RecipeDetail where
  recipe : RecipeRow
  ingredients : List IngredientEntry
  steps : List StepEntry
  deriving DecidableEq, Repr

/-- SQL `COALESCE(a, b)`. -/
def coalesce (a b : Option String) : Option String :=
  match a with
  | some u => some u
  | none => b

/-- The query `SELECT i.name, ri.amount, COALESCE(ri.unit, i.unit) as unit
FROM recipe_ingredients ri JOIN ingredients i ON ri.ingredient_id = i.id
WHERE ri.recipe_id = $1`, before `ORDER BY`. -/
def joinIngredients (t : Tables) (recipeId : Nat) : List IngredientEntry :=
  (t.recipe_ingredients.filter (fun ri => decide (ri.recipe_id = recipeId))).flatMap
    (fun ri => (t.ingredients.filter (fun i => decide (ri.ingredient_id = i.id))).map
      (fun i => { name := i.name, amount := ri.amount, unit := coalesce ri.unit i.unit }))

/-- The query `SELECT step_number, instruction FROM recipe_steps WHERE recipe_id = $1`,
before `ORDER BY`. -/
def selectSteps (t : Tables) (recipeId : Nat) : List StepEntry :=
  (t.recipe_steps.filter (fun s => decide (s.recipe_id = recipeId))).map
    (fun s => { step_number := s.step_number, instruction := s.instruction })

/-- The argument `recipeId` of `getRecipe`, bound to `$1` of its queries, by the way the
server reads it for an `INTEGER` column: as the integer literal `n` (the number 12, the
text "12"), or as no integer literal at all (the text "abc", the number 1.5). -/
inductive IdParam where
  | int (n : Int)
  | invalid
  deriving DecidableEq, Repr

/-- The three queries of `getRecipe` for the id `recipeId`, and the object built from
their rows: `none` is the JavaScript `null`. -/
def selectRecipe (coll : Collation) (db : Database) (recipeId : Nat) : Option RecipeDetail :=
  match db.tables.recipes.filter (fun r => decide (r.id = recipeId)) with
  | [] => none
  | recipe :: _ =>
    some
      { recipe := recipe,
        ingredients :=
          List.insertionSort (fun a b => coll.le a.name b.name = true)
            (joinIngredients db.tables recipeId),
        steps :=
          List.insertionSort (fun a b => a.step_number ≤ b.step_number)
            (selectSteps db.tables recipeId) }

/-- The method `getRecipe`. The first query raises when `$1` is no integer literal or lies
outside the range of `INTEGER`, and the method rethrows the error. No row has a negative
id. -/
def getRecipe (coll : Collation) (db : Database) (recipeId : IdParam) :
    Except DbError (Option RecipeDetail) :=
  match recipeId with
  | IdParam.invalid => Except.error DbError.invalidTextRepresentation
  | IdParam.int n =>
    if inInt4 (some n) = false then Except.error DbError.numericOutOfRange
    else if n < 0 then Except.ok none
    else Except.ok (selectRecipe coll db n.toNat)

/-- Row of the query of `getAllRecipes`. -/
structure RecipeSummary where
  id : Nat
  name : String
  picture_path : Option String
  cooking_time : Option Int
  estimated_price : Option Int
  rating : Option Int
  created_at : Option Nat
  deriving DecidableEq, Repr

/-- The select list `id, name, picture_path, cooking_time, estimated_price, rating,
created_at` applied to a recipe row. -/
def summary (r : RecipeRow) : RecipeSummary :=
  { id := r.id, name := r.name, picture_path := r.picture_path, cooking_time := r.cooking_time,
    estimated_price := r.estimated_price, rating := r.rating, created_at := r.created_at }

/-- Order of `ORDER BY created_at DESC`: `a` may precede `b`. NULL sorts as the largest
value, so it comes first in descending order. -/
def createdAtDesc (a b : Option Nat) : Bool :=
  match a, b with
  | none, _ => true
  | some _, none => false
  | some x, some y => decide (y ≤ x)

/-- The method `getAllRecipes`. -/
def getAllRecipes (db : Database) : List RecipeSummary :=
  List.insertionSort (fun a b => createdAtDesc a.created_at b.created_at = true)
    (db.tables.recipes.map summary)

/-! ## Read routes of `server.js` -/

/-- Payload of a response. -/
inductive Body where
  | error (message : String)
  | recipe (detail : RecipeDetail)
  | recipes (rows : List RecipeSummary)
  | created (message : String) (id : Nat)
  | status (status : String) (database : Option String)
  deriving DecidableEq, Repr

/-- An HTTP response: status code and JSON payload. -/
structure Response where
  status : Nat
  body : Body
  deriving DecidableEq, Repr

/-- The handler of `GET /api/recipes`, given the flag `isDatabaseInitialized`; the second
component is the database afterwards. -/
def getRecipesRoute (isDatabaseInitialized : Bool) (db : Database) : Response × Database :=
  if isDatabaseInitialized = false then
    ({ status := 503, body := Body.error "Database not available" }, db)
  else
    ({ status := 200, body := Body.recipes (getAllRecipes db) }, db)

/-- The handler of `GET /api/recipes/:id`, given the flag `isDatabaseInitialized` and the
path parameter `req.params.id`; the second component is the database afterwards. -/
def getRecipeRoute (isDatabaseInitialized : Bool) (coll : Collation) (db : Database)
    (id : IdParam) : Response × Database :=
  if isDatabaseInitialized = false then
    ({ status := 503, body := Body.error "Database not available" }, db)
  else
    match getRecipe coll db id with
    | Except.error _ => ({ status := 500, body := Body.error "Failed to fetch recipe" }, db)
    | Except.ok none => ({ status := 404, body := Body.error "Recipe not found" }, db)
    | Except.ok (some recipe) => ({ status := 200, body := Body.recipe recipe }, db)

/-! ## Schema constraints -/

/-- The constraints `createTables` declares on the four tables: primary keys, the
`UNIQUE` keys, the foreign keys and the rating check. -/
structure Tables.Valid (t : Tables) : Prop where
  recipes_pkey : (t.recipes.map (fun r => r.id)).Nodup
  recipes_rating_check : ∀ r ∈ t.recipes, ratingCheck r.rating = true
  ingredients_pkey : (t.ingredients.map (fun r => r.id)).Nodup
  ingredients_name_key : (t.ingredients.map (fun r => r.name)).Nodup
  recipe_ingredients_pkey : (t.recipe_ingredients.map (fun r => r.id)).Nodup
  recipe_ingredients_key :
    (t.recipe_ingredients.map (fun r => (r.recipe_id, r.ingredient_id))).Nodup
  recipe_ingredients_recipe_fkey :
    ∀ r ∈ t.recipe_ingredients, r.recipe_id ∈ t.recipes.map (fun x => x.id)
  recipe_ingredients_ingredient_fkey :
    ∀ r ∈ t.recipe_ingredients, r.ingredient_id ∈ t.ingredients.map (fun x => x.id)
  recipe_steps_pkey : (t.recipe_steps.map (fun r => r.id)).Nodup
  recipe_steps_key : (t.recipe_steps.map (fun r => (r.recipe_id, r.step_number))).Nodup
  recipe_steps_recipe_fkey :
    ∀ r ∈ t.recipe_steps, r.recipe_id ∈ t.recipes.map (fun x => x.id)

/-- Collation by code point: the order of `String`. -/
def Collation.codepoint : Collation :=
  { le := fun a b => decide (a ≤ b),
    total := fun a b => by
      rcases le_total a b with h | h
      · exact Or.inl (by simpa using h)
      · exact Or.inr (by simpa using h),
    trans := fun a b c hab hbc => by
      have h1 : a ≤ b := by simpa using hab
      have h2 : b ≤ c := by simpa using hbc
      simpa using le_trans h1 h2 }

/-! ## JavaScript values in a request -/

/-- A value of `req.body`: a text field of a multipart form, or any JSON value. -/
inductive JsValue where
  | undefined
  | null
  | bool (b : Bool)
  | number (n : JsNumber)
  | string (s : String)
  | array (items : List JsValue)
  | object (fields : List (String × JsValue))

/-- JavaScript truthiness, as used by `!x`, `x && y` and `x ? y : z`. -/
def truthy : JsValue → Bool
  | JsValue.undefined => false
  | JsValue.null => false
  | JsValue.bool b => b
  | JsValue.number (JsNumber.int n) => decide (n ≠ 0)
  | JsValue.number JsNumber.nan => false
  | JsValue.string s => decide (s ≠ "")
  | JsValue.array _ => true
  | JsValue.object _ => true

/-- The built-ins whose result the model does not compute: the number a value converts to
when `<` or `>` compares it with a number, `parseInt`, `parseFloat` and `JSON.parse`
(`none` when it throws a `SyntaxError`). -/
structure JsRuntime where
  toNumber : JsValue → JsNumber
  parseInt : JsValue → JsNumber
  parseFloat : JsValue → JsNumber
  jsonParse : String → Option JsValue

/-- The comparison `x < k` on numbers: false when `x` is NaN. -/
def lessThan (x : JsNumber) (k : Int) : Bool :=
  match x with
  | JsNumber.int n => decide (n < k)
  | JsNumber.nan => false

/-- The comparison `x > k` on numbers: false when `x` is NaN. -/
def greaterThan (x : JsNumber) (k : Int) : Bool :=
  match x with
  | JsNumber.int n => decide (k < n)
  | JsNumber.nan => false

/-- White space and line terminators of ECMAScript, the characters `trim` removes. -/
def isWhiteSpace (c : Char) : Bool :=
  decide (c.toNat ∈ [9, 10, 11, 12, 13, 32, 160, 5760, 8232, 8233, 8239, 8287, 12288, 65279])
    || (decide (8192 ≤ c.toNat) && decide (c.toNat ≤ 8202))

/-- The method `String.prototype.trim`. -/
def trim (s : String) : String :=
  String.mk ((((s.data.dropWhile isWhiteSpace).reverse).dropWhile isWhiteSpace).reverse)

/-- The call `v.trim()`: a `TypeError` unless `v` is a string. -/
def callTrim (v : JsValue) : Except DbError String :=
  match v with
  | JsValue.string s => Except.ok (trim s)
  | _ => Except.error DbError.typeError

/-- The property read `v.key` for one of the keys the handler reads (`name`, `amount`,
`unit`, `instruction`): a `TypeError` on `null` and `undefined`, the field of an object,
`undefined` on every other value. -/
def getProp (v : JsValue) (key : String) : Except DbError JsValue :=
  match v with
  | JsValue.undefined => Except.error DbError.typeError
  | JsValue.null => Except.error DbError.typeError
  | JsValue.object fields =>
    match fields.find? (fun f => decide (f.1 = key)) with
    | some f => Except.ok f.2
    | none => Except.ok JsValue.undefined
  | _ => Except.ok JsValue.undefined

/-- The callback of `Array.prototype.map` applied to the items in order; the first throw
leaves the loop. -/
def mapItems {α : Type} (f : JsValue → Except DbError α) : List JsValue → Except DbError (List α)
  | [] => Except.ok []
  | x :: xs =>
    match f x with
    | Except.error e => Except.error e
    | Except.ok y =>
      match mapItems f xs with
      | Except.error e => Except.error e
      | Except.ok ys => Except.ok (y :: ys)

/-- The call `v.map(f)`: a `TypeError` unless `v` is an array. -/
def callMap {α : Type} (f : JsValue → Except DbError α) (v : JsValue) :
    Except DbError (List α) :=
  match v with
  | JsValue.array items => mapItems f items
  | _ => Except.error DbError.typeError

/-! ## The route `POST /api/recipes` -/

/-- The fields the handler takes from `req.body`; an absent field is `undefined`. -/
structure RequestBody where
  name : JsValue
  ingredients : JsValue
  steps : JsValue
  cooking_time : JsValue
  estimated_price : JsValue
  rating : JsValue

/-- The file part `picture` of a multipart request: its MIME type, its size in bytes and
the name the `filename` callback of the disk storage gives it. -/
structure UploadedFile where
  mimetype : String
  size : Nat
  filename : String
  deriving DecidableEq, Repr

/-- A create request. -/
structure CreateRequest where
  body : RequestBody
  picture : Option UploadedFile

/-- Why `upload.single('picture')` passes an error on: the plain `Error` of the file
filter, or the `MulterError` with code `LIMIT_FILE_SIZE`. -/
inductive UploadError where
  | onlyImageFiles
  | limitFileSize
  deriving DecidableEq, Repr

/-- The method `String.prototype.startsWith`. -/
def startsWith (s start : String) : Bool :=
  start.data.isPrefixOf s.data

/-- The option `fileFilter`: accept the file when its MIME type starts with `image/`. -/
def fileFilter (file : UploadedFile) : Bool :=
  startsWith file.mimetype "image/"

/-- The option `limits.fileSize`. -/
def fileSizeLimit : Nat := 5 * 1024 * 1024

/-- The middleware `upload.single('picture')`: the file filter runs when the file part
starts, the size limit while its bytes arrive; the result is `req.file`. -/
def upload (picture : Option UploadedFile) : Except UploadError (Option UploadedFile) :=
  match picture with
  | none => Except.ok none
  | some file =>
    if fileFilter file = false then Except.error UploadError.onlyImageFiles
    else if fileSizeLimit < file.size then Except.error UploadError.limitFileSize
    else Except.ok (some file)

/-- The error handling middleware. -/
def errorMiddleware (error : UploadError) : Response :=
  match error with
  | UploadError.limitFileSize =>
    { status := 400, body := Body.error "File too large. Maximum size is 5MB." }
  | UploadError.onlyImageFiles =>
    { status := 500, body := Body.error "Internal server error" }

/-- The expression `typeof v === 'string' ? JSON.parse(v) : v`; `none` when it throws. -/
def parseField (rt : JsRuntime) (v : JsValue) : Option JsValue :=
  match v with
  | JsValue.string s => rt.jsonParse s
  | other => some other

/-- The condition `rating && (rating < 1 || rating > 5)`. -/
def ratingOutOfRange (rt : JsRuntime) (rating : JsValue) : Bool :=
  truthy rating && (lessThan (rt.toNumber rating) 1 || greaterThan (rt.toNumber rating) 5)

/-- A number handed to `addRecipe` in a field it reads as `x || null`: NaN is falsy and
is sent as NULL, so it is passed as an absent value. -/
def numberOrNull : JsNumber → Option Int
  | JsNumber.int n => some n
  | JsNumber.nan => none

/-- The callback `ingredient => ({ name: ingredient.name.trim(),
amount: parseFloat(ingredient.amount), unit: ingredient.unit.trim() })`. -/
def buildIngredient (rt : JsRuntime) (ingredient : JsValue) : Except DbError IngredientInput :=
  match getProp ingredient "name" with
  | Except.error e => Except.error e
  | Except.ok n =>
    match callTrim n with
    | Except.error e => Except.error e
    | Except.ok name =>
      match getProp ingredient "amount" with
      | Except.error e => Except.error e
      | Except.ok a =>
        match getProp ingredient "unit" with
        | Except.error e => Except.error e
        | Except.ok u =>
          match callTrim u with
          | Except.error e => Except.error e
          | Except.ok unit =>
            Except.ok { name := some name, amount := some (rt.parseFloat a), unit := some unit }

/-- The callback `(step, index) => ({ number: index + 1, instruction:
step.instruction.trim() })`; `addRecipe` reads `instruction` only. -/
def buildStep (step : JsValue) : Except DbError StepInput :=
  match getProp step "instruction" with
  | Except.error e => Except.error e
  | Except.ok i =>
    match callTrim i with
    | Except.error e => Except.error e
    | Except.ok instruction => Except.ok { instruction := some instruction }

/-- The object literal `recipeData` of the handler, or the `TypeError` its evaluation
throws. -/
def buildRecipeData (rt : JsRuntime) (body : RequestBody) (file : Option UploadedFile)
    (parsedIngredients parsedSteps : JsValue) : Except DbError RecipeData :=
  match callTrim body.name with
  | Except.error e => Except.error e
  | Except.ok name =>
    match callMap (buildIngredient rt) parsedIngredients with
    | Except.error e => Except.error e
    | Except.ok ingredients =>
      match callMap buildStep parsedSteps with
      | Except.error e => Except.error e
      | Except.ok steps =>
        Except.ok
          { name := some name,
            picture_path := file.map (fun f => "/uploads/" ++ f.filename),
            cooking_time :=
              if truthy body.cooking_time then numberOrNull (rt.parseInt body.cooking_time)
              else none,
            estimated_price :=
              if truthy body.estimated_price then
                numberOrNull (rt.parseFloat body.estimated_price)
              else none,
            rating :=
              if truthy body.rating then numberOrNull (rt.parseInt body.rating) else none,
            ingredients := ingredients,
            steps := steps }

/-- The handler of `POST /api/recipes`, run after the upload middleware has set
`req.file`; the second component is the database afterwards. -/
def postRecipeHandler (isDatabaseInitialized : Bool) (rt : JsRuntime) (db : Database)
    (req : CreateRequest) (now : Nat) : Response × Database :=
  if isDatabaseInitialized = false then
    ({ status := 503, body := Body.error "Database not available" }, db)
  else if (truthy req.body.name && truthy req.body.ingredients && truthy req.body.steps)
      = false then
    ({ status := 400,
       body := Body.error "Missing required fields: name, ingredients, and steps" }, db)
  else
    match parseField rt req.body.ingredients, parseField rt req.body.steps with
    | some parsedIngredients, some parsedSteps =>
      if ratingOutOfRange rt req.body.rating then
        ({ status := 400, body := Body.error "Rating must be between 1 and 5" }, db)
      else
        match buildRecipeData rt req.body req.picture parsedIngredients parsedSteps with
        | Except.error _ => ({ status := 500, body := Body.error "Failed to add recipe" }, db)
        | Except.ok recipeData =>
          match addRecipe db recipeData now with
          | (Except.ok recipeId, db1) =>
            ({ status := 201, body := Body.created "Recipe added successfully" recipeId }, db1)
          | (Except.error _, db1) =>
            ({ status := 500, body := Body.error "Failed to add recipe" }, db1)
    | _, _ =>
      ({ status := 400, body := Body.error "Invalid JSON format for ingredients or steps" }, db)

/-- The route `POST /api/recipes`: the upload middleware, then the handler, or the error
handling middleware when the upload passes an error on. -/
def postRecipeRoute (isDatabaseInitialized : Bool) (rt : JsRuntime) (db : Database)
    (req : CreateRequest) (now : Nat) : Response × Database :=
  match upload req.picture with
  | Except.error e => (errorMiddleware e, db)
  | Except.ok file =>
    postRecipeHandler isDatabaseInitialized rt db { body := req.body, picture := file } now

/-- The handler of `GET /api/health`. -/
def healthRoute (isDatabaseInitialized : Bool) : Response :=
  if isDatabaseInitialized = false then
    { status := 503, body := Body.status "Database not initialized" none }
  else
    { status := 200, body := Body.status "OK" (some "Connected") }

/-! ## Shapes of the `ingredients` and `steps` fields -/

/-- Whether the property `v.key` can be read and holds a text. -/
def isTextProp (v : JsValue) (key : String) : Bool :=
  match getProp v key with
  | Except.ok (JsValue.string _) => true
  | _ => false

/-- A parsed `ingredients` field the handler cannot map: a value that is not an array, or
an array with an item whose `name` or whose `unit` is not a text. -/
def InvalidIngredients (v : JsValue) : Prop :=
  match v with
  | JsValue.array items =>
    ∃ item ∈ items, isTextProp item "name" = false ∨ isTextProp item "unit" = false
  | _ => True

/-- A parsed `steps` field the handler cannot map: a value that is not an array, or an
array with an item whose `instruction` is not a text. -/
def InvalidSteps (v : JsValue) : Prop :=
  match v with
  | JsValue.array items => ∃ item ∈ items, isTextProp item "instruction" = false
  | _ => True

/-! ## Start of the server -/

/-- Where the process stands: before `db.init()` has settled, listening, or exited. -/
inductive Phase where
  | starting
  | listening
  | exited
  deriving DecidableEq, Repr

/-- The module state of `server.js`: the flag `isDatabaseInitialized` and the phase. -/
structure Server where
  isDatabaseInitialized : Bool
  phase : Phase
  deriving DecidableEq, Repr

/-- The state when the module has been loaded: `let isDatabaseInitialized = false`. -/
def Server.loaded : Server :=
  { isDatabaseInitialized := false, phase := Phase.starting }

/-- The function `startServer`, given how `db.init()` settles: on success the flag is set
and `app.listen` is called, on a throw the process exits. -/
def startServer (server : Server) (init : Except DbError Unit) : Server :=
  match init with
  | Except.ok _ => { isDatabaseInitialized := true, phase := Phase.listening }
  | Except.error _ => { server with phase := Phase.exited }

/-- Lexicographic order of two texts by code point. -/
def leChars : List Char → List Char → Bool
  | [], _ => true
  | _ :: _, [] => false
  | a :: as, b :: bs =>
    if a.toNat < b.toNat then true
    else if b.toNat < a.toNat then false
    else leChars as bs

/-- The collation that compares texts code point by code point. -/
def Collation.binary : Collation :=
  { le := fun a b => leChars a.data b.data,
    total := fun a b => by
      have key : ∀ x y : List Char, leChars x y = true ∨ leChars y x = true := by
        intro x
        induction x with
        | nil => intro y; exact Or.inl rfl
        | cons x xs ih =>
          intro y
          cases y with
          | nil => exact Or.inr rfl
          | cons y ys =>
            unfold leChars
            by_cases h1 : x.toNat < y.toNat
            · simp [h1]
            · by_cases h2 : y.toNat < x.toNat
              · simp [h2]
              · simp only [h1, h2, if_false]
                exact ih ys
      exact key a.data b.data,
    trans := fun a b c hab hbc => by
      have key : ∀ x y z : List Char, leChars x y = true → leChars y z = true →
          leChars x z = true := by
        intro x
        induction x with
        | nil => intro y z _ _; rfl
        | cons x xs ih =>
          intro y z hxy hyz
          cases y with
          | nil => simp [leChars] at hxy
          | cons y ys =>
            cases z with
            | nil => simp [leChars] at hyz
            | cons z zs =>
              unfold leChars at hxy hyz ⊢
              by_cases h1 : x.toNat < y.toNat
              · by_cases h2 : y.toNat < z.toNat
                · have : x.toNat < z.toNat := by omega
                  simp [this]
                · by_cases h3 : z.toNat < y.toNat
                  · simp [h2, h3] at hyz
                  · have : x.toNat < z.toNat := by omega
                    simp [this]
              · by_cases h1' : y.toNat < x.toNat
                · simp [h1, h1'] at hxy
                · simp only [h1, h1', if_false] at hxy
                  by_cases h2 : y.toNat < z.toNat
                  · have : x.toNat < z.toNat := by omega
                    simp [this]
                  · by_cases h3 : z.toNat < y.toNat
                    · simp [h2, h3] at hyz
                    · simp only [h2, h3, if_false] at hyz
                      have e1 : ¬ x.toNat < z.toNat := by omega
                      have e2 : ¬ z.toNat < x.toNat := by omega
                      simp only [e1, e2, if_false]
                      exact ih ys zs hxy hyz
      exact key a.data b.data c.data hab hbc }

/-! ## The form `AddRecipe` of the client -/

/-- An entry of the state `ingredients` of the form. -/
structure IngredientField where
  name : String
  amount : String
  unit : String
  deriving DecidableEq, Repr

/-- An entry of the state `steps` of the form. -/
structure StepField where
  instruction : String
  deriving DecidableEq, Repr

/-- A `File` chosen in the picture input: its size in bytes, its MIME type, and the data
URL a `FileReader` reads from it. -/
structure SelectedFile where
  size : Nat
  type : String
  dataUrl : String
  deriving DecidableEq, Repr

/-- The fields of an ingredient entry that carry a validation error or are edited. -/
inductive IngredientFieldName where
  | name
  | amount
  | unit
  deriving DecidableEq, Repr

/-- A key of the state `errors`: `name`, `ingredient_<index>_<field>`, `step_<index>`,
`cookingTime`, `estimatedPrice`, `rating`. -/
inductive ErrorKey where
  | name
  | ingredient (index : Nat) (field : IngredientFieldName)
  | step (index : Nat)
  | cookingTime
  | estimatedPrice
  | rating
  deriving DecidableEq, Repr

/-- The state of the component `AddRecipe`; `errors` lists the keys that are set, with
their messages. -/
structure FormState where
  name : String
  ingredients : List IngredientField
  steps : List StepField
  picture : Option SelectedFile
  picturePreview : Option String
  message : String
  messageType : String
  errors : List (ErrorKey × String)
  cookingTime : String
  estimatedPrice : String
  rating : String
  deriving DecidableEq, Repr

/-- The initial state: the arguments of the `useState` calls. -/
def FormState.initial : FormState :=
  { name := "", ingredients := [{ name := "", amount := "", unit := "" }],
    steps := [{ instruction := "" }], picture := none, picturePreview := none,
    message := "", messageType := "", errors := [], cookingTime := "",
    estimatedPrice := "", rating := "" }

/-- The statement `delete newErrors[key]`. -/
def deleteKey (key : ErrorKey) (errors : List (ErrorKey × String)) : List (ErrorKey × String) :=
  errors.filter (fun e => decide (e.1 ≠ key))

/-- The handler `addIngredient`. -/
def addIngredientField (form : FormState) : FormState :=
  { form with ingredients := form.ingredients ++ [{ name := "", amount := "", unit := "" }] }

/-- The handler `addStep`. -/
def addStep (form : FormState) : FormState :=
  { form with steps := form.steps ++ [{ instruction := "" }] }

/-- The handler `removeIngredient`: the entry at `index` is filtered out and the error
keys that start with `ingredient_<index>_` are deleted. -/
def removeIngredient (form : FormState) (index : Nat) : FormState :=
  if 1 < form.ingredients.length then
    { form with
      ingredients := form.ingredients.eraseIdx index,
      errors := form.errors.filter (fun e =>
        match e.1 with
        | ErrorKey.ingredient i _ => decide (i ≠ index)
        | _ => true) }
  else form

/-- The handler `removeStep`. -/
def removeStep (form : FormState) (index : Nat) : FormState :=
  if 1 < form.steps.length then
    { form with
      steps := form.steps.eraseIdx index,
      errors := deleteKey (ErrorKey.step index) form.errors }
  else form

/-- The assignment `newIngredients[index][field] = value`. -/
def setIngredientField (field : IngredientFieldName) (value : String)
    (entry : IngredientField) : IngredientField :=
  match field with
  | IngredientFieldName.name => { entry with name := value }
  | IngredientFieldName.amount => { entry with amount := value }
  | IngredientFieldName.unit => { entry with unit := value }

/-- The handler `handleIngredientChange`; with an index outside the list the assignment
throws and the state stays as it is. -/
def handleIngredientChange (form : FormState) (index : Nat) (field : IngredientFieldName)
    (value : String) : FormState :=
  if index < form.ingredients.length then
    { form with
      ingredients := form.ingredients.modify (setIngredientField field value) index,
      errors := deleteKey (ErrorKey.ingredient index field) form.errors }
  else form

/-- The handler `handleStepChange`; with an index outside the list the assignment throws
and the state stays as it is. -/
def handleStepChange (form : FormState) (index : Nat) (value : String) : FormState :=
  if index < form.steps.length then
    { form with
      steps := form.steps.modify (fun _ => { instruction := value }) index,
      errors := deleteKey (ErrorKey.step index) form.errors }
  else form

/-- The handler `handlePictureChange`, given `e.target.files[0]`. -/
def handlePictureChange (form : FormState) (file : Option SelectedFile) : FormState :=
  match file with
  | some f =>
    if 5 * 1024 * 1024 < f.size then
      { form with message := "File size must be less than 5MB", messageType := "error" }
    else if startsWith f.type "image/" = false then
      { form with message := "Please select an image file", messageType := "error" }
    else if form.messageType = "error" then
      { form with picture := some f, picturePreview := some f.dataUrl, message := "",
                  messageType := "" }
    else
      { form with picture := some f, picturePreview := some f.dataUrl }
  | none => { form with picture := none, picturePreview := none }

/-- The comparison `x <= k` on numbers: false when `x` is NaN. -/
def lessOrEqual (x : JsNumber) (k : Int) : Bool :=
  match x with
  | JsNumber.int n => decide (n ≤ k)
  | JsNumber.nan => false

/-- The errors the loop `ingredients.forEach` of `validateForm` sets, from `index` on. -/
def ingredientErrors (rt : JsRuntime) : Nat → List IngredientField → List (ErrorKey × String)
  | _, [] => []
  | index, ingredient :: rest =>
    (if trim ingredient.name = "" then
      [(ErrorKey.ingredient index IngredientFieldName.name, "Ingredient name is required")]
     else []) ++
    (if ingredient.amount = "" ∨
        lessOrEqual (rt.parseFloat (JsValue.string ingredient.amount)) 0 = true then
      [(ErrorKey.ingredient index IngredientFieldName.amount, "Valid amount is required")]
     else []) ++
    ingredientErrors rt (index + 1) rest

/-- The errors the loop `steps.forEach` of `validateForm` sets, from `index` on. -/
def stepErrors : Nat → List StepField → List (ErrorKey × String)
  | _, [] => []
  | index, step :: rest =>
    (if trim step.instruction = "" then
      [(ErrorKey.step index, "Step instruction is required")]
     else []) ++
    stepErrors (index + 1) rest

/-- The object `newErrors` that `validateForm` builds. -/
def formErrors (rt : JsRuntime) (form : FormState) : List (ErrorKey × String) :=
  (if trim form.name = "" then [(ErrorKey.name, "Recipe name is required")] else []) ++
  ingredientErrors rt 0 form.ingredients ++
  stepErrors 0 form.steps ++
  (if form.cookingTime ≠ "" ∧
      lessOrEqual (rt.parseFloat (JsValue.string form.cookingTime)) 0 = true then
    [(ErrorKey.cookingTime, "Cooking time must be positive")]
   else []) ++
  (if form.estimatedPrice ≠ "" ∧
      lessThan (rt.parseFloat (JsValue.string form.estimatedPrice)) 0 = true then
    [(ErrorKey.estimatedPrice, "Price cannot be negative")]
   else []) ++
  (if ratingOutOfRange rt (JsValue.string form.rating) = true then
    [(ErrorKey.rating, "Rating must be between 1 and 5")]
   else [])

/-- The function `validateForm`: the state with `errors` replaced, and whether no error
was set. -/
def validateForm (rt : JsRuntime) (form : FormState) : Bool × FormState :=
  (decide (formErrors rt form = []), { form with errors := formErrors rt form })

/-- An ingredient entry as the object `JSON.stringify` serialises. -/
def ingredientObject (ingredient : IngredientField) : JsValue :=
  JsValue.object
    [("name", JsValue.string ingredient.name), ("amount", JsValue.string ingredient.amount),
     ("unit", JsValue.string ingredient.unit)]

/-- A step entry as the object `JSON.stringify` serialises. -/
def stepObject (step : StepField) : JsValue :=
  JsValue.object [("instruction", JsValue.string step.instruction)]

/-- The array `ingredients.filter(ing => ing.name.trim())`. -/
def submittedIngredients (form : FormState) : List IngredientField :=
  form.ingredients.filter (fun ing => decide (trim ing.name ≠ ""))

/-- The array `steps.filter(step => step.instruction.trim())`. -/
def submittedSteps (form : FormState) : List StepField :=
  form.steps.filter (fun step => decide (trim step.instruction ≠ ""))

/-- A text field appended to the form data only when it is not empty. -/
def optionalField (text : String) : JsValue :=
  if text = "" then JsValue.undefined else JsValue.string text

/-- The request `handleSubmit` sends: the fields it appends to the `FormData`, as the
server receives them. `stringify` is `JSON.stringify`; `filename` is the name the
server gives the uploaded picture. -/
def formRequest (stringify : JsValue → String) (filename : String) (form : FormState) :
    CreateRequest :=
  { body :=
      { name := JsValue.string (trim form.name),
        ingredients :=
          JsValue.string
            (stringify (JsValue.array ((submittedIngredients form).map ingredientObject))),
        steps :=
          JsValue.string (stringify (JsValue.array ((submittedSteps form).map stepObject))),
        cooking_time := optionalField form.cookingTime,
        estimated_price := optionalField form.estimatedPrice,
        rating := optionalField form.rating },
    picture :=
      form.picture.map (fun f => { mimetype := f.type, size := f.size, filename := filename }) }

/-- The function `handleSubmit`, given whether the response of the server is `ok` and
the id it carries: an invalid form gets the errors and a message; after an `ok`
response the form is reset. -/
def handleSubmit (rt : JsRuntime) (form : FormState) (responseOk : Bool) (success : String)
    (failure : String) : FormState :=
  if (validateForm rt form).1 = false then
    { (validateForm rt form).2 with
      message := "Please fix the errors below", messageType := "error" }
  else if responseOk then
    { FormState.initial with message := success, messageType := "success" }
  else
    { (validateForm rt form).2 with message := failure, messageType := "error" }

/-- The function `handleClick` of `StarRating`: the new rating. -/
def handleClick (rating starValue : Int) : Int :=
  if rating = starValue then 0 else starValue

/-- The expression `parseInt(rating) || 0`, the prop `rating` of `StarRating`. -/
def ratingProp (rt : JsRuntime) (form : FormState) : Int :=
  match rt.parseInt (JsValue.string form.rating) with
  | JsNumber.int n => n
  | JsNumber.nan => 0

/-- A click on the star `starValue`: `handleClick` computes the new rating, the prop
`setRating` stores `newRating.toString()` and deletes the key `rating` of `errors`. -/
def clickStar (rt : JsRuntime) (form : FormState) (starValue : Int) : FormState :=
  { form with
    rating := toString (handleClick (ratingProp rt form) starValue),
    errors := deleteKey ErrorKey.rating form.errors }

/-- The events of the form that change the lists of ingredients and steps. -/
inductive FormAction where
  | addIngredient
  | removeIngredient (index : Nat)
  | addStep
  | removeStep (index : Nat)
  | ingredientChange (index : Nat) (field : IngredientFieldName) (value : String)
  | stepChange (index : Nat) (value : String)
  | nameChange (value : String)
  | pictureChange (file : Option SelectedFile)
  | starClick (starValue : Int)
  | submit (responseOk : Bool) (success failure : String)

/-- The state after an event. -/
def applyAction (rt : JsRuntime) (form : FormState) : FormAction → FormState
  | FormAction.addIngredient => addIngredientField form
  | FormAction.removeIngredient index => removeIngredient form index
  | FormAction.addStep => addStep form
  | FormAction.removeStep index => removeStep form index
  | FormAction.ingredientChange index field value =>
    handleIngredientChange form index field value
  | FormAction.stepChange index value => handleStepChange form index value
  | FormAction.nameChange value =>
    { form with name := value, errors := deleteKey ErrorKey.name form.errors }
  | FormAction.pictureChange file => handlePictureChange form file
  | FormAction.starClick starValue => clickStar rt form starValue
  | FormAction.submit responseOk success failure =>
    handleSubmit rt form responseOk success failure

/-- The state after a sequence of events. -/
def applyActions (rt : JsRuntime) (form : FormState) : List FormAction → FormState
  | [] => form
  | action :: rest => applyActions rt (applyAction rt form action) rest

/-! ## The page `Home` of the client -/

/-- The function `formatTime`; an absent value is `none`. -/
def formatTime (minutes : Option Nat) : String :=
  match minutes with
  | none => "---"
  | some n =>
    if n = 0 then "---"
    else if n < 60 then toString n ++ "m"
    else if 0 < n % 60 then toString (n / 60) ++ "h " ++ toString (n % 60) ++ "m"
    else toString (n / 60) ++ "h"

/-! ## Sample inputs -/

/-- A recipe with two ingredient lines and two steps. -/
def soup : RecipeData :=
  { name := some "Soup", picture_path := none, cooking_time := some 20,
    estimated_price := none, rating := some 4,
    ingredients :=
      [{ name := some "Salt", amount := some 1, unit := some "tsp" },
       { name := some "Water", amount := some 2, unit := none }],
    steps := [{ instruction := some "Boil" }, { instruction := some "Serve" }] }

/-- The recipe `soup` with a second step that has no instruction. -/
def brokenSoup : RecipeData :=
  { soup with steps := [{ instruction := some "Boil" }, { instruction := none }] }

/-- A transaction on the database that holds `soup`, in which a second recipe row has
just been inserted. -/
def stewTx : Tx :=
  (insertRecipe (Tx.begin (addRecipe createTables soup 7).2) (some "Stew") none none none none
    9).2

/-- An ingredient line naming an ingredient that `soup` has stored. -/
def saltLine : IngredientInput :=
  { name := some "Salt", amount := some 3, unit := some "g" }

/-- The recipe `soup` submitted with a rating of 0. -/
def zeroRatedSoup : RecipeData :=
  { soup with rating := some 0 }

/-- The recipe `soup` submitted with a rating of 6. -/
def sixStarSoup : RecipeData :=
  { soup with rating := some 6 }

/-- The value of a decimal digit. -/
def digitValue (c : Char) : Option Nat :=
  if 48 ≤ c.toNat ∧ c.toNat ≤ 57 then some (c.toNat - 48) else none

/-- The decimal digits a text starts with, most significant first. -/
def leadingDigits : List Char → List Nat
  | [] => []
  | c :: cs =>
    match digitValue c with
    | some d => d :: leadingDigits cs
    | none => []

/-- The number a list of decimal digits denotes. -/
def digitsValue (digits : List Nat) : Nat :=
  digits.foldl (fun acc d => 10 * acc + d) 0

/-- The digits of `leadingDigits` as a number, NaN when there is none. -/
def signedDigits (negative : Bool) (cs : List Char) : JsNumber :=
  match leadingDigits cs with
  | [] => JsNumber.nan
  | d :: ds =>
    if negative then JsNumber.int (-(digitsValue (d :: ds) : Int))
    else JsNumber.int (digitsValue (d :: ds))

/-- `parseInt` on a text in base 10: white space, a sign, then the digits up to the first
other character. -/
def parseIntText (s : String) : JsNumber :=
  match s.data.dropWhile isWhiteSpace with
  | '-' :: rest => signedDigits true rest
  | '+' :: rest => signedDigits false rest
  | rest => signedDigits false rest

/-- `Number` on a text that holds no fraction, exponent or base prefix: the integer the
trimmed text denotes, 0 for an empty one, NaN when another character occurs. -/
def toNumberText (s : String) : JsNumber :=
  let cs := (trim s).data
  let digits := match cs with
    | '-' :: rest => rest
    | '+' :: rest => rest
    | rest => rest
  if cs = [] then JsNumber.int 0
  else if (leadingDigits digits).length = digits.length then parseIntText s
  else JsNumber.nan

/-- A runtime for the sample requests. It reads a text that holds a decimal integer, or
that does not start with a number, as JavaScript does, passes a number through, and knows
the JSON texts the samples use. -/
def sampleRuntime : JsRuntime :=
  { toNumber := fun v =>
      match v with
      | JsValue.string s => toNumberText s
      | JsValue.number n => n
      | _ => JsNumber.nan,
    parseInt := fun v =>
      match v with
      | JsValue.string s => parseIntText s
      | JsValue.number n => n
      | _ => JsNumber.nan,
    parseFloat := fun v =>
      match v with
      | JsValue.string s => parseIntText s
      | JsValue.number n => n
      | _ => JsNumber.nan,
    jsonParse := fun s =>
      if s = "[]" then some (JsValue.array [])
      else if s = "\x7b\x7d" then some (JsValue.object [])
      else none }

/-- The ingredient lines and the steps of `soup` as JSON values. -/
def soupIngredients : JsValue :=
  JsValue.array
    [JsValue.object [("name", JsValue.string "Salt"), ("amount", JsValue.string "1"),
       ("unit", JsValue.string "tsp")],
     JsValue.object [("name", JsValue.string "Water"), ("amount", JsValue.string "2"),
       ("unit", JsValue.string "")]]

/-- The steps of `soup` as a JSON value. -/
def soupSteps : JsValue :=
  JsValue.array
    [JsValue.object [("instruction", JsValue.string "Boil")],
     JsValue.object [("instruction", JsValue.string " Serve ")]]

/-- A create request for `soup`, without a picture. -/
def soupRequest : CreateRequest :=
  { body :=
      { name := JsValue.string "Soup", ingredients := soupIngredients, steps := soupSteps,
        cooking_time := JsValue.string "20", estimated_price := JsValue.undefined,
        rating := JsValue.string "4" },
    picture := none }

/-- The request `soupRequest` with another rating. -/
def ratedRequest (rating : String) : CreateRequest :=
  { soupRequest with body := { soupRequest.body with rating := JsValue.string rating } }

/-- The request `soupRequest` with another name. -/
def namedRequest (name : JsValue) : CreateRequest :=
  { soupRequest with body := { soupRequest.body with name := name } }

/-- The request `soupRequest` with a picture. -/
def pictureRequest (mimetype : String) (size : Nat) : CreateRequest :=
  { soupRequest with
    picture := some { mimetype := mimetype, size := size, filename := "recipe-1-2.png" } }

/-- The request `soupRequest` with another `ingredients` field. -/
def ingredientsRequest (ingredients : JsValue) : CreateRequest :=
  { soupRequest with body := { soupRequest.body with ingredients := ingredients } }

/-- A create request with a negative cooking time, price and amount. -/
def negativeRequest : CreateRequest :=
  { body :=
      { name := JsValue.string "Stock",
        ingredients :=
          JsValue.array
            [JsValue.object [("name", JsValue.string "Bones"), ("amount", JsValue.string "-1"),
               ("unit", JsValue.string "kg")]],
        steps := JsValue.array [JsValue.object [("instruction", JsValue.string "Simmer")]],
        cooking_time := JsValue.string "-5", estimated_price := JsValue.string "-2",
        rating := JsValue.undefined },
    picture := none }

/-- A second recipe that names the ingredient "Water" of `soup`, with a unit. -/
def tea : RecipeData :=
  { name := some "Tea", picture_path := none, cooking_time := none, estimated_price := none,
    rating := none,
    ingredients := [{ name := some "Water", amount := some 3, unit := some "dl" }],
    steps := [{ instruction := some "Steep" }] }

/-- An image file of exactly 5MB. -/
def fiveMegabyteImage : SelectedFile :=
  { size := 5 * 1024 * 1024, type := "image/png", dataUrl := "data:image/png;base64," }

/-- The recipe `soup` submitted with an estimated price of 0. -/
def freeSoup : RecipeData :=
  { soup with estimated_price := some 0 }

/-- The recipe `soup` with an estimated price of `2^24 + 1`, which single precision
does not represent. -/
def oddPriceSoup : RecipeData :=
  { soup with estimated_price := some 16777217 }

/-- The recipe `soup` with `2^24 + 1` of salt, an amount single precision does not
represent. -/
def saltMine : RecipeData :=
  { soup with
    ingredients := [{ name := some "Salt", amount := some 16777217, unit := some "tsp" }] }

/-- A form filled in with the recipe `soup`, without rating. -/
def soupForm : FormState :=
  { FormState.initial with
    name := "Soup",
    ingredients :=
      [{ name := "Salt", amount := "1", unit := "tsp" },
       { name := "Water", amount := "2", unit := "" }],
    steps := [{ instruction := "Boil" }, { instruction := "Serve" }],
    cookingTime := "20" }

/-- A form with a second ingredient and a second step that are still blank. -/
def draftForm : FormState :=
  { FormState.initial with
    name := "Soup",
    ingredients :=
      [{ name := "Salt", amount := "1", unit := "tsp" }, { name := "", amount := "", unit := "" }],
    steps := [{ instruction := "Boil" }, { instruction := "" }] }

/-- The form `draftForm` after `validateForm` has set its errors. -/
def markedForm : FormState :=
  (validateForm sampleRuntime draftForm).2

/-- `JSON.stringify` on a text that holds no character to escape. -/
def quoteText (s : String) : String :=
  "\"" ++ s ++ "\""

/-- `JSON.stringify` on an object whose fields hold such texts. -/
def objectText (v : JsValue) : String :=
  match v with
  | JsValue.object fields =>
    "\x7b" ++ ",".intercalate (fields.map (fun f =>
      match f.2 with
      | JsValue.string s => quoteText f.1 ++ ":" ++ quoteText s
      | _ => quoteText f.1 ++ ":null")) ++ "\x7d"
  | _ => "null"

/-- `JSON.stringify` on an array of such objects, as `handleSubmit` calls it. -/
def arrayText (v : JsValue) : String :=
  match v with
  | JsValue.array items => "[" ++ ",".intercalate (items.map objectText) ++ "]"
  | _ => "null"

/-- The runtime `sampleRuntime` with a `JSON.parse` that knows the two texts the form
`soupForm` is serialised to. -/
def formRuntime : JsRuntime :=
  { sampleRuntime with
    jsonParse := fun s =>
      if s = arrayText (JsValue.array (soupForm.ingredients.map ingredientObject)) then
        some (JsValue.array (soupForm.ingredients.map ingredientObject))
      else if s = arrayText (JsValue.array (soupForm.steps.map stepObject)) then
        some (JsValue.array (soupForm.steps.map stepObject))
      else none }

/-! ## Sequences and input constraints -/

/-- The ids of the rows were drawn from the sequences: none is beyond the last value of
its sequence. -/
structure SeqAhead (t : Tables) (q : Sequences) : Prop where
  recipes : ∀ r ∈ t.recipes, r.id ≤ q.recipes
  ingredients : ∀ r ∈ t.ingredients, r.id ≤ q.ingredients
  recipe_ingredients : ∀ r ∈ t.recipe_ingredients, r.id ≤ q.recipe_ingredients
  recipe_steps : ∀ r ∈ t.recipe_steps, r.id ≤ q.recipe_steps

/-- The sequences can hand out the values one `addRecipe` call for `data` draws. -/
structure SeqRoom (q : Sequences) (data : RecipeData) : Prop where
  recipes : q.recipes < int4Max
  ingredients : q.ingredients + data.ingredients.length ≤ int4Max
  recipe_ingredients : q.recipe_ingredients + data.ingredients.length ≤ int4Max
  recipe_steps : q.recipe_steps + data.steps.length ≤ int4Max

/-- The documented constraints on the input of `addRecipe`: a non-empty name, ingredient
lines with a name and an amount greater than 0, non-empty instructions, a cooking time
greater than 0, a price of at least 0 and a rating in 1..5 where given. -/
structure DocumentedInput (data : RecipeData) : Prop where
  name : ∃ n, data.name = some n ∧ n ≠ ""
  lines : ∀ line ∈ data.ingredients,
    (∃ n, line.name = some n ∧ n ≠ "") ∧ ∃ a, line.amount = some (JsNumber.int a) ∧ 0 < a
  steps : ∀ step ∈ data.steps, ∃ t, step.instruction = some t ∧ t ≠ ""
  cooking_time : ∀ v, data.cooking_time = some v → 0 < v
  estimated_price : ∀ v, data.estimated_price = some v → 0 ≤ v
  rating : ∀ v, data.rating = some v → 1 ≤ v ∧ v ≤ 5

/-- What the columns ask beyond the documented constraints: no ingredient name on two
lines, a cooking time in the range of `INTEGER`, a price and amounts in the range of `REAL`. -/
structure StorableInput (data : RecipeData) : Prop where
  distinct : (data.ingredients.map (fun l => l.name)).Nodup
  cooking_time : inInt4 data.cooking_time = true
  estimated_price : inReal data.estimated_price = true
  amounts : ∀ line ∈ data.ingredients, inRealNumber line.amount = true

/-- The recipe `soup` with the ingredient "Salt" on two lines. -/
def saltySoup : RecipeData :=
  { soup with
    ingredients :=
      [{ name := some "Salt", amount := some 1, unit := some "tsp" },
       { name := some "Salt", amount := some 2, unit := some "tsp" }] }

/-- The recipe `soup` with a cooking time one beyond the range of `INTEGER`. -/
def slowSoup : RecipeData :=
  { soup with cooking_time := some 2147483648 }

/-- The recipe `soup` with a price of `10^39`, beyond the range of `REAL`. -/
def pricedSoup : RecipeData :=
  { soup with estimated_price := some 1000000000000000000000000000000000000000 }

/-- A database holding a recipe row with id 1 whose sequences were never advanced, as after
rows are loaded with explicit ids. -/
def restoredDb : Database :=
  { tables :=
      { recipes :=
          [{ id := 1, name := "Tea", picture_path := none, cooking_time := none,
             estimated_price := none, rating := none, created_at := some 1,
             updated_at := some 1 }],
        ingredients := [], recipe_ingredients := [], recipe_steps := [] },
    seqs := createTables.seqs }

/-- The empty database with the sequence of `recipes.id` at its last value. -/
def exhaustedDb : Database :=
  { tables := createTables.tables,
    seqs := { createTables.seqs with recipes := int4Max } }

/-! ## Statements: what a result tells about the transaction -/

/-! ## Single precision -/

theorem pow_realShift_le (fuel : Nat) : ∀ m : Nat, 1 ≤ m → 2 ^ realShift fuel m ≤ m := by
  induction fuel with
  | zero => intro m hm; simpa [realShift] using hm
  | succ fuel ih =>
    intro m hm
    unfold realShift
    split_ifs with h
    · simpa using hm
    · have h2 : 1 ≤ m / 2 := by omega
      have := ih (m / 2) h2
      rw [pow_succ]
      omega

theorem roundReal_pos {m : Nat} (hm : 1 ≤ m) : 1 ≤ roundReal m := by
  have hle := pow_realShift_le 128 m hm
  have hpos : 0 < 2 ^ realShift 128 m := pow_pos (by decide) _
  have hq : 1 ≤ m / 2 ^ realShift 128 m := (Nat.one_le_div_iff hpos).mpr hle
  have h1 : 1 ≤ m / 2 ^ realShift 128 m * 2 ^ realShift 128 m := Nat.mul_pos hq hpos
  have h2 : 1 ≤ (m / 2 ^ realShift 128 m + 1) * 2 ^ realShift 128 m :=
    Nat.mul_pos (Nat.succ_pos _) hpos
  unfold roundReal
  dsimp only
  split_ifs <;> assumption

theorem roundReal_exact {m : Nat} (hm : m ≤ 16777216) : roundReal m = m := by
  rcases Nat.lt_or_ge m 16777216 with h | h
  · have he : realShift 128 m = 0 := by
      show realShift (127 + 1) m = 0
      unfold realShift
      simp [h]
    unfold roundReal
    simp [he, Nat.mod_one]
  · have he : m = 16777216 := le_antisymm hm h
    subst he
    decide

theorem toReal_eq_zero {v : Int} : toReal v = 0 ↔ v = 0 := by
  constructor
  · intro h
    by_contra hv
    have hm : 1 ≤ v.natAbs := Int.natAbs_pos.mpr hv
    have := roundReal_pos hm
    unfold toReal at h
    split_ifs at h <;> omega
  · rintro rfl
    decide

theorem toReal_exact {v : Int} (hlo : -16777216 ≤ v) (hhi : v ≤ 16777216) : toReal v = v := by
  have hm : v.natAbs ≤ 16777216 := by omega
  unfold toReal
  rw [roundReal_exact hm]
  split_ifs <;> omega


theorem insertRecipe_ok {tx tx' : Tx} {name picture_path : Option String}
    {ct ep rating : Option Int} {now id : Nat}
    (h : insertRecipe tx name picture_path ct ep rating now = (Except.ok id, tx')) :
    tx.aborted = false ∧ id ∉ tx.tables.recipes.map (fun r => r.id) ∧
    ratingCheck rating = true ∧ inInt4 ct = true ∧ inInt4 rating = true ∧
    ∃ n, name = some n ∧
      tx' = { tables := { tx.tables with recipes := tx.tables.recipes ++
                [{ id := id, name := n, picture_path := picture_path, cooking_time := ct,
                   estimated_price := ep.map toReal, rating := rating,
                   created_at := some now, updated_at := some now }] },
              seqs := { tx.seqs with recipes := id }, aborted := false } := by
  cases name with
  | none => unfold insertRecipe at h; split_ifs at h <;> simp [Tx.raise] at h
  | some n =>
    unfold insertRecipe at h
    dsimp only at h
    split_ifs at h with h1 h2 h3 h4 h5 <;> simp [Tx.raise] at h
    obtain ⟨rfl, rfl⟩ := h
    simp at h1 h2 h4
    exact ⟨h1, h5, h4, h2.1, h2.2.1, n, rfl, by simp [h1]⟩

theorem insertRecipe_error {tx tx' : Tx} {name picture_path : Option String}
    {ct ep rating : Option Int} {now : Nat} {e : DbError}
    (h : insertRecipe tx name picture_path ct ep rating now = (Except.error e, tx')) :
    tx'.aborted = true ∧ tx'.tables = tx.tables := by
  cases name <;>
  · unfold insertRecipe at h
    dsimp only at h
    split_ifs at h with h1 <;> simp [Tx.raise] at h <;> obtain ⟨-, rfl⟩ := h <;> simp [h1]

theorem upsertIngredient_ok {tx tx' : Tx} {name unit : Option String} {id : Nat}
    (h : upsertIngredient tx name unit = (Except.ok id, tx')) :
    tx.aborted = false ∧ ∃ n, name = some n ∧
      ((∃ row, tx.tables.ingredients.find? (fun r => decide (r.name = n)) = some row ∧
          id = row.id ∧
          tx' = { tables := { tx.tables with ingredients :=
                    tx.tables.ingredients.map (setUnit n unit) },
                  seqs := { tx.seqs with ingredients := tx.seqs.ingredients + 1 },
                  aborted := false }) ∨
       (tx.tables.ingredients.find? (fun r => decide (r.name = n)) = none ∧
          id = tx.seqs.ingredients + 1 ∧
          id ∉ tx.tables.ingredients.map (fun r => r.id) ∧
          tx' = { tables := { tx.tables with ingredients :=
                    tx.tables.ingredients ++ [{ id := id, name := n, unit := unit }] },
                  seqs := { tx.seqs with ingredients := id },
                  aborted := false })) := by
  cases name with
  | none => unfold upsertIngredient at h; split_ifs at h <;> simp [Tx.raise] at h
  | some n =>
    unfold upsertIngredient at h
    dsimp only at h
    cases hf : tx.tables.ingredients.find? (fun r => decide (r.name = n)) with
    | some row =>
      rw [hf] at h
      dsimp only at h
      split_ifs at h with h1 h2 <;> simp [Tx.raise] at h
      obtain ⟨rfl, rfl⟩ := h
      simp at h1
      exact ⟨h1, n, rfl, Or.inl ⟨row, hf, rfl, by simp [h1]⟩⟩
    | none =>
      rw [hf] at h
      dsimp only at h
      split_ifs at h with h1 h2 h3 <;> simp [Tx.raise] at h
      obtain ⟨rfl, rfl⟩ := h
      simp at h1
      exact ⟨h1, n, rfl, Or.inr ⟨hf, rfl, h3, by simp [h1]⟩⟩

theorem upsertIngredient_error {tx tx' : Tx} {name unit : Option String} {e : DbError}
    (h : upsertIngredient tx name unit = (Except.error e, tx')) :
    tx'.aborted = true ∧ tx'.tables = tx.tables := by
  cases name with
  | none =>
    unfold upsertIngredient at h
    split_ifs at h with h1 <;> simp [Tx.raise] at h <;> obtain ⟨-, rfl⟩ := h <;> simp [h1]
  | some n =>
    unfold upsertIngredient at h
    dsimp only at h
    cases hf : tx.tables.ingredients.find? (fun r => decide (r.name = n)) <;>
    · rw [hf] at h
      dsimp only at h
      split_ifs at h with h1 <;> simp [Tx.raise] at h <;> obtain ⟨-, rfl⟩ := h <;> simp [h1]

theorem selectIngredientId_aborted {tx : Tx} (name : Option String) (h : tx.aborted = true) :
    selectIngredientId tx name = (Except.error DbError.inFailedTransaction, tx) := by
  simp [selectIngredientId, h]

theorem insertRecipeIngredient_ok {tx tx' : Tx} {recipe_id ingredient_id : Nat}
    {amount : Option JsNumber} {unit : Option String}
    (h : insertRecipeIngredient tx recipe_id ingredient_id amount unit = (Except.ok (), tx')) :
    tx.aborted = false ∧
    tx.seqs.recipe_ingredients + 1 ∉ tx.tables.recipe_ingredients.map (fun r => r.id) ∧
    (recipe_id, ingredient_id) ∉
      tx.tables.recipe_ingredients.map (fun r => (r.recipe_id, r.ingredient_id)) ∧
    recipe_id ∈ tx.tables.recipes.map (fun r => r.id) ∧
    ingredient_id ∈ tx.tables.ingredients.map (fun r => r.id) ∧
    ∃ a, amount = some a ∧
      tx' = { tables := { tx.tables with recipe_ingredients :=
                tx.tables.recipe_ingredients ++
                  [{ id := tx.seqs.recipe_ingredients + 1, recipe_id := recipe_id,
                     ingredient_id := ingredient_id, amount := toRealNumber a,
                     unit := unit }] },
              seqs := { tx.seqs with recipe_ingredients := tx.seqs.recipe_ingredients + 1 },
              aborted := false } := by
  cases amount with
  | none => unfold insertRecipeIngredient at h; split_ifs at h <;> simp [Tx.raise] at h
  | some a =>
    unfold insertRecipeIngredient at h
    dsimp only at h
    split_ifs at h with h1 h0 h2 h3 h4 h5 h6 <;> simp [Tx.raise] at h
    subst h
    simp at h1
    exact ⟨h1, h3, h4, h5, h6, a, rfl, by simp [h1]⟩

theorem insertRecipeIngredient_error {tx tx' : Tx} {recipe_id ingredient_id : Nat}
    {amount : Option JsNumber} {unit : Option String} {e : DbError}
    (h : insertRecipeIngredient tx recipe_id ingredient_id amount unit = (Except.error e, tx')) :
    tx'.aborted = true ∧ tx'.tables = tx.tables := by
  cases amount <;>
  · unfold insertRecipeIngredient at h
    dsimp only at h
    split_ifs at h with h1 <;> simp [Tx.raise] at h <;> obtain ⟨-, rfl⟩ := h <;> simp [h1]

theorem insertRecipeStep_ok {tx tx' : Tx} {recipe_id step_number id : Nat}
    {instruction : Option String}
    (h : insertRecipeStep tx recipe_id step_number instruction = (Except.ok id, tx')) :
    tx.aborted = false ∧ id = tx.seqs.recipe_steps + 1 ∧
    id ∉ tx.tables.recipe_steps.map (fun r => r.id) ∧
    (recipe_id, step_number) ∉
      tx.tables.recipe_steps.map (fun r => (r.recipe_id, r.step_number)) ∧
    recipe_id ∈ tx.tables.recipes.map (fun r => r.id) ∧
    ∃ text, instruction = some text ∧
      tx' = { tables := { tx.tables with recipe_steps :=
                tx.tables.recipe_steps ++
                  [{ id := id, recipe_id := recipe_id, step_number := step_number,
                     instruction := text }] },
              seqs := { tx.seqs with recipe_steps := id },
              aborted := false } := by
  cases instruction with
  | none => unfold insertRecipeStep at h; split_ifs at h <;> simp [Tx.raise] at h
  | some text =>
    unfold insertRecipeStep at h
    dsimp only at h
    split_ifs at h with h1 h2 h3 h4 h5 <;> simp [Tx.raise] at h
    obtain ⟨rfl, rfl⟩ := h
    simp at h1
    exact ⟨h1, rfl, h3, h4, h5, text, rfl, by simp [h1]⟩

theorem insertRecipeStep_error {tx tx' : Tx} {recipe_id step_number : Nat}
    {instruction : Option String} {e : DbError}
    (h : insertRecipeStep tx recipe_id step_number instruction = (Except.error e, tx')) :
    tx'.aborted = true ∧ tx'.tables = tx.tables := by
  cases instruction <;>
  · unfold insertRecipeStep at h
    dsimp only at h
    split_ifs at h with h1 <;> simp [Tx.raise] at h <;> obtain ⟨-, rfl⟩ := h <;> simp [h1]

/-! ## The schema constraints are preserved -/

theorem nodup_map_concat {α β : Type} {f : α → β} {l : List α} {a : α}
    (h : (l.map f).Nodup) (ha : f a ∉ l.map f) : ((l ++ [a]).map f).Nodup := by
  rw [List.map_append, List.nodup_append]
  refine ⟨h, by simp, ?_⟩
  intro x hx hx'
  simp at hx'
  subst hx'
  exact ha hx

theorem map_id_setUnit (n : String) (u : Option String) (l : List IngredientRow) :
    (l.map (setUnit n u)).map (fun r => r.id) = l.map (fun r => r.id) := by
  rw [List.map_map]
  apply List.map_congr_left
  intro r _
  simp only [Function.comp, setUnit]
  split_ifs <;> rfl

theorem map_name_setUnit (n : String) (u : Option String) (l : List IngredientRow) :
    (l.map (setUnit n u)).map (fun r => r.name) = l.map (fun r => r.name) := by
  rw [List.map_map]
  apply List.map_congr_left
  intro r _
  simp only [Function.comp, setUnit]
  split_ifs <;> rfl

theorem find_name_none {l : List IngredientRow} {n : String}
    (h : l.find? (fun r => decide (r.name = n)) = none) : n ∉ l.map (fun r => r.name) := by
  intro hn
  obtain ⟨r, hr, rfl⟩ := List.mem_map.mp hn
  have := List.find?_eq_none.mp h r hr
  simp at this

theorem find_name_some {l : List IngredientRow} {n : String} {row : IngredientRow}
    (h : l.find? (fun r => decide (r.name = n)) = some row) : row ∈ l ∧ row.name = n := by
  refine ⟨List.mem_of_find?_eq_some h, ?_⟩
  simpa using List.find?_some h

theorem valid_insertRecipe {tx tx' : Tx} {name picture_path : Option String}
    {ct ep rating : Option Int} {now id : Nat} (hv : tx.tables.Valid)
    (h : insertRecipe tx name picture_path ct ep rating now = (Except.ok id, tx')) :
    tx'.tables.Valid := by
  obtain ⟨-, hid, hr, -, -, n, -, rfl⟩ := insertRecipe_ok h
  constructor
  · exact nodup_map_concat hv.recipes_pkey hid
  · intro r hr'
    simp at hr'
    rcases hr' with hr' | rfl
    · exact hv.recipes_rating_check r hr'
    · exact hr
  · exact hv.ingredients_pkey
  · exact hv.ingredients_name_key
  · exact hv.recipe_ingredients_pkey
  · exact hv.recipe_ingredients_key
  · intro r hr'
    have := hv.recipe_ingredients_recipe_fkey r hr'
    simp at this ⊢
    exact Or.inl this
  · exact hv.recipe_ingredients_ingredient_fkey
  · exact hv.recipe_steps_pkey
  · exact hv.recipe_steps_key
  · intro r hr'
    have := hv.recipe_steps_recipe_fkey r hr'
    simp at this ⊢
    exact Or.inl this

theorem valid_upsertIngredient {tx tx' : Tx} {name unit : Option String} {id : Nat}
    (hv : tx.tables.Valid) (h : upsertIngredient tx name unit = (Except.ok id, tx')) :
    tx'.tables.Valid := by
  obtain ⟨-, n, -, h⟩ := upsertIngredient_ok h
  rcases h with ⟨row, -, -, rfl⟩ | ⟨hf, -, hid, rfl⟩
  · constructor
    · exact hv.recipes_pkey
    · exact hv.recipes_rating_check
    · simpa only [map_id_setUnit] using hv.ingredients_pkey
    · simpa only [map_name_setUnit] using hv.ingredients_name_key
    · exact hv.recipe_ingredients_pkey
    · exact hv.recipe_ingredients_key
    · exact hv.recipe_ingredients_recipe_fkey
    · intro r hr
      simpa only [map_id_setUnit] using hv.recipe_ingredients_ingredient_fkey r hr
    · exact hv.recipe_steps_pkey
    · exact hv.recipe_steps_key
    · exact hv.recipe_steps_recipe_fkey
  · constructor
    · exact hv.recipes_pkey
    · exact hv.recipes_rating_check
    · exact nodup_map_concat hv.ingredients_pkey hid
    · exact nodup_map_concat hv.ingredients_name_key (find_name_none hf)
    · exact hv.recipe_ingredients_pkey
    · exact hv.recipe_ingredients_key
    · exact hv.recipe_ingredients_recipe_fkey
    · intro r hr
      have := hv.recipe_ingredients_ingredient_fkey r hr
      simp at this ⊢
      exact Or.inl this
    · exact hv.recipe_steps_pkey
    · exact hv.recipe_steps_key
    · exact hv.recipe_steps_recipe_fkey

theorem valid_insertRecipeIngredient {tx tx' : Tx} {recipe_id ingredient_id : Nat}
    {amount : Option JsNumber} {unit : Option String} (hv : tx.tables.Valid)
    (h : insertRecipeIngredient tx recipe_id ingredient_id amount unit = (Except.ok (), tx')) :
    tx'.tables.Valid := by
  obtain ⟨-, hid, hkey, hr, hi, a, -, rfl⟩ := insertRecipeIngredient_ok h
  constructor
  · exact hv.recipes_pkey
  · exact hv.recipes_rating_check
  · exact hv.ingredients_pkey
  · exact hv.ingredients_name_key
  · exact nodup_map_concat hv.recipe_ingredients_pkey hid
  · exact nodup_map_concat hv.recipe_ingredients_key hkey
  · intro r hr'
    simp only [List.mem_append, List.mem_singleton] at hr'
    rcases hr' with hr' | rfl
    · exact hv.recipe_ingredients_recipe_fkey r hr'
    · exact hr
  · intro r hr'
    simp only [List.mem_append, List.mem_singleton] at hr'
    rcases hr' with hr' | rfl
    · exact hv.recipe_ingredients_ingredient_fkey r hr'
    · exact hi
  · exact hv.recipe_steps_pkey
  · exact hv.recipe_steps_key
  · exact hv.recipe_steps_recipe_fkey

theorem valid_insertRecipeStep {tx tx' : Tx} {recipe_id step_number id : Nat}
    {instruction : Option String} (hv : tx.tables.Valid)
    (h : insertRecipeStep tx recipe_id step_number instruction = (Except.ok id, tx')) :
    tx'.tables.Valid := by
  obtain ⟨-, -, hid, hkey, hr, text, -, rfl⟩ := insertRecipeStep_ok h
  constructor
  · exact hv.recipes_pkey
  · exact hv.recipes_rating_check
  · exact hv.ingredients_pkey
  · exact hv.ingredients_name_key
  · exact hv.recipe_ingredients_pkey
  · exact hv.recipe_ingredients_key
  · exact hv.recipe_ingredients_recipe_fkey
  · exact hv.recipe_ingredients_ingredient_fkey
  · exact nodup_map_concat hv.recipe_steps_pkey hid
  · exact nodup_map_concat hv.recipe_steps_key hkey
  · intro r hr'
    simp only [List.mem_append, List.mem_singleton] at hr'
    rcases hr' with hr' | rfl
    · exact hv.recipe_steps_recipe_fkey r hr'
    · exact hr

/-! ## The loops of `addRecipe` -/

theorem addIngredient_ok {recipeId : Nat} {ing : IngredientInput} {tx tx' : Tx}
    (h : addIngredient recipeId ing tx = (Except.ok (), tx')) :
    ∃ id tx1, upsertIngredient tx ing.name (orNullText ing.unit) = (Except.ok id, tx1) ∧
      insertRecipeIngredient tx1 recipeId id ing.amount ing.unit = (Except.ok (), tx') := by
  unfold addIngredient at h
  rcases hu : upsertIngredient tx ing.name (orNullText ing.unit) with ⟨res, tx1⟩
  rw [hu] at h
  cases res with
  | error e =>
    have hab := (upsertIngredient_error hu).1
    simp [selectIngredientId_aborted _ hab] at h
  | ok id =>
    simp at h
    exact ⟨id, tx1, rfl, h⟩

theorem addIngredient_error {recipeId : Nat} {ing : IngredientInput} {tx tx' : Tx} {e : DbError}
    (h : addIngredient recipeId ing tx = (Except.error e, tx')) : tx'.aborted = true := by
  unfold addIngredient at h
  rcases hu : upsertIngredient tx ing.name (orNullText ing.unit) with ⟨res, tx1⟩
  rw [hu] at h
  cases res with
  | error e1 =>
    have hab := (upsertIngredient_error hu).1
    simp [selectIngredientId_aborted _ hab] at h
    rw [← h.2]
    exact hab
  | ok id =>
    simp at h
    exact (insertRecipeIngredient_error h).1

theorem valid_addIngredient {recipeId : Nat} {ing : IngredientInput} {tx tx' : Tx}
    (hv : tx.tables.Valid) (h : addIngredient recipeId ing tx = (Except.ok (), tx')) :
    tx'.tables.Valid := by
  obtain ⟨id, tx1, h1, h2⟩ := addIngredient_ok h
  exact valid_insertRecipeIngredient (valid_upsertIngredient hv h1) h2

theorem addIngredients_cons_ok {recipeId : Nat} {ing : IngredientInput}
    {rest : List IngredientInput} {tx tx' : Tx}
    (h : addIngredients recipeId (ing :: rest) tx = (Except.ok (), tx')) :
    ∃ tx1, addIngredient recipeId ing tx = (Except.ok (), tx1) ∧
      addIngredients recipeId rest tx1 = (Except.ok (), tx') := by
  unfold addIngredients at h
  rcases hb : addIngredient recipeId ing tx with ⟨res, tx1⟩
  rw [hb] at h
  cases res with
  | error e => simp at h
  | ok u => exact ⟨tx1, rfl, h⟩

theorem valid_addIngredients {recipeId : Nat} (ings : List IngredientInput) {tx tx' : Tx}
    (hv : tx.tables.Valid) (h : addIngredients recipeId ings tx = (Except.ok (), tx')) :
    tx'.tables.Valid := by
  induction ings generalizing tx with
  | nil =>
    simp [addIngredients] at h
    subst h
    exact hv
  | cons ing rest ih =>
    obtain ⟨tx1, h1, h2⟩ := addIngredients_cons_ok h
    exact ih (valid_addIngredient hv h1) h2

theorem addSteps_cons_ok {recipeId index : Nat} {step : StepInput} {rest : List StepInput}
    {tx tx' : Tx} (h : addSteps recipeId index (step :: rest) tx = (Except.ok (), tx')) :
    ∃ id tx1, insertRecipeStep tx recipeId (index + 1) step.instruction = (Except.ok id, tx1) ∧
      addSteps recipeId (index + 1) rest tx1 = (Except.ok (), tx') := by
  unfold addSteps at h
  rcases hb : insertRecipeStep tx recipeId (index + 1) step.instruction with ⟨res, tx1⟩
  rw [hb] at h
  cases res with
  | error e => simp at h
  | ok id => exact ⟨id, tx1, rfl, h⟩

theorem valid_addSteps {recipeId : Nat} (steps : List StepInput) {index : Nat} {tx tx' : Tx}
    (hv : tx.tables.Valid) (h : addSteps recipeId index steps tx = (Except.ok (), tx')) :
    tx'.tables.Valid := by
  induction steps generalizing tx index with
  | nil =>
    simp [addSteps] at h
    subst h
    exact hv
  | cons step rest ih =>
    obtain ⟨id, tx1, h1, h2⟩ := addSteps_cons_ok h
    exact ih (valid_insertRecipeStep hv h1) h2

theorem addRecipeTx_ok {tx tx' : Tx} {data : RecipeData} {now recipeId : Nat}
    (h : addRecipeTx tx data now = (Except.ok recipeId, tx')) :
    ∃ tx1 tx2,
      insertRecipe tx data.name (orNullText data.picture_path) (orNullNumber data.cooking_time)
        (orNullNumber data.estimated_price) (orNullNumber data.rating) now
        = (Except.ok recipeId, tx1) ∧
      addIngredients recipeId data.ingredients tx1 = (Except.ok (), tx2) ∧
      addSteps recipeId 0 data.steps tx2 = (Except.ok (), tx') := by
  unfold addRecipeTx at h
  rcases h1 : insertRecipe tx data.name (orNullText data.picture_path)
      (orNullNumber data.cooking_time) (orNullNumber data.estimated_price)
      (orNullNumber data.rating) now with ⟨res1, tx1⟩
  rw [h1] at h
  cases res1 with
  | error e => simp at h
  | ok id =>
    dsimp only at h
    rcases h2 : addIngredients id data.ingredients tx1 with ⟨res2, tx2⟩
    rw [h2] at h
    cases res2 with
    | error e => simp at h
    | ok u =>
      dsimp only at h
      rcases h3 : addSteps id 0 data.steps tx2 with ⟨res3, tx3⟩
      rw [h3] at h
      cases res3 with
      | error e => simp at h
      | ok u3 =>
        simp at h
        obtain ⟨rfl, rfl⟩ := h
        exact ⟨tx1, tx2, rfl, h2, h3⟩

theorem addRecipe_ok {db db' : Database} {data : RecipeData} {now recipeId : Nat}
    (h : addRecipe db data now = (Except.ok recipeId, db')) :
    ∃ tx, addRecipeTx (Tx.begin db) data now = (Except.ok recipeId, tx) ∧ db' = tx.commit := by
  unfold addRecipe at h
  rcases hb : addRecipeTx (Tx.begin db) data now with ⟨res, tx⟩
  rw [hb] at h
  cases res with
  | error e => simp at h
  | ok id =>
    simp at h
    exact ⟨tx, by rw [h.1], h.2.symm⟩

theorem addRecipe_error {db db' : Database} {data : RecipeData} {now : Nat} {e : DbError}
    (h : addRecipe db data now = (Except.error e, db')) : db'.tables = db.tables := by
  unfold addRecipe at h
  rcases hb : addRecipeTx (Tx.begin db) data now with ⟨res, tx⟩
  rw [hb] at h
  cases res with
  | error e1 =>
    simp at h
    rw [← h.2]
    rfl
  | ok id => simp at h

theorem valid_addRecipe (db : Database) (data : RecipeData) (now : Nat)
    (hv : db.tables.Valid) : (addRecipe db data now).2.tables.Valid := by
  rcases h : addRecipe db data now with ⟨res, db'⟩
  cases res with
  | error e =>
    rw [show db'.tables = db.tables from addRecipe_error h]
    exact hv
  | ok id =>
    obtain ⟨tx, htx, rfl⟩ := addRecipe_ok h
    obtain ⟨tx1, tx2, h1, h2, h3⟩ := addRecipeTx_ok htx
    have hv0 : (Tx.begin db).tables.Valid := hv
    exact valid_addSteps _ (valid_addIngredients _ (valid_insertRecipe hv0 h1) h2) h3

theorem valid_createTables : createTables.tables.Valid := by
  constructor <;> simp [createTables]

theorem valid_addRecipes (calls : List (RecipeData × Nat)) {db : Database}
    (hv : db.tables.Valid) : (addRecipes db calls).tables.Valid := by
  induction calls generalizing db with
  | nil => exact hv
  | cons call rest ih => exact ih (valid_addRecipe db call.1 call.2 hv)

/-! ## Reads -/

theorem selectRecipe_eq_none_iff (coll : Collation) (db : Database) (id : Nat) :
    selectRecipe coll db id = none ↔ ∀ row ∈ db.tables.recipes, row.id ≠ id := by
  unfold selectRecipe
  cases hf : db.tables.recipes.filter (fun r => decide (r.id = id)) with
  | nil =>
    simp only [true_iff]
    intro row hrow hid
    have := List.filter_eq_nil_iff.mp hf row hrow
    simp [hid] at this
  | cons row rest =>
    simp only [false_iff, reduceCtorEq]
    intro hall
    have hmem : row ∈ db.tables.recipes.filter (fun r => decide (r.id = id)) := by
      rw [hf]; exact List.mem_cons_self _ _
    rw [List.mem_filter] at hmem
    exact hall row hmem.1 (by simpa using hmem.2)

theorem selectRecipe_eq_some {coll : Collation} {db : Database} {id : Nat} {d : RecipeDetail}
    (h : selectRecipe coll db id = some d) :
    d.recipe ∈ db.tables.recipes ∧ d.recipe.id = id ∧
    d.ingredients = List.insertionSort (fun a b => coll.le a.name b.name = true)
      (joinIngredients db.tables id) ∧
    d.steps = List.insertionSort (fun a b => a.step_number ≤ b.step_number)
      (selectSteps db.tables id) := by
  unfold selectRecipe at h
  cases hf : db.tables.recipes.filter (fun r => decide (r.id = id)) with
  | nil => rw [hf] at h; simp at h
  | cons row rest =>
    rw [hf] at h
    simp only [Option.some.injEq] at h
    subst h
    have hmem : row ∈ db.tables.recipes.filter (fun r => decide (r.id = id)) := by
      rw [hf]; exact List.mem_cons_self _ _
    rw [List.mem_filter] at hmem
    exact ⟨hmem.1, by simpa using hmem.2, rfl, rfl⟩

theorem inInt4_natCast {r : Nat} : inInt4 (some (r : Int)) = true ↔ r ≤ int4Max := by
  simp only [inInt4, int4Max, Bool.and_eq_true, decide_eq_true_eq]
  omega

theorem getRecipe_int (coll : Collation) (db : Database) {r : Nat} (h : r ≤ int4Max) :
    getRecipe coll db (IdParam.int r) = Except.ok (selectRecipe coll db r) := by
  have h4 := inInt4_natCast.mpr h
  have hneg : ¬ (r : Int) < 0 := by omega
  simp [getRecipe, h4, hneg]

theorem getRecipe_int_ok {coll : Collation} {db : Database} {r : Nat}
    {x : Option RecipeDetail} (h : getRecipe coll db (IdParam.int r) = Except.ok x) :
    r ≤ int4Max ∧ selectRecipe coll db r = x := by
  by_cases hr : r ≤ int4Max
  · rw [getRecipe_int coll db hr] at h
    exact ⟨hr, by simpa using h⟩
  · have h4 : inInt4 (some (r : Int)) = false := by
      cases hb : inInt4 (some (r : Int)) with
      | false => rfl
      | true => exact absurd (inInt4_natCast.mp hb) hr
    simp [getRecipe, h4] at h

theorem insertRecipe_id_le {tx tx' : Tx} {name picture_path : Option String}
    {ct ep rating : Option Int} {now id : Nat}
    (h : insertRecipe tx name picture_path ct ep rating now = (Except.ok id, tx')) :
    id ≤ int4Max := by
  cases name with
  | none => unfold insertRecipe at h; split_ifs at h <;> simp [Tx.raise] at h
  | some n =>
    unfold insertRecipe at h
    dsimp only at h
    split_ifs at h with h1 h2 h3 h4 h5 <;> simp [Tx.raise] at h
    obtain ⟨rfl, -⟩ := h
    omega

theorem addRecipe_id_le {db db' : Database} {data : RecipeData} {now r : Nat}
    (h : addRecipe db data now = (Except.ok r, db')) : r ≤ int4Max := by
  obtain ⟨tx, htx, -⟩ := addRecipe_ok h
  obtain ⟨tx1, tx2, h1, -, -⟩ := addRecipeTx_ok htx
  exact insertRecipe_id_le h1

/-! ## Steps written by `addRecipe` -/

theorem addIngredients_frame {recipeId : Nat} (ings : List IngredientInput) {tx tx' : Tx}
    (h : addIngredients recipeId ings tx = (Except.ok (), tx')) :
    tx'.tables.recipes = tx.tables.recipes ∧ tx'.tables.recipe_steps = tx.tables.recipe_steps := by
  induction ings generalizing tx with
  | nil =>
    simp [addIngredients] at h
    subst h
    exact ⟨rfl, rfl⟩
  | cons ing rest ih =>
    obtain ⟨tx1, h1, h2⟩ := addIngredients_cons_ok h
    obtain ⟨id, tx0, hu, hl⟩ := addIngredient_ok h1
    obtain ⟨e1, e2⟩ := ih h2
    obtain ⟨-, -, -, -, -, a, -, rfl⟩ := insertRecipeIngredient_ok hl
    obtain ⟨-, n, -, hu⟩ := upsertIngredient_ok hu
    rcases hu with ⟨row, -, -, rfl⟩ | ⟨-, -, -, rfl⟩ <;> exact ⟨e1, e2⟩

theorem addSteps_ok {recipeId : Nat} (steps : List StepInput) {index : Nat} {tx tx' : Tx}
    (h : addSteps recipeId index steps tx = (Except.ok (), tx')) :
    tx'.tables.recipes = tx.tables.recipes ∧
    tx'.tables.ingredients = tx.tables.ingredients ∧
    tx'.tables.recipe_ingredients = tx.tables.recipe_ingredients ∧
    ∃ rows, tx'.tables.recipe_steps = tx.tables.recipe_steps ++ rows ∧
      (∀ s ∈ rows, s.recipe_id = recipeId) ∧
      rows.map (fun s => (s.step_number, some s.instruction)) =
        (steps.enumFrom index).map (fun p => (p.1 + 1, p.2.instruction)) := by
  induction steps generalizing tx index with
  | nil =>
    simp [addSteps] at h
    subst h
    exact ⟨rfl, rfl, rfl, [], by simp, by simp, by simp⟩
  | cons step rest ih =>
    obtain ⟨id, tx1, h1, h2⟩ := addSteps_cons_ok h
    obtain ⟨e1, e2, e3, rows, e4, hr, hm⟩ := ih h2
    obtain ⟨-, -, -, -, -, text, htext, rfl⟩ := insertRecipeStep_ok h1
    refine ⟨e1, e2, e3,
      { id := id, recipe_id := recipeId, step_number := index + 1, instruction := text } :: rows,
      ?_, ?_, ?_⟩
    · rw [e4]; simp
    · intro s hs
      rcases List.mem_cons.mp hs with rfl | hs
      · rfl
      · exact hr s hs
    · simp [List.enumFrom_cons, hm, htext]

theorem steps_numbered {rows : List RecipeStepRow} (steps : List StepInput) {index : Nat}
    (h : rows.map (fun s => (s.step_number, some s.instruction)) =
      (steps.enumFrom index).map (fun p => (p.1 + 1, p.2.instruction))) :
    (∀ s ∈ rows, index < s.step_number) ∧
    rows.Pairwise (fun a b => a.step_number ≤ b.step_number) := by
  induction steps generalizing rows index with
  | nil =>
    simp at h
    subst h
    simp
  | cons step rest ih =>
    cases rows with
    | nil => simp at h
    | cons s rows =>
      simp only [List.map_cons, List.enumFrom_cons, List.cons.injEq, Prod.mk.injEq] at h
      obtain ⟨⟨hs, -⟩, hrest⟩ := h
      obtain ⟨hlt, hpw⟩ := ih hrest
      refine ⟨?_, ?_⟩
      · intro x hx
        rcases List.mem_cons.mp hx with rfl | hx
        · omega
        · have := hlt x hx; omega
      · rw [List.pairwise_cons]
        refine ⟨?_, hpw⟩
        intro x hx
        have := hlt x hx
        omega

theorem steps_getElem {rows : List RecipeStepRow} (steps : List StepInput) {index : Nat}
    (h : rows.map (fun s => (s.step_number, some s.instruction)) =
      (steps.enumFrom index).map (fun p => (p.1 + 1, p.2.instruction))) :
    rows.length = steps.length ∧
    ∀ k (hk : k < steps.length), ∃ s, rows[k]? = some s ∧ s.step_number = index + k + 1 ∧
      steps[k].instruction = some s.instruction := by
  induction steps generalizing rows index with
  | nil =>
    simp at h
    subst h
    simp
  | cons step rest ih =>
    cases rows with
    | nil => simp at h
    | cons s rows =>
      simp only [List.map_cons, List.enumFrom_cons, List.cons.injEq, Prod.mk.injEq] at h
      obtain ⟨⟨hs, hi⟩, hrest⟩ := h
      obtain ⟨hlen, hget⟩ := ih hrest
      refine ⟨by simp [hlen], ?_⟩
      intro k hk
      cases k with
      | zero => exact ⟨s, by simp, by omega, by simpa using hi.symm⟩
      | succ k =>
        have hk2 : k < rest.length := by simpa using hk
        obtain ⟨x, hx1, hx2, hx3⟩ := hget k hk2
        exact ⟨x, by simpa using hx1, by omega, by simpa using hx3⟩

/-! ## Ingredients and links written by `addRecipe` -/

theorem addIngredient_spec {recipeId : Nat} {line : IngredientInput} {tx tx' : Tx}
    (h : addIngredient recipeId line tx = (Except.ok (), tx')) :
    ∃ (n : String) (a : JsNumber) (lid iid : Nat),
      line.name = some n ∧ line.amount = some a ∧
      tx'.tables.recipes = tx.tables.recipes ∧
      tx'.tables.recipe_steps = tx.tables.recipe_steps ∧
      tx'.tables.recipe_ingredients = tx.tables.recipe_ingredients ++
        [{ id := lid, recipe_id := recipeId, ingredient_id := iid, amount := toRealNumber a,
           unit := line.unit }] ∧
      (recipeId, iid) ∉
        tx.tables.recipe_ingredients.map (fun x => (x.recipe_id, x.ingredient_id)) ∧
      ((∃ row, tx.tables.ingredients.find? (fun x => decide (x.name = n)) = some row ∧
          iid = row.id ∧
          tx'.tables.ingredients =
            tx.tables.ingredients.map (setUnit n (orNullText line.unit))) ∨
       (tx.tables.ingredients.find? (fun x => decide (x.name = n)) = none ∧
          iid ∉ tx.tables.ingredients.map (fun x => x.id) ∧
          tx'.tables.ingredients = tx.tables.ingredients ++
            [{ id := iid, name := n, unit := orNullText line.unit }])) := by
  obtain ⟨iid, tx1, hu, hl⟩ := addIngredient_ok h
  obtain ⟨-, -, hkey, -, -, a, ha, rfl⟩ := insertRecipeIngredient_ok hl
  obtain ⟨-, n, hn, hu⟩ := upsertIngredient_ok hu
  rcases hu with ⟨row, hf, hid, rfl⟩ | ⟨hf, hid, hfresh, rfl⟩
  · exact ⟨n, a, _, iid, hn, ha, rfl, rfl, rfl, hkey, Or.inl ⟨row, hf, hid, rfl⟩⟩
  · exact ⟨n, a, _, iid, hn, ha, rfl, rfl, rfl, hkey, Or.inr ⟨hf, hfresh, rfl⟩⟩

theorem same_row_of_name {l : List IngredientRow} (hnd : (l.map (fun r => r.name)).Nodup)
    {a b : IngredientRow} (ha : a ∈ l) (hb : b ∈ l) (hab : a.name = b.name) : a = b :=
  List.inj_on_of_nodup_map hnd ha hb hab

theorem addIngredient_row {recipeId : Nat} {line : IngredientInput} {tx tx' : Tx}
    (h : addIngredient recipeId line tx = (Except.ok (), tx')) :
    ∃ l i, tx'.tables.recipe_ingredients = tx.tables.recipe_ingredients ++ [l] ∧
      l.recipe_id = recipeId ∧ line.amount.map toRealNumber = some l.amount ∧ l.unit = line.unit ∧
      i ∈ tx'.tables.ingredients ∧ i.id = l.ingredient_id ∧ line.name = some i.name ∧
      i.unit = orNullText line.unit := by
  obtain ⟨n, a, lid, iid, hn, ha, -, -, hl, -, hi⟩ := addIngredient_spec h
  rcases hi with ⟨row, hf, hid, hi⟩ | ⟨-, -, hi⟩
  · obtain ⟨hmem, hname⟩ := find_name_some hf
    refine ⟨_, setUnit n (orNullText line.unit) row, hl, rfl, by rw [ha]; rfl, rfl,
      ?_, ?_, ?_, ?_⟩
    · rw [hi]; exact List.mem_map_of_mem _ hmem
    · simp [setUnit, hname, hid]
    · simp [setUnit, hname, hn]
    · simp [setUnit, hname]
  · refine ⟨_, { id := iid, name := n, unit := orNullText line.unit }, hl, rfl,
      by rw [ha]; rfl, rfl, ?_, rfl, hn, rfl⟩
    rw [hi]; simp

/-- A row already linked to the recipe survives the processing of a further line
unchanged: a line with its name would insert the same link a second time. -/
theorem addIngredient_linked_row {recipeId : Nat} {line : IngredientInput} {tx tx' : Tx}
    (hv : tx.tables.Valid) (h : addIngredient recipeId line tx = (Except.ok (), tx'))
    {i : IngredientRow} (hi : i ∈ tx.tables.ingredients)
    (hlink : (recipeId, i.id) ∈
      tx.tables.recipe_ingredients.map (fun x => (x.recipe_id, x.ingredient_id))) :
    i ∈ tx'.tables.ingredients ∧
    (recipeId, i.id) ∈
      tx'.tables.recipe_ingredients.map (fun x => (x.recipe_id, x.ingredient_id)) := by
  obtain ⟨n, a, lid, iid, -, -, -, -, hl, hkey, hcase⟩ := addIngredient_spec h
  refine ⟨?_, ?_⟩
  · rcases hcase with ⟨row, hf, hid, hing⟩ | ⟨-, -, hing⟩
    · obtain ⟨hmem, hname⟩ := find_name_some hf
      have hne : i.name ≠ n := by
        intro he
        have : i = row := same_row_of_name hv.ingredients_name_key hi hmem (he.trans hname.symm)
        subst this
        exact hkey (hid ▸ hlink)
      rw [hing]
      have : setUnit n (orNullText line.unit) i = i := by simp [setUnit, hne]
      rw [← this]
      exact List.mem_map_of_mem _ hi
    · rw [hing]; exact List.mem_append_left _ hi
  · rw [hl, List.map_append]
    exact List.mem_append_left _ hlink

theorem addIngredients_linked_row {recipeId : Nat} (lines : List IngredientInput) {tx tx' : Tx}
    (hv : tx.tables.Valid) (h : addIngredients recipeId lines tx = (Except.ok (), tx'))
    {i : IngredientRow} (hi : i ∈ tx.tables.ingredients)
    (hlink : (recipeId, i.id) ∈
      tx.tables.recipe_ingredients.map (fun x => (x.recipe_id, x.ingredient_id))) :
    i ∈ tx'.tables.ingredients := by
  induction lines generalizing tx with
  | nil =>
    simp [addIngredients] at h
    subst h
    exact hi
  | cons line rest ih =>
    obtain ⟨tx1, h1, h2⟩ := addIngredients_cons_ok h
    obtain ⟨hi1, hl1⟩ := addIngredient_linked_row hv h1 hi hlink
    exact ih (valid_addIngredient hv h1) h2 hi1 hl1

/-- The link rows written for a list of ingredient lines, each with the ingredient row it
refers to. -/
theorem addIngredients_spec {recipeId : Nat} (lines : List IngredientInput) {tx tx' : Tx}
    (hv : tx.tables.Valid) (h : addIngredients recipeId lines tx = (Except.ok (), tx')) :
    ∃ links, tx'.tables.recipe_ingredients = tx.tables.recipe_ingredients ++ links ∧
      List.Forall₂
        (fun (l : RecipeIngredientRow) (line : IngredientInput) =>
          l.recipe_id = recipeId ∧ line.amount.map toRealNumber = some l.amount ∧ l.unit = line.unit ∧
          ∃ i ∈ tx'.tables.ingredients, i.id = l.ingredient_id ∧ line.name = some i.name ∧
            i.unit = orNullText line.unit)
        links lines := by
  induction lines generalizing tx with
  | nil =>
    simp [addIngredients] at h
    subst h
    exact ⟨[], by simp, List.Forall₂.nil⟩
  | cons line rest ih =>
    obtain ⟨tx1, h1, h2⟩ := addIngredients_cons_ok h
    obtain ⟨l, i, hl, hr, ha, hu, hi, hid, hn, hunit⟩ := addIngredient_row h1
    have hv1 := valid_addIngredient hv h1
    obtain ⟨links, hlinks, hall⟩ := ih hv1 h2
    have hlinked : (recipeId, i.id) ∈
        tx1.tables.recipe_ingredients.map (fun x => (x.recipe_id, x.ingredient_id)) := by
      rw [hl]
      simp [hr, hid]
    have hi' := addIngredients_linked_row rest hv1 h2 hi hlinked
    refine ⟨l :: links, ?_, List.Forall₂.cons ⟨hr, ha, hu, i, hi', hid, hn, hunit⟩ hall⟩
    rw [hlinks, hl]
    simp

theorem filter_id_singleton {l : List IngredientRow} (hnd : (l.map (fun r => r.id)).Nodup)
    {i : IngredientRow} (hi : i ∈ l) : l.filter (fun x => decide (i.id = x.id)) = [i] := by
  induction l with
  | nil => simp at hi
  | cons x xs ih =>
    rw [List.map_cons, List.nodup_cons] at hnd
    obtain ⟨hx, hxs⟩ := hnd
    rcases List.mem_cons.mp hi with rfl | hi
    · have : xs.filter (fun x => decide (i.id = x.id)) = [] := by
        rw [List.filter_eq_nil_iff]
        intro y hy
        simp only [decide_eq_true_eq]
        intro he
        exact hx (he ▸ List.mem_map_of_mem (fun r => r.id) hy)
      simp [List.filter_cons, this]
    · have hne : ¬ i.id = x.id := by
        intro he
        exact hx (he ▸ List.mem_map_of_mem (fun r => r.id) hi)
      simp [List.filter_cons, hne, ih hxs hi]

theorem coalesce_orNullText (u v : Option String) (hv : v = orNullText u) :
    coalesce u v = u := by
  subst hv
  cases u <;> rfl

/-- The join of `getRecipe` over the links written for a list of lines: one entry per
line, with the name, amount and unit of the line. -/
theorem joinIngredients_spec {t : Tables} {old links : List RecipeIngredientRow}
    {recipeId : Nat} {lines : List IngredientInput}
    (ht : t.recipe_ingredients = old ++ links) (hold : ∀ l ∈ old, l.recipe_id ≠ recipeId)
    (hnd : (t.ingredients.map (fun r => r.id)).Nodup)
    (hall : List.Forall₂
      (fun (l : RecipeIngredientRow) (line : IngredientInput) =>
        l.recipe_id = recipeId ∧ line.amount.map toRealNumber = some l.amount ∧ l.unit = line.unit ∧
        ∃ i ∈ t.ingredients, i.id = l.ingredient_id ∧ line.name = some i.name ∧
          i.unit = orNullText line.unit)
      links lines) :
    List.Forall₂
      (fun (e : IngredientEntry) (line : IngredientInput) =>
        line.name = some e.name ∧ line.amount.map toRealNumber = some e.amount ∧ e.unit = line.unit)
      (joinIngredients t recipeId) lines := by
  have e1 : old.filter (fun l => decide (l.recipe_id = recipeId)) = [] := by
    rw [List.filter_eq_nil_iff]
    intro l hl
    simpa using hold l hl
  unfold joinIngredients
  rw [ht, List.filter_append, e1, List.nil_append]
  clear ht e1 hold
  induction hall with
  | nil => simp
  | @cons l line links lines hhead _ ih =>
    obtain ⟨hr, ha, hu, i, hi, hid, hn, hunit⟩ := hhead
    have hf : t.ingredients.filter (fun x => decide (l.ingredient_id = x.id)) = [i] := by
      rw [← hid]; exact filter_id_singleton hnd hi
    have hc : coalesce l.unit i.unit = line.unit := by
      rw [hu]; exact coalesce_orNullText _ _ hunit
    simp only [List.filter_cons, hr, decide_True, if_true, List.flatMap_cons, hf, List.map_cons,
      List.map_nil, List.singleton_append]
    exact List.Forall₂.cons ⟨hn, ha, hc⟩ ih

theorem forall₂_right {α β : Type} {R : α → β → Prop} {l : List α} {m : List β}
    (h : List.Forall₂ R l m) : l.length = m.length ∧ ∀ b ∈ m, ∃ a ∈ l, R a b := by
  induction h with
  | nil => simp
  | @cons a b l m hab _ ih =>
    refine ⟨by simp [ih.1], ?_⟩
    intro x hx
    rcases List.mem_cons.mp hx with rfl | hx
    · exact ⟨a, List.mem_cons_self _ _, hab⟩
    · obtain ⟨y, hy, hR⟩ := ih.2 x hx
      exact ⟨y, List.mem_cons_of_mem _ hy, hR⟩

theorem selectSteps_fresh {t : Tables} {old rows : List RecipeStepRow} {r : Nat}
    (ht : t.recipe_steps = old ++ rows) (hold : ∀ s ∈ old, s.recipe_id ≠ r)
    (hrows : ∀ s ∈ rows, s.recipe_id = r) :
    selectSteps t r =
      rows.map (fun s => { step_number := s.step_number, instruction := s.instruction }) := by
  have e1 : old.filter (fun s => decide (s.recipe_id = r)) = [] := by
    rw [List.filter_eq_nil_iff]
    intro s hs
    simpa using hold s hs
  have e2 : rows.filter (fun s => decide (s.recipe_id = r)) = rows := by
    rw [List.filter_eq_self]
    intro s hs
    simpa using hrows s hs
  simp [selectSteps, ht, List.filter_append, e1, e2]

theorem fresh_of_fkey {γ : Type} {rows : List γ} {key : γ → Nat} {ids : List Nat} {r : Nat}
    (hfk : ∀ s ∈ rows, key s ∈ ids) (hr : r ∉ ids) : ∀ s ∈ rows, key s ≠ r := by
  intro s hs he
  exact hr (he ▸ hfk s hs)

/-- C1: when `addRecipe` succeeds on an input with M steps and returns id `r`, `getRecipe r`
afterwards returns exactly M steps, and the step at position k (counting from 1) has
`step_number` k and the instruction of the k-th submitted step. -/
theorem addRecipe_getRecipe_steps (coll : Collation) (db db' : Database) (data : RecipeData)
    (now r : Nat) (hv : db.tables.Valid)
    (h : addRecipe db data now = (Except.ok r, db')) :
    ∃ d, getRecipe coll db' (IdParam.int r) = Except.ok (some d) ∧
      d.steps.length = data.steps.length ∧
      ∀ k (hk : k < data.steps.length), ∃ e, d.steps[k]? = some e ∧
        e.step_number = k + 1 ∧ data.steps[k].instruction = some e.instruction := by
  rw [getRecipe_int coll db' (addRecipe_id_le h)]
  obtain ⟨tx, htx, rfl⟩ := addRecipe_ok h
  obtain ⟨tx1, tx2, h1, h2, h3⟩ := addRecipeTx_ok htx
  obtain ⟨-, hfresh, -, -, -, n, -, rfl⟩ := insertRecipe_ok h1
  obtain ⟨f1, f2⟩ := addIngredients_frame _ h2
  obtain ⟨g1, -, -, rows, g4, grid, gmap⟩ := addSteps_ok _ h3
  obtain ⟨row, hrec, hrow⟩ :
      ∃ row : RecipeRow, tx.tables.recipes = db.tables.recipes ++ [row] ∧ row.id = r :=
    ⟨_, by rw [g1, f1]; rfl, rfl⟩
  have hsteps : tx.tables.recipe_steps = db.tables.recipe_steps ++ rows := by
    rw [g4, f2]; rfl
  cases hg : selectRecipe coll tx.commit r with
  | none =>
    exfalso
    have hnone := (selectRecipe_eq_none_iff coll tx.commit r).mp hg
    exact hnone row (by show row ∈ tx.tables.recipes; rw [hrec]; simp) hrow
  | some d =>
    obtain ⟨-, -, -, hd⟩ := selectRecipe_eq_some hg
    have hsel : selectSteps tx.commit.tables r =
        rows.map (fun s => { step_number := s.step_number, instruction := s.instruction }) :=
      selectSteps_fresh hsteps
        (fresh_of_fkey hv.recipe_steps_recipe_fkey hfresh) grid
    have hsorted : List.Sorted (fun a b : StepEntry => a.step_number ≤ b.step_number)
        (rows.map (fun s => { step_number := s.step_number, instruction := s.instruction })) := by
      unfold List.Sorted
      rw [List.pairwise_map]
      exact (steps_numbered _ gmap).2
    rw [hsel, List.Sorted.insertionSort_eq hsorted] at hd
    obtain ⟨hlen, hget⟩ := steps_getElem _ gmap
    refine ⟨d, rfl, by rw [hd]; simpa using hlen, ?_⟩
    intro k hk
    obtain ⟨s, hs1, hs2, hs3⟩ := hget k hk
    refine ⟨{ step_number := s.step_number, instruction := s.instruction }, ?_, ?_, hs3⟩
    · rw [hd]; simp [hs1]
    · simpa using hs2

theorem addRecipe_getRecipe_steps_witness :
    createTables.tables.Valid ∧
    addRecipe createTables soup 7 = (Except.ok 1, (addRecipe createTables soup 7).2) ∧
    ∃ d, getRecipe Collation.codepoint (addRecipe createTables soup 7).2
        (IdParam.int (1 : Nat)) = Except.ok (some d) ∧
      d.steps.length = soup.steps.length ∧
      ∀ k (hk : k < soup.steps.length), ∃ e, d.steps[k]? = some e ∧
        e.step_number = k + 1 ∧ soup.steps[k].instruction = some e.instruction :=
  ⟨valid_createTables, rfl,
    addRecipe_getRecipe_steps Collation.codepoint createTables _ soup 7 1 valid_createTables
      rfl⟩

/-- The rows a successful `addRecipe` leaves behind: one new recipe row with a fresh id,
and the link rows of the ingredient loop appended to `recipe_ingredients`. -/
theorem addRecipe_links {db db' : Database} {data : RecipeData} {now r : Nat}
    (hv : db.tables.Valid) (h : addRecipe db data now = (Except.ok r, db')) :
    r ∉ db.tables.recipes.map (fun x => x.id) ∧
    (∃ row : RecipeRow, db'.tables.recipes = db.tables.recipes ++ [row] ∧ row.id = r) ∧
    ∃ links, db'.tables.recipe_ingredients = db.tables.recipe_ingredients ++ links ∧
      List.Forall₂
        (fun (l : RecipeIngredientRow) (line : IngredientInput) =>
          l.recipe_id = r ∧ line.amount.map toRealNumber = some l.amount ∧ l.unit = line.unit ∧
          ∃ i ∈ db'.tables.ingredients, i.id = l.ingredient_id ∧ line.name = some i.name ∧
            i.unit = orNullText line.unit)
        links data.ingredients := by
  obtain ⟨tx, htx, rfl⟩ := addRecipe_ok h
  obtain ⟨tx1, tx2, h1, h2, h3⟩ := addRecipeTx_ok htx
  have hv0 : (Tx.begin db).tables.Valid := hv
  have hv1 : tx1.tables.Valid := valid_insertRecipe hv0 h1
  obtain ⟨links, hlinks, hall⟩ := addIngredients_spec _ hv1 h2
  obtain ⟨f1, -⟩ := addIngredients_frame _ h2
  obtain ⟨g1, g2, g3, -⟩ := addSteps_ok _ h3
  obtain ⟨-, hfresh, -, -, -, n, -, rfl⟩ := insertRecipe_ok h1
  refine ⟨hfresh, ⟨_, by show tx.tables.recipes = _; rw [g1, f1]; rfl, rfl⟩, links, ?_, ?_⟩
  · show tx.tables.recipe_ingredients = _
    rw [g3, hlinks]; rfl
  · show List.Forall₂ _ links data.ingredients
    have : tx.commit.tables.ingredients = tx2.tables.ingredients := g2
    rw [this]
    exact hall

/-- C2 fails as stated: the recipe `saltMine` has a line with the amount 16777217; the
call succeeds, and `getRecipe` afterwards returns the entry with the amount 16777216, the
number the `REAL` column holds. -/
theorem addRecipe_amount_rounded :
    saltMine.ingredients.map (fun l => l.amount) = [some (JsNumber.int 16777217)] ∧
    (addRecipe createTables saltMine 7).1 = Except.ok 1 ∧
    (getRecipe Collation.binary (addRecipe createTables saltMine 7).2
        (IdParam.int 1)).toOption.map (Option.map (fun d => d.ingredients))
      = some (some [{ name := "Salt", amount := JsNumber.int 16777216, unit := some "tsp" }]) :=
  ⟨rfl, rfl, rfl⟩

/-- C2 as amended: when `addRecipe` succeeds on an input with N ingredient lines and
returns id `r`, `getRecipe r` afterwards returns exactly N ingredient entries, and every
submitted line appears among them with the same name, the same unit and the amount
rounded to single precision, which is the amount itself when its magnitude is at most
16777216. -/
theorem addRecipe_getRecipe_ingredients (coll : Collation) (db db' : Database)
    (data : RecipeData) (now r : Nat) (hv : db.tables.Valid)
    (h : addRecipe db data now = (Except.ok r, db')) :
    ∃ d, getRecipe coll db' (IdParam.int r) = Except.ok (some d) ∧
      d.ingredients.length = data.ingredients.length ∧
      ∀ line ∈ data.ingredients, ∃ e ∈ d.ingredients,
        line.name = some e.name ∧ line.amount.map toRealNumber = some e.amount ∧
        line.unit = e.unit ∧
        ∀ v : Int, line.amount = some (JsNumber.int v) → -16777216 ≤ v → v ≤ 16777216 →
          e.amount = JsNumber.int v := by
  rw [getRecipe_int coll db' (addRecipe_id_le h)]
  have hv' : db'.tables.Valid := by
    have := valid_addRecipe db data now hv
    rwa [h] at this
  obtain ⟨hfresh, ⟨row, hrec, hrow⟩, links, hlinks, hall⟩ := addRecipe_links hv h
  cases hg : selectRecipe coll db' r with
  | none =>
    exfalso
    have hnone := (selectRecipe_eq_none_iff coll db' r).mp hg
    exact hnone row (by rw [hrec]; simp) hrow
  | some d =>
    obtain ⟨-, -, hd, -⟩ := selectRecipe_eq_some hg
    have hjoin := joinIngredients_spec hlinks
      (fresh_of_fkey hv.recipe_ingredients_recipe_fkey hfresh) hv'.ingredients_pkey hall
    obtain ⟨hlen, hmem⟩ := forall₂_right hjoin
    refine ⟨d, rfl, ?_, ?_⟩
    · rw [hd, List.length_insertionSort]; exact hlen
    · intro line hline
      obtain ⟨e, he, h1, h2, h3⟩ := hmem line hline
      refine ⟨e, ?_, h1, h2, h3.symm, ?_⟩
      · rw [hd]
        exact (List.perm_insertionSort _ _).mem_iff.mpr he
      · intro v hline hlo hhi
        rw [hline] at h2
        simp only [Option.map_some', toRealNumber, toReal_exact hlo hhi,
          Option.some.injEq] at h2
        exact h2.symm

theorem addRecipe_getRecipe_ingredients_witness :
    createTables.tables.Valid ∧
    addRecipe createTables soup 7 = (Except.ok 1, (addRecipe createTables soup 7).2) ∧
    ∃ d, getRecipe Collation.codepoint (addRecipe createTables soup 7).2
        (IdParam.int (1 : Nat)) = Except.ok (some d) ∧
      d.ingredients.length = soup.ingredients.length ∧
      ∀ line ∈ soup.ingredients, ∃ e ∈ d.ingredients,
        line.name = some e.name ∧ line.amount.map toRealNumber = some e.amount ∧
        line.unit = e.unit ∧
        ∀ v : Int, line.amount = some (JsNumber.int v) → -16777216 ≤ v → v ≤ 16777216 →
          e.amount = JsNumber.int v :=
  ⟨valid_createTables, rfl,
    addRecipe_getRecipe_ingredients Collation.codepoint createTables _ soup 7 1
      valid_createTables rfl⟩

/-! ## Shared ingredient rows -/

theorem filter_name_singleton {l : List IngredientRow}
    (hnd : (l.map (fun r => r.name)).Nodup) {i : IngredientRow} (hi : i ∈ l) :
    l.filter (fun x => decide (x.name = i.name)) = [i] := by
  induction l with
  | nil => simp at hi
  | cons x xs ih =>
    rw [List.map_cons, List.nodup_cons] at hnd
    obtain ⟨hx, hxs⟩ := hnd
    rcases List.mem_cons.mp hi with rfl | hi
    · have : xs.filter (fun x => decide (x.name = i.name)) = [] := by
        rw [List.filter_eq_nil_iff]
        intro y hy
        simp only [decide_eq_true_eq]
        intro he
        exact hx (he ▸ List.mem_map_of_mem (fun r => r.name) hy)
      simp [List.filter_cons, this]
    · have hne : ¬ x.name = i.name := by
        intro he
        exact hx (he ▸ List.mem_map_of_mem (fun r => r.name) hi)
      simp [List.filter_cons, hne, ih hxs hi]

theorem addIngredients_keeps {recipeId : Nat} (lines : List IngredientInput) {tx tx' : Tx}
    (h : addIngredients recipeId lines tx = (Except.ok (), tx')) :
    (∀ i ∈ tx.tables.ingredients, ∃ j ∈ tx'.tables.ingredients, j.id = i.id ∧ j.name = i.name) ∧
    (∀ l ∈ tx.tables.recipe_ingredients, l ∈ tx'.tables.recipe_ingredients) := by
  induction lines generalizing tx with
  | nil =>
    simp [addIngredients] at h
    subst h
    exact ⟨fun i hi => ⟨i, hi, rfl, rfl⟩, fun l hl => hl⟩
  | cons line rest ih =>
    obtain ⟨tx1, h1, h2⟩ := addIngredients_cons_ok h
    obtain ⟨k1, k2⟩ := ih h2
    obtain ⟨n, a, lid, iid, -, -, -, -, hl, -, hcase⟩ := addIngredient_spec h1
    refine ⟨?_, ?_⟩
    · intro i hi
      have hstep : ∃ j ∈ tx1.tables.ingredients, j.id = i.id ∧ j.name = i.name := by
        rcases hcase with ⟨row, -, -, hing⟩ | ⟨-, -, hing⟩
        · refine ⟨setUnit n (orNullText line.unit) i, ?_, ?_, ?_⟩
          · rw [hing]; exact List.mem_map_of_mem _ hi
          · simp only [setUnit]; split_ifs <;> rfl
          · simp only [setUnit]; split_ifs <;> rfl
        · exact ⟨i, by rw [hing]; exact List.mem_append_left _ hi, rfl, rfl⟩
      obtain ⟨j, hj, hj1, hj2⟩ := hstep
      obtain ⟨j', hj', hj1', hj2'⟩ := k1 j hj
      exact ⟨j', hj', hj1'.trans hj1, hj2'.trans hj2⟩
    · intro l hl'
      exact k2 l (by rw [hl]; exact List.mem_append_left _ hl')

theorem addRecipe_keeps (db : Database) (data : RecipeData) (now : Nat) :
    (∀ i ∈ db.tables.ingredients,
      ∃ j ∈ (addRecipe db data now).2.tables.ingredients, j.id = i.id ∧ j.name = i.name) ∧
    (∀ l ∈ db.tables.recipe_ingredients,
      l ∈ (addRecipe db data now).2.tables.recipe_ingredients) := by
  rcases h : addRecipe db data now with ⟨res, db'⟩
  cases res with
  | error e =>
    have := addRecipe_error h
    simp only [this]
    exact ⟨fun i hi => ⟨i, hi, rfl, rfl⟩, fun l hl => hl⟩
  | ok r =>
    obtain ⟨tx, htx, rfl⟩ := addRecipe_ok h
    obtain ⟨tx1, tx2, h1, h2, h3⟩ := addRecipeTx_ok htx
    obtain ⟨k1, k2⟩ := addIngredients_keeps _ h2
    obtain ⟨-, g2, g3, -⟩ := addSteps_ok _ h3
    obtain ⟨-, -, -, -, -, n, -, rfl⟩ := insertRecipe_ok h1
    refine ⟨?_, ?_⟩
    · intro i hi
      obtain ⟨j, hj, e1, e2⟩ := k1 i hi
      exact ⟨j, by show j ∈ tx.tables.ingredients; rw [g2]; exact hj, e1, e2⟩
    · intro l hl
      show l ∈ tx.tables.recipe_ingredients
      rw [g3]
      exact k2 l hl

theorem addRecipes_keeps (calls : List (RecipeData × Nat)) (db : Database) :
    (∀ i ∈ db.tables.ingredients,
      ∃ j ∈ (addRecipes db calls).tables.ingredients, j.id = i.id ∧ j.name = i.name) ∧
    (∀ l ∈ db.tables.recipe_ingredients,
      l ∈ (addRecipes db calls).tables.recipe_ingredients) := by
  induction calls generalizing db with
  | nil => exact ⟨fun i hi => ⟨i, hi, rfl, rfl⟩, fun l hl => hl⟩
  | cons call rest ih =>
    obtain ⟨k1, k2⟩ := addRecipe_keeps db call.1 call.2
    obtain ⟨m1, m2⟩ := ih (addRecipe db call.1 call.2).2
    refine ⟨?_, ?_⟩
    · intro i hi
      obtain ⟨j, hj, e1, e2⟩ := k1 i hi
      obtain ⟨j', hj', e1', e2'⟩ := m1 j hj
      exact ⟨j', hj', e1'.trans e1, e2'.trans e2⟩
    · intro l hl
      exact m2 l (k2 l hl)

/-- The link and the ingredient row a successful `addRecipe` leaves for one of its lines. -/
theorem addRecipe_line_link {db db' : Database} {data : RecipeData} {now r : Nat}
    (hv : db.tables.Valid) (h : addRecipe db data now = (Except.ok r, db'))
    {line : IngredientInput} (hline : line ∈ data.ingredients) {n : String}
    (hn : line.name = some n) :
    ∃ l ∈ db'.tables.recipe_ingredients, ∃ i ∈ db'.tables.ingredients,
      l.recipe_id = r ∧ l.ingredient_id = i.id ∧ i.name = n := by
  obtain ⟨-, -, links, hlinks, hall⟩ := addRecipe_links hv h
  obtain ⟨l, hl, hr, -, -, i, hi, hid, hname, -⟩ := (forall₂_right hall).2 line hline
  refine ⟨l, by rw [hlinks]; exact List.mem_append_right _ hl, i, hi, hr, hid.symm, ?_⟩
  rw [hn] at hname
  exact (Option.some.inj hname).symm

/-- C3: after any sequence of `addRecipe` calls from the empty database no two ingredient
rows have the same name; and when, from such a state, two calls whose inputs each have a
line named "Salt" succeed (any calls in between), exactly one ingredient row is named
"Salt" and each of the two recipes has a link to its id. -/
theorem ingredient_name_unique (calls mid : List (RecipeData × Nat))
    (first second : RecipeData) (now1 now2 r1 r2 : Nat) (db1 db2 : Database) :
    ((addRecipes createTables calls).tables.ingredients.map (fun i => i.name)).Nodup ∧
    (addRecipe (addRecipes createTables calls) first now1 = (Except.ok r1, db1) →
     addRecipe (addRecipes db1 mid) second now2 = (Except.ok r2, db2) →
     (∃ line ∈ first.ingredients, line.name = some "Salt") →
     (∃ line ∈ second.ingredients, line.name = some "Salt") →
     ∃ salt, db2.tables.ingredients.filter (fun i => decide (i.name = "Salt")) = [salt] ∧
       (∃ l ∈ db2.tables.recipe_ingredients, l.recipe_id = r1 ∧ l.ingredient_id = salt.id) ∧
       (∃ l ∈ db2.tables.recipe_ingredients, l.recipe_id = r2 ∧ l.ingredient_id = salt.id)) := by
  have hv0 : (addRecipes createTables calls).tables.Valid :=
    valid_addRecipes calls valid_createTables
  refine ⟨hv0.ingredients_name_key, ?_⟩
  intro h1 h2 ⟨line1, hline1, hn1⟩ ⟨line2, hline2, hn2⟩
  have hv1 : db1.tables.Valid := by
    have := valid_addRecipe _ first now1 hv0
    rwa [h1] at this
  have hv1' : (addRecipes db1 mid).tables.Valid := valid_addRecipes mid hv1
  have hv2 : db2.tables.Valid := by
    have := valid_addRecipe _ second now2 hv1'
    rwa [h2] at this
  obtain ⟨l1, hl1, i1, hi1, hr1, hid1, hname1⟩ := addRecipe_line_link hv0 h1 hline1 hn1
  obtain ⟨l2, hl2, i2, hi2, hr2, hid2, hname2⟩ := addRecipe_line_link hv1' h2 hline2 hn2
  obtain ⟨m1, m2⟩ := addRecipes_keeps mid db1
  obtain ⟨k1, k2⟩ := addRecipe_keeps (addRecipes db1 mid) second now2
  rw [h2] at k1 k2
  obtain ⟨j, hj, ej1, ej2⟩ := m1 i1 hi1
  obtain ⟨j', hj', ej1', ej2'⟩ := k1 j hj
  have hsame : j' = i2 :=
    same_row_of_name hv2.ingredients_name_key hj' hi2
      ((ej2'.trans (ej2.trans hname1)).trans hname2.symm)
  subst hsame
  refine ⟨j', ?_, ⟨l1, k2 l1 (m2 l1 hl1), hr1, ?_⟩, ⟨l2, hl2, hr2, hid2⟩⟩
  · have := filter_name_singleton hv2.ingredients_name_key hj'
    rwa [hname2] at this
  · rw [hid1, ← ej1, ← ej1']

theorem ingredient_name_unique_witness :
    ((addRecipes createTables []).tables.ingredients.map (fun i => i.name)).Nodup ∧
    addRecipe (addRecipes createTables []) soup 7 =
      (Except.ok 1, (addRecipe createTables soup 7).2) ∧
    addRecipe (addRecipes (addRecipe createTables soup 7).2 []) soup 8 =
      (Except.ok 2, (addRecipe (addRecipe createTables soup 7).2 soup 8).2) ∧
    ∃ salt,
      (addRecipe (addRecipe createTables soup 7).2 soup 8).2.tables.ingredients.filter
        (fun i => decide (i.name = "Salt")) = [salt] ∧
      (∃ l ∈ (addRecipe (addRecipe createTables soup 7).2 soup 8).2.tables.recipe_ingredients,
        l.recipe_id = 1 ∧ l.ingredient_id = salt.id) ∧
      (∃ l ∈ (addRecipe (addRecipe createTables soup 7).2 soup 8).2.tables.recipe_ingredients,
        l.recipe_id = 2 ∧ l.ingredient_id = salt.id) :=
  have t := ingredient_name_unique [] [] soup soup 7 8 1 2 (addRecipe createTables soup 7).2
    (addRecipe (addRecipe createTables soup 7).2 soup 8).2
  ⟨t.1, rfl, rfl,
    t.2 rfl rfl ⟨_, List.mem_cons_self _ _, rfl⟩ ⟨_, List.mem_cons_self _ _, rfl⟩⟩

/-! ## Failure and rollback -/

theorem addIngredients_aborted {recipeId : Nat} (lines : List IngredientInput) {tx tx' : Tx}
    {res : Except DbError Unit} (h : addIngredients recipeId lines tx = (res, tx'))
    (hab : tx'.aborted = true) (h0 : tx.aborted = false) : ∃ e, res = Except.error e := by
  induction lines generalizing tx with
  | nil =>
    simp [addIngredients] at h
    rw [← h.2, h0] at hab
    exact absurd hab (by simp)
  | cons line rest ih =>
    unfold addIngredients at h
    rcases hb : addIngredient recipeId line tx with ⟨res1, tx1⟩
    rw [hb] at h
    cases res1 with
    | error e =>
      simp at h
      exact ⟨e, h.1.symm⟩
    | ok u =>
      obtain ⟨id, tx0, -, hl⟩ := addIngredient_ok hb
      obtain ⟨-, -, -, -, -, a, -, htx1⟩ := insertRecipeIngredient_ok hl
      exact ih h (by rw [htx1])

theorem addSteps_aborted {recipeId : Nat} (steps : List StepInput) {index : Nat} {tx tx' : Tx}
    {res : Except DbError Unit} (h : addSteps recipeId index steps tx = (res, tx'))
    (hab : tx'.aborted = true) (h0 : tx.aborted = false) : ∃ e, res = Except.error e := by
  induction steps generalizing tx index with
  | nil =>
    simp [addSteps] at h
    rw [← h.2, h0] at hab
    exact absurd hab (by simp)
  | cons step rest ih =>
    unfold addSteps at h
    rcases hb : insertRecipeStep tx recipeId (index + 1) step.instruction with ⟨res1, tx1⟩
    rw [hb] at h
    cases res1 with
    | error e =>
      simp at h
      exact ⟨e, h.1.symm⟩
    | ok id =>
      obtain ⟨-, -, -, -, -, text, -, htx1⟩ := insertRecipeStep_ok hb
      exact ih h (by rw [htx1])

theorem addRecipeTx_aborted {db : Database} {data : RecipeData} {now : Nat}
    (hab : (addRecipeTx (Tx.begin db) data now).2.aborted = true) :
    ∃ e, (addRecipeTx (Tx.begin db) data now).1 = Except.error e := by
  unfold addRecipeTx at hab ⊢
  rcases h1 : insertRecipe (Tx.begin db) data.name (orNullText data.picture_path)
      (orNullNumber data.cooking_time) (orNullNumber data.estimated_price)
      (orNullNumber data.rating) now with ⟨res1, tx1⟩
  rw [h1] at hab
  cases res1 with
  | error e => exact ⟨e, rfl⟩
  | ok id =>
    dsimp only at hab ⊢
    have hab1 : tx1.aborted = false := by
      obtain ⟨-, -, -, -, -, n, -, htx1⟩ := insertRecipe_ok h1
      rw [htx1]
    rcases h2 : addIngredients id data.ingredients tx1 with ⟨res2, tx2⟩
    rw [h2] at hab
    cases res2 with
    | error e => exact ⟨e, rfl⟩
    | ok u =>
      dsimp only at hab ⊢
      have hab2 : tx2.aborted = false := by
        by_contra hne
        obtain ⟨e, he⟩ := addIngredients_aborted _ h2 (by simpa using hne) hab1
        simp at he
      rcases h3 : addSteps id 0 data.steps tx2 with ⟨res3, tx3⟩
      rw [h3] at hab
      cases res3 with
      | error e => exact ⟨e, rfl⟩
      | ok u3 =>
        dsimp only at hab
        obtain ⟨e, he⟩ := addSteps_aborted _ h3 hab hab2
        simp at he

/-- C4: when a statement of `addRecipe` fails (the transaction ends up aborted, which is
what a failing statement does to it), `addRecipe` throws, and the four tables hold
exactly the rows they held before the call. -/
theorem addRecipe_failure_rolls_back (db : Database) (data : RecipeData) (now : Nat)
    (hfail : (addRecipeTx (Tx.begin db) data now).2.aborted = true) :
    ∃ e, (addRecipe db data now).1 = Except.error e ∧
      (addRecipe db data now).2.tables = db.tables := by
  obtain ⟨e, he⟩ := addRecipeTx_aborted hfail
  rcases hb : addRecipeTx (Tx.begin db) data now with ⟨res, tx⟩
  rw [hb] at he
  simp only at he
  subst he
  refine ⟨e, ?_, ?_⟩
  · simp [addRecipe, hb]
  · simp [addRecipe, hb, Tx.rollback]

theorem addRecipe_failure_rolls_back_witness :
    (addRecipeTx (Tx.begin createTables) brokenSoup 7).2.aborted = true ∧
    ∃ e, (addRecipe createTables brokenSoup 7).1 = Except.error e ∧
      (addRecipe createTables brokenSoup 7).2.tables = createTables.tables :=
  ⟨rfl, addRecipe_failure_rolls_back createTables brokenSoup 7 rfl⟩

/-! ## The upsert of one ingredient line -/

theorem same_row_of_id {l : List IngredientRow} (hnd : (l.map (fun r => r.id)).Nodup)
    {a b : IngredientRow} (ha : a ∈ l) (hb : b ∈ l) (hab : a.id = b.id) : a = b :=
  List.inj_on_of_nodup_map hnd ha hb hab

/-- C5: an ingredient line named `n` that `addRecipe` processes. If a row named `n` exists,
the table keeps its rows, that row alone gets the unit of the line (NULL when the line has
no unit or an empty one), and the link is inserted with its id. If none exists, one row
with that name and unit is appended and the link is inserted with its id. -/
theorem addIngredient_upsert (recipeId : Nat) (line : IngredientInput) (tx tx' : Tx)
    (n : String) (hv : tx.tables.Valid) (hn : line.name = some n)
    (h : addIngredient recipeId line tx = (Except.ok (), tx')) :
    (∀ row ∈ tx.tables.ingredients, row.name = n →
      tx'.tables.ingredients = tx.tables.ingredients.map
        (fun i => if i.id = row.id then { i with unit := orNullText line.unit } else i) ∧
      ∃ l, tx'.tables.recipe_ingredients = tx.tables.recipe_ingredients ++ [l] ∧
        l.recipe_id = recipeId ∧ l.ingredient_id = row.id ∧
        line.amount.map toRealNumber = some l.amount ∧ l.unit = line.unit) ∧
    ((∀ row ∈ tx.tables.ingredients, row.name ≠ n) →
      ∃ row l, tx'.tables.ingredients = tx.tables.ingredients ++ [row] ∧
        row.name = n ∧ row.unit = orNullText line.unit ∧
        tx'.tables.recipe_ingredients = tx.tables.recipe_ingredients ++ [l] ∧
        l.recipe_id = recipeId ∧ l.ingredient_id = row.id ∧
        line.amount.map toRealNumber = some l.amount ∧ l.unit = line.unit) := by
  obtain ⟨n', a, lid, iid, hn', ha, -, -, hl, -, hcase⟩ := addIngredient_spec h
  have hnn : n' = n := by
    rw [hn] at hn'
    exact (Option.some.inj hn').symm
  subst hnn
  refine ⟨?_, ?_⟩
  · intro row hrow hname
    rcases hcase with ⟨found, hf, hid, hing⟩ | ⟨hf, -, -⟩
    · obtain ⟨hmem, hfname⟩ := find_name_some hf
      have hsame : found = row :=
        same_row_of_name hv.ingredients_name_key hmem hrow (hfname.trans hname.symm)
      subst hsame
      refine ⟨?_, _, hl, rfl, hid, by rw [ha]; rfl, rfl⟩
      rw [hing]
      apply List.map_congr_left
      intro i hi
      by_cases hi' : i.name = n'
      · have : i = found := same_row_of_name hv.ingredients_name_key hi hmem
          (hi'.trans hfname.symm)
        subst this
        simp [setUnit, hi']
      · have hne : i.id ≠ found.id := by
          intro he
          have : i = found := same_row_of_id hv.ingredients_pkey hi hmem he
          exact hi' (this ▸ hfname)
        simp [setUnit, hi', hne]
    · have hmem := List.mem_map_of_mem (fun r => r.name) hrow
      rw [show (fun r : IngredientRow => r.name) row = n' from hname] at hmem
      exact absurd hmem (find_name_none hf)
  · intro hnone
    rcases hcase with ⟨found, hf, -, -⟩ | ⟨-, -, hing⟩
    · obtain ⟨hmem, hfname⟩ := find_name_some hf
      exact absurd hfname (hnone found hmem)
    · exact ⟨_, _, hing, rfl, rfl, hl, rfl, rfl, by rw [ha]; rfl, rfl⟩

theorem valid_stewTx : stewTx.tables.Valid :=
  @valid_insertRecipe (Tx.begin (addRecipe createTables soup 7).2) stewTx (some "Stew")
    none none none none 9 2 (valid_addRecipe createTables soup 7 valid_createTables) rfl

theorem addIngredient_upsert_witness :
    stewTx.tables.Valid ∧ saltLine.name = some "Salt" ∧
    addIngredient 2 saltLine stewTx = (Except.ok (), (addIngredient 2 saltLine stewTx).2) ∧
    (∀ row ∈ stewTx.tables.ingredients, row.name = "Salt" →
      (addIngredient 2 saltLine stewTx).2.tables.ingredients = stewTx.tables.ingredients.map
        (fun i => if i.id = row.id then { i with unit := orNullText saltLine.unit } else i) ∧
      ∃ l, (addIngredient 2 saltLine stewTx).2.tables.recipe_ingredients =
          stewTx.tables.recipe_ingredients ++ [l] ∧
        l.recipe_id = 2 ∧ l.ingredient_id = row.id ∧
        saltLine.amount.map toRealNumber = some l.amount ∧ l.unit = saltLine.unit) :=
  ⟨valid_stewTx, rfl, rfl,
    (addIngredient_upsert 2 saltLine stewTx _ "Salt" valid_stewTx rfl rfl).1⟩

/-! ## The new recipe row -/

theorem addRecipe_recipes {db db' : Database} {data : RecipeData} {now r : Nat}
    (h : addRecipe db data now = (Except.ok r, db')) :
    r ∉ db.tables.recipes.map (fun x => x.id) ∧
    ratingCheck (orNullNumber data.rating) = true ∧
    ∃ n, data.name = some n ∧
      db'.tables.recipes = db.tables.recipes ++
        [{ id := r, name := n, picture_path := orNullText data.picture_path,
           cooking_time := orNullNumber data.cooking_time,
           estimated_price := (orNullNumber data.estimated_price).map toReal,
           rating := orNullNumber data.rating, created_at := some now,
           updated_at := some now }] := by
  obtain ⟨tx, htx, rfl⟩ := addRecipe_ok h
  obtain ⟨tx1, tx2, h1, h2, h3⟩ := addRecipeTx_ok htx
  obtain ⟨f1, -⟩ := addIngredients_frame _ h2
  obtain ⟨g1, -⟩ := addSteps_ok _ h3
  obtain ⟨-, hfresh, hcheck, -, -, n, hn, rfl⟩ := insertRecipe_ok h1
  refine ⟨hfresh, hcheck, n, hn, ?_⟩
  show tx.tables.recipes = _
  rw [g1, f1]
  rfl

/-- C6: a successful `addRecipe` returns an id that no recipe row had before the call;
exactly one recipe row is added, it has that id and carries the submitted name. -/
theorem addRecipe_returns_new_id (db db' : Database) (data : RecipeData) (now r : Nat)
    (h : addRecipe db data now = (Except.ok r, db')) :
    (∀ row ∈ db.tables.recipes, row.id ≠ r) ∧
    ∃ row, db'.tables.recipes = db.tables.recipes ++ [row] ∧ row.id = r ∧
      data.name = some row.name := by
  obtain ⟨hfresh, -, n, hn, hrows⟩ := addRecipe_recipes h
  refine ⟨?_, _, hrows, rfl, hn⟩
  intro row hrow he
  exact hfresh (he ▸ List.mem_map_of_mem (fun x => x.id) hrow)

theorem addRecipe_returns_new_id_witness :
    addRecipe createTables soup 7 = (Except.ok 1, (addRecipe createTables soup 7).2) ∧
    (∀ row ∈ createTables.tables.recipes, row.id ≠ 1) ∧
    ∃ row, (addRecipe createTables soup 7).2.tables.recipes =
        createTables.tables.recipes ++ [row] ∧ row.id = 1 ∧ soup.name = some row.name :=
  ⟨rfl, addRecipe_returns_new_id createTables _ soup 7 1 rfl⟩

/-! ## Ratings -/

/-- C7 fails as stated: a rating of 0 is outside 1..5, yet `addRecipe` succeeds and
persists the recipe row, with rating NULL (`recipeData.rating || null`). -/
theorem addRecipe_rating_zero_persisted :
    zeroRatedSoup.rating = some 0 ∧
    (addRecipe createTables zeroRatedSoup 7).1 = Except.ok 1 ∧
    (addRecipe createTables zeroRatedSoup 7).2.tables.recipes.map
      (fun r => (r.id, r.name, r.rating)) = [(1, "Soup", none)] ∧
    (addRecipe createTables zeroRatedSoup 7).2.tables.recipe_ingredients.length = 2 ∧
    (addRecipe createTables zeroRatedSoup 7).2.tables.recipe_steps.length = 2 :=
  ⟨rfl, rfl, rfl, rfl, rfl⟩

/-- C7 as amended: for a rating that is an integer outside 1..5 and not 0, `addRecipe`
fails and the tables hold exactly the rows they held before: no recipe row, link or
step is persisted. A rating of 0 is handled as an absent rating. -/
theorem addRecipe_rating_out_of_range (db : Database) (data : RecipeData) (now : Nat)
    (v : Int) (hr : data.rating = some v) (hv : v < 1 ∨ 5 < v) :
    (v ≠ 0 → ∃ e, (addRecipe db data now).1 = Except.error e ∧
      (addRecipe db data now).2.tables = db.tables) ∧
    (v = 0 → addRecipe db data now = addRecipe db { data with rating := none } now) := by
  refine ⟨?_, ?_⟩
  · intro h0
    rcases h : addRecipe db data now with ⟨res, db'⟩
    cases res with
    | error e => exact ⟨e, rfl, addRecipe_error h⟩
    | ok r =>
      exfalso
      obtain ⟨-, hcheck, -⟩ := addRecipe_recipes h
      rw [hr] at hcheck
      simp only [orNullNumber, h0, if_false, ratingCheck, Bool.and_eq_true,
        decide_eq_true_eq] at hcheck
      omega
  · intro h0
    subst h0
    simp [addRecipe, addRecipeTx, hr, orNullNumber]

theorem addRecipe_rating_out_of_range_witness :
    sixStarSoup.rating = some 6 ∧ ((6 : Int) < 1 ∨ (5 : Int) < 6) ∧
    ∃ e, (addRecipe createTables sixStarSoup 7).1 = Except.error e ∧
      (addRecipe createTables sixStarSoup 7).2.tables = createTables.tables :=
  ⟨rfl, by decide,
    (addRecipe_rating_out_of_range createTables sixStarSoup 7 6 rfl (by decide)).1
      (by decide)⟩

/-! ## Reading one recipe -/

/-- C8 fails as stated: no recipe row has the id 2147483648, which is outside the range of
`INTEGER`, nor an id written "abc"; `getRecipe` does not return null for them, the query
raises and the method throws, and `GET /api/recipes/:id` responds 500. -/
theorem getRecipe_invalid_id :
    (∀ row ∈ (addRecipe createTables soup 7).2.tables.recipes, (row.id : Int) ≠ 2147483648) ∧
    getRecipe Collation.binary (addRecipe createTables soup 7).2 (IdParam.int 2147483648)
      = Except.error DbError.numericOutOfRange ∧
    (getRecipeRoute true Collation.binary (addRecipe createTables soup 7).2
        (IdParam.int 2147483648)).1
      = { status := 500, body := Body.error "Failed to fetch recipe" } ∧
    getRecipe Collation.binary (addRecipe createTables soup 7).2 IdParam.invalid
      = Except.error DbError.invalidTextRepresentation ∧
    (getRecipeRoute true Collation.binary (addRecipe createTables soup 7).2 IdParam.invalid).1
      = { status := 500, body := Body.error "Failed to fetch recipe" } :=
  ⟨by decide, rfl, rfl, rfl, rfl⟩

/-- C8 as amended: for an id the server reads as an integer within the range of `INTEGER`,
`getRecipe id` returns null exactly when no recipe row has that id, and the handler of
`GET /api/recipes/:id`, once the database is initialised, answers 404 exactly in that
case; for an id outside that range, or one that is no integer at all, `getRecipe` throws
and the handler answers 500; in every case the database after the call is the database
before it. -/
theorem getRecipe_not_found (coll : Collation) (db : Database) (id : IdParam) :
    (∀ n : Int, id = IdParam.int n → inInt4 (some n) = true →
      (getRecipe coll db id = Except.ok none ↔
        ∀ row ∈ db.tables.recipes, (row.id : Int) ≠ n) ∧
      ((getRecipeRoute true coll db id).1.status = 404 ↔
        ∀ row ∈ db.tables.recipes, (row.id : Int) ≠ n)) ∧
    ((id = IdParam.invalid ∨ ∃ n, id = IdParam.int n ∧ inInt4 (some n) = false) →
      (∃ e, getRecipe coll db id = Except.error e) ∧
      (getRecipeRoute true coll db id).1
        = { status := 500, body := Body.error "Failed to fetch recipe" }) ∧
    ∀ flag, (getRecipeRoute flag coll db id).2 = db := by
  refine ⟨?_, ?_, ?_⟩
  · rintro n rfl h4
    have hget : getRecipe coll db (IdParam.int n) = Except.ok none ↔
        ∀ row ∈ db.tables.recipes, (row.id : Int) ≠ n := by
      by_cases hneg : n < 0
      · simp only [getRecipe, h4, hneg, if_true, Bool.true_eq_false, if_false, true_iff]
        intro row _
        omega
      · simp only [getRecipe, h4, hneg, Bool.true_eq_false, if_false, Except.ok.injEq]
        rw [selectRecipe_eq_none_iff]
        constructor
        · intro hall row hrow
          have := hall row hrow
          omega
        · intro hall row hrow
          have := hall row hrow
          omega
    refine ⟨hget, ?_⟩
    rw [← hget]
    unfold getRecipeRoute
    rcases hg : getRecipe coll db (IdParam.int n) with e | x
    · simp
    · cases x <;> simp
  · intro hbad
    have herr : ∃ e, getRecipe coll db id = Except.error e := by
      rcases hbad with rfl | ⟨n, rfl, h4⟩
      · exact ⟨_, rfl⟩
      · exact ⟨DbError.numericOutOfRange, by simp [getRecipe, h4]⟩
    obtain ⟨e, he⟩ := herr
    refine ⟨⟨e, he⟩, ?_⟩
    unfold getRecipeRoute
    rw [he]
    rfl
  · intro flag
    unfold getRecipeRoute
    cases flag
    · rfl
    · rcases hg : getRecipe coll db id with e | x
      · rfl
      · cases x <;> rfl

theorem mem_joinIngredients {t : Tables} {r : Nat} {e : IngredientEntry} :
    e ∈ joinIngredients t r ↔
      ∃ ri ∈ t.recipe_ingredients, ∃ i ∈ t.ingredients,
        ri.recipe_id = r ∧ ri.ingredient_id = i.id ∧
        e = { name := i.name, amount := ri.amount, unit := coalesce ri.unit i.unit } := by
  unfold joinIngredients
  simp only [List.mem_flatMap, List.mem_filter, List.mem_map, decide_eq_true_eq]
  constructor
  · rintro ⟨ri, ⟨hri, hr⟩, i, ⟨hi, hid⟩, rfl⟩
    exact ⟨ri, hri, i, hi, hr, hid, rfl⟩
  · rintro ⟨ri, hri, i, hi, hr, hid, rfl⟩
    exact ⟨ri, ⟨hri, hr⟩, i, ⟨hi, hid⟩, rfl⟩

theorem sorted_by_collation (coll : Collation) (l : List IngredientEntry) :
    List.Sorted (fun a b : IngredientEntry => coll.le a.name b.name = true)
      (List.insertionSort (fun a b : IngredientEntry => coll.le a.name b.name = true) l) := by
  haveI : IsTotal IngredientEntry (fun a b => coll.le a.name b.name = true) :=
    ⟨fun a b => coll.total a.name b.name⟩
  haveI : IsTrans IngredientEntry (fun a b => coll.le a.name b.name = true) :=
    ⟨fun a b c => coll.trans a.name b.name c.name⟩
  exact List.sorted_insertionSort _ l

/-- C9: for a recipe id `r` present in the database (a value of the `INTEGER` column `id`,
so at most 2147483647), the ingredient entries `getRecipe r` returns are sorted by
ingredient name in ascending order (in the collation of the database); each entry comes
from a link of `r` joined with its ingredient row and has the unit of the link when that
is not NULL and the unit of the ingredient row otherwise; and every such pair yields an
entry. -/
theorem getRecipe_ingredients_sorted (coll : Collation) (db : Database) (r : Nat)
    (hr : r ∈ db.tables.recipes.map (fun x => x.id)) (hr4 : r ≤ int4Max) :
    ∃ d, getRecipe coll db (IdParam.int r) = Except.ok (some d) ∧
      List.Sorted (fun a b : IngredientEntry => coll.le a.name b.name = true) d.ingredients ∧
      (∀ e ∈ d.ingredients, ∃ ri ∈ db.tables.recipe_ingredients, ∃ i ∈ db.tables.ingredients,
        ri.recipe_id = r ∧ ri.ingredient_id = i.id ∧ e.name = i.name ∧
        e.amount = ri.amount ∧
        e.unit = (match ri.unit with
          | some u => some u
          | none => i.unit)) ∧
      (∀ ri ∈ db.tables.recipe_ingredients, ∀ i ∈ db.tables.ingredients,
        ri.recipe_id = r → ri.ingredient_id = i.id →
        ∃ e ∈ d.ingredients, e.name = i.name ∧ e.amount = ri.amount) := by
  rw [getRecipe_int coll db hr4]
  cases hg : selectRecipe coll db r with
  | none =>
    exfalso
    obtain ⟨row, hrow, hid⟩ := List.mem_map.mp hr
    exact (selectRecipe_eq_none_iff coll db r).mp hg row hrow hid
  | some d =>
    obtain ⟨-, -, hd, -⟩ := selectRecipe_eq_some hg
    refine ⟨d, rfl, ?_, ?_, ?_⟩
    · rw [hd]; exact sorted_by_collation coll _
    · intro e he
      rw [hd] at he
      have he' := (List.perm_insertionSort _ _).mem_iff.mp he
      obtain ⟨ri, hri, i, hi, h1, h2, rfl⟩ := mem_joinIngredients.mp he'
      refine ⟨ri, hri, i, hi, h1, h2, rfl, rfl, ?_⟩
      simp only [coalesce]
    · intro ri hri i hi h1 h2
      refine ⟨{ name := i.name, amount := ri.amount, unit := coalesce ri.unit i.unit },
        ?_, rfl, rfl⟩
      rw [hd]
      exact (List.perm_insertionSort _ _).mem_iff.mpr
        (mem_joinIngredients.mpr ⟨ri, hri, i, hi, h1, h2, rfl⟩)

theorem getRecipe_ingredients_sorted_witness :
    1 ∈ (addRecipe createTables soup 7).2.tables.recipes.map (fun x => x.id) ∧
    1 ≤ int4Max ∧
    ∃ d, getRecipe Collation.codepoint (addRecipe createTables soup 7).2
        (IdParam.int (1 : Nat)) = Except.ok (some d) ∧
      List.Sorted (fun a b : IngredientEntry => Collation.codepoint.le a.name b.name = true)
        d.ingredients ∧
      (∀ e ∈ d.ingredients,
        ∃ ri ∈ (addRecipe createTables soup 7).2.tables.recipe_ingredients,
        ∃ i ∈ (addRecipe createTables soup 7).2.tables.ingredients,
        ri.recipe_id = 1 ∧ ri.ingredient_id = i.id ∧ e.name = i.name ∧
        e.amount = ri.amount ∧
        e.unit = (match ri.unit with
          | some u => some u
          | none => i.unit)) ∧
      (∀ ri ∈ (addRecipe createTables soup 7).2.tables.recipe_ingredients,
        ∀ i ∈ (addRecipe createTables soup 7).2.tables.ingredients,
        ri.recipe_id = 1 → ri.ingredient_id = i.id →
        ∃ e ∈ d.ingredients, e.name = i.name ∧ e.amount = ri.amount) :=
  ⟨by decide, by decide,
    getRecipe_ingredients_sorted Collation.codepoint (addRecipe createTables soup 7).2 1
      (by decide) (by decide)⟩

/-! ## Listing recipes -/

theorem createdAtDesc_total (a b : Option Nat) :
    createdAtDesc a b = true ∨ createdAtDesc b a = true := by
  cases a <;> cases b <;> simp [createdAtDesc]
  omega

theorem createdAtDesc_trans (a b c : Option Nat) (hab : createdAtDesc a b = true)
    (hbc : createdAtDesc b c = true) : createdAtDesc a c = true := by
  cases a <;> cases b <;> cases c <;> simp [createdAtDesc] at hab hbc ⊢
  omega

/-- C10: `getAllRecipes` returns one summary row per recipe row, carrying the id, name,
picture path, cooking time, estimated price, rating and `created_at` of that row and
nothing else, sorted by `created_at` in descending order (a NULL `created_at` first); the
handler of `GET /api/recipes`, once the database is initialised, answers with that
list. -/
theorem getAllRecipes_sorted (db : Database) :
    (getAllRecipes db).Perm
      (db.tables.recipes.map (fun r : RecipeRow =>
        ({ id := r.id, name := r.name, picture_path := r.picture_path,
           cooking_time := r.cooking_time, estimated_price := r.estimated_price,
           rating := r.rating, created_at := r.created_at } : RecipeSummary))) ∧
    List.Sorted (fun a b : RecipeSummary => createdAtDesc a.created_at b.created_at = true)
      (getAllRecipes db) ∧
    List.Pairwise
      (fun a b : RecipeSummary =>
        ∀ x y, a.created_at = some x → b.created_at = some y → y ≤ x)
      (getAllRecipes db) ∧
    getRecipesRoute true db =
      ({ status := 200, body := Body.recipes (getAllRecipes db) }, db) := by
  haveI : IsTotal RecipeSummary
      (fun a b => createdAtDesc a.created_at b.created_at = true) :=
    ⟨fun a b => createdAtDesc_total a.created_at b.created_at⟩
  haveI : IsTrans RecipeSummary
      (fun a b => createdAtDesc a.created_at b.created_at = true) :=
    ⟨fun a b c => createdAtDesc_trans a.created_at b.created_at c.created_at⟩
  have hs : List.Sorted
      (fun a b : RecipeSummary => createdAtDesc a.created_at b.created_at = true)
      (getAllRecipes db) := List.sorted_insertionSort _ _
  have hp : (getAllRecipes db).Perm (db.tables.recipes.map summary) :=
    List.perm_insertionSort _ _
  refine ⟨hp, hs, ?_, ?_⟩
  · refine List.Pairwise.imp ?_ hs
    intro a b hab x y hx hy
    rw [hx, hy] at hab
    simpa [createdAtDesc] using hab
  · simp [getRecipesRoute]

/-! ## The handler of `POST /api/recipes` -/

theorem postRecipe_sample :
    postRecipeRoute true sampleRuntime createTables soupRequest 7 =
      ({ status := 201, body := Body.created "Recipe added successfully" 1 },
        (addRecipe createTables
          { soup with
            ingredients :=
              [{ name := some "Salt", amount := some 1, unit := some "tsp" },
               { name := some "Water", amount := some 2, unit := some "" }] } 7).2) := by
  rfl

theorem ratingOutOfRange_text (rt : JsRuntime) (text : String) (n : Int)
    (ht : text ≠ "") (hn : rt.toNumber (JsValue.string text) = JsNumber.int n)
    (hout : n < 1 ∨ 5 < n) : ratingOutOfRange rt (JsValue.string text) = true := by
  simp only [ratingOutOfRange, truthy, hn, lessThan, greaterThan, Bool.and_eq_true,
    Bool.or_eq_true, decide_eq_true_eq]
  exact ⟨ht, hout⟩

/-- What the handler does before it builds `recipeData`: it answers 503, 400, or goes on
with the parsed fields, and in the first two cases the database is not touched. -/
theorem postRecipeHandler_rejects (flag : Bool) (rt : JsRuntime) (db : Database)
    (req : CreateRequest) (now : Nat)
    (h : flag = false ∨
      (truthy req.body.name && truthy req.body.ingredients && truthy req.body.steps) = false ∨
      parseField rt req.body.ingredients = none ∨ parseField rt req.body.steps = none ∨
      ratingOutOfRange rt req.body.rating = true) :
    (postRecipeHandler flag rt db req now).2 = db ∧
    (flag = true → (postRecipeHandler flag rt db req now).1.status = 400) ∧
    (flag = false → (postRecipeHandler flag rt db req now).1.status = 503) := by
  unfold postRecipeHandler
  cases flag with
  | false => simp
  | true =>
    simp only [Bool.true_eq_false, if_false, false_or] at h ⊢
    by_cases h1 :
        (truthy req.body.name && truthy req.body.ingredients && truthy req.body.steps) = false
    · simp [h1]
    · simp only [h1, if_false, false_or] at h ⊢
      cases hi : parseField rt req.body.ingredients with
      | none => simp
      | some pi =>
        cases hs : parseField rt req.body.steps with
        | none => simp
        | some ps =>
          simp only [hi, hs, reduceCtorEq, false_or] at h
          simp [h]

/-- C11: for a create request whose rating field is the decimal text of an integer less
than 1 or greater than 5 (a non-empty text that `<` and `>` read as that integer), the
handler, once the database is initialised, responds 400; it does not call `addRecipe`:
the database is left as it was. -/
theorem postRecipe_rating_rejected (rt : JsRuntime) (db : Database) (req : CreateRequest)
    (now : Nat) (text : String) (n : Int) (hr : req.body.rating = JsValue.string text)
    (ht : text ≠ "") (hn : rt.toNumber (JsValue.string text) = JsNumber.int n)
    (hout : n < 1 ∨ 5 < n) :
    (postRecipeHandler true rt db req now).1.status = 400 ∧
    ∀ flag, (postRecipeHandler flag rt db req now).2 = db := by
  have hrange : ratingOutOfRange rt req.body.rating = true := by
    rw [hr]; exact ratingOutOfRange_text rt text n ht hn hout
  refine ⟨?_, ?_⟩
  · exact (postRecipeHandler_rejects true rt db req now
      (Or.inr (Or.inr (Or.inr (Or.inr hrange))))).2.1 rfl
  · intro flag
    exact (postRecipeHandler_rejects flag rt db req now
      (Or.inr (Or.inr (Or.inr (Or.inr hrange))))).1

theorem postRecipe_rating_rejected_witness :
    (ratedRequest "-1").body.rating = JsValue.string "-1" ∧ "-1" ≠ "" ∧
    sampleRuntime.toNumber (JsValue.string "-1") = JsNumber.int (-1) ∧
    ((-1 : Int) < 1 ∨ (5 : Int) < -1) ∧
    (postRecipeHandler true sampleRuntime createTables (ratedRequest "-1") 7).1.status = 400 ∧
    ∀ flag, (postRecipeHandler flag sampleRuntime createTables (ratedRequest "-1") 7).2
      = createTables :=
  ⟨rfl, by decide, rfl, by decide,
    postRecipe_rating_rejected sampleRuntime createTables (ratedRequest "-1") 7 "-1" (-1) rfl
      (by decide) rfl (by decide)⟩

/-- C12: for a create request in which name is missing or empty, or ingredients or steps
is missing, the handler, once the database is initialised, responds 400; it invokes no
storage operation: the database is left as it was. -/
theorem postRecipe_missing_fields (rt : JsRuntime) (db : Database) (req : CreateRequest)
    (now : Nat)
    (h : req.body.name = JsValue.undefined ∨ req.body.name = JsValue.string "" ∨
      req.body.ingredients = JsValue.undefined ∨ req.body.steps = JsValue.undefined) :
    (postRecipeHandler true rt db req now).1.status = 400 ∧
    ∀ flag, (postRecipeHandler flag rt db req now).2 = db := by
  have hfalsy :
      (truthy req.body.name && truthy req.body.ingredients && truthy req.body.steps)
        = false := by
    rcases h with h | h | h | h <;> simp [h, truthy]
  refine ⟨?_, ?_⟩
  · exact (postRecipeHandler_rejects true rt db req now (Or.inr (Or.inl hfalsy))).2.1 rfl
  · intro flag
    exact (postRecipeHandler_rejects flag rt db req now (Or.inr (Or.inl hfalsy))).1

theorem postRecipe_missing_fields_witness :
    ((namedRequest (JsValue.string "")).body.name = JsValue.undefined ∨
      (namedRequest (JsValue.string "")).body.name = JsValue.string "" ∨
      (namedRequest (JsValue.string "")).body.ingredients = JsValue.undefined ∨
      (namedRequest (JsValue.string "")).body.steps = JsValue.undefined) ∧
    (postRecipeHandler true sampleRuntime createTables (namedRequest (JsValue.string "")) 7).1.status
      = 400 ∧
    ∀ flag,
      (postRecipeHandler flag sampleRuntime createTables (namedRequest (JsValue.string "")) 7).2
        = createTables :=
  ⟨Or.inr (Or.inl rfl),
    postRecipe_missing_fields sampleRuntime createTables (namedRequest (JsValue.string "")) 7
      (Or.inr (Or.inl rfl))⟩

/-! ## Uploads -/

/-- C13 at the failing input: a picture whose MIME type is `text/plain` is answered with
status 500, not 400 (the file filter passes a plain `Error` on, and the error handling
middleware answers 400 for `LIMIT_FILE_SIZE` only); an image of more than 5MB is
answered with status 400. -/
theorem postRecipe_upload_rejected :
    (postRecipeRoute true sampleRuntime createTables (pictureRequest "text/plain" 1000) 7).1
      = { status := 500, body := Body.error "Internal server error" } ∧
    (postRecipeRoute true sampleRuntime createTables
        (pictureRequest "image/png" (5 * 1024 * 1024 + 1)) 7).1
      = { status := 400, body := Body.error "File too large. Maximum size is 5MB." } := by
  refine ⟨rfl, rfl⟩

/-! ## Malformed `ingredients` and `steps` -/

theorem callTrim_ok_text {v : JsValue} {key : String} {x : JsValue} {t : String}
    (hg : getProp v key = Except.ok x) (ht : callTrim x = Except.ok t) :
    isTextProp v key = true := by
  unfold isTextProp
  rw [hg]
  cases x <;> simp [callTrim] at ht ⊢

theorem buildIngredient_error (rt : JsRuntime) {item : JsValue}
    (h : isTextProp item "name" = false ∨ isTextProp item "unit" = false) :
    ∃ e, buildIngredient rt item = Except.error e := by
  unfold buildIngredient
  split
  · exact ⟨_, rfl⟩
  · rename_i n hn
    split
    · exact ⟨_, rfl⟩
    · rename_i name hname
      have h1 := callTrim_ok_text hn hname
      split
      · exact ⟨_, rfl⟩
      · split
        · exact ⟨_, rfl⟩
        · rename_i u hu
          split
          · exact ⟨_, rfl⟩
          · rename_i unit hunit
            have h2 := callTrim_ok_text hu hunit
            rcases h with h | h
            · rw [h1] at h; cases h
            · rw [h2] at h; cases h

theorem buildStep_error {item : JsValue} (h : isTextProp item "instruction" = false) :
    ∃ e, buildStep item = Except.error e := by
  unfold buildStep
  split
  · exact ⟨_, rfl⟩
  · rename_i i hi
    split
    · exact ⟨_, rfl⟩
    · rename_i t ht
      have h1 := callTrim_ok_text hi ht
      rw [h1] at h; cases h

theorem mapItems_error {α : Type} (f : JsValue → Except DbError α) (items : List JsValue)
    (h : ∃ item ∈ items, ∃ e, f item = Except.error e) :
    ∃ e, mapItems f items = Except.error e := by
  induction items with
  | nil => simp at h
  | cons x xs ih =>
    obtain ⟨item, hmem, e, he⟩ := h
    unfold mapItems
    cases hx : f x with
    | error e1 => exact ⟨e1, rfl⟩
    | ok y =>
      dsimp only
      rcases List.mem_cons.mp hmem with rfl | hmem
      · rw [hx] at he; cases he
      · obtain ⟨e2, he2⟩ := ih ⟨item, hmem, e, he⟩
        rw [he2]
        exact ⟨e2, rfl⟩

theorem callMap_ingredients_error (rt : JsRuntime) {v : JsValue} (h : InvalidIngredients v) :
    ∃ e, callMap (buildIngredient rt) v = Except.error e := by
  cases v with
  | array items =>
    obtain ⟨item, hmem, hbad⟩ := h
    exact mapItems_error _ _ ⟨item, hmem, buildIngredient_error rt hbad⟩
  | _ => exact ⟨_, rfl⟩

theorem callMap_steps_error {v : JsValue} (h : InvalidSteps v) :
    ∃ e, callMap buildStep v = Except.error e := by
  cases v with
  | array items =>
    obtain ⟨item, hmem, hbad⟩ := h
    exact mapItems_error _ _ ⟨item, hmem, buildStep_error hbad⟩
  | _ => exact ⟨_, rfl⟩

theorem buildRecipeData_error (rt : JsRuntime) (body : RequestBody)
    (file : Option UploadedFile) {pi ps : JsValue}
    (h : InvalidIngredients pi ∨ InvalidSteps ps) :
    ∃ e, buildRecipeData rt body file pi ps = Except.error e := by
  unfold buildRecipeData
  split
  · exact ⟨_, rfl⟩
  · split
    · exact ⟨_, rfl⟩
    · rename_i ingredients hing
      split
      · exact ⟨_, rfl⟩
      · rename_i steps hsteps
        rcases h with h | h
        · obtain ⟨e, he⟩ := callMap_ingredients_error rt h
          rw [he] at hing; cases hing
        · obtain ⟨e, he⟩ := callMap_steps_error h
          rw [he] at hsteps; cases hsteps

/-- When `recipeData` cannot be built from the parsed fields, the handler answers 400 or
500 (503 before the database is initialised) and leaves the database as it was. -/
theorem postRecipeHandler_build_error (flag : Bool) (rt : JsRuntime) (db : Database)
    (req : CreateRequest) (now : Nat)
    (h : ∀ pi ps, parseField rt req.body.ingredients = some pi →
      parseField rt req.body.steps = some ps →
      ∃ e, buildRecipeData rt req.body req.picture pi ps = Except.error e) :
    (postRecipeHandler flag rt db req now).2 = db ∧
    (flag = true → (postRecipeHandler flag rt db req now).1.status = 400 ∨
      (postRecipeHandler flag rt db req now).1.status = 500) := by
  unfold postRecipeHandler
  cases flag with
  | false => simp
  | true =>
    simp only [Bool.true_eq_false, if_false]
    by_cases h1 :
        (truthy req.body.name && truthy req.body.ingredients && truthy req.body.steps) = false
    · simp [h1]
    · simp only [h1, if_false]
      cases hi : parseField rt req.body.ingredients with
      | none => simp
      | some pi =>
        cases hs : parseField rt req.body.steps with
        | none => simp
        | some ps =>
          obtain ⟨e, he⟩ := h pi ps hi hs
          by_cases hr : ratingOutOfRange rt req.body.rating = true
          · simp [hr]
          · simp [hr, he]

/-- C14 fails as stated: an `ingredients` field holding the JSON text of an object, which
is valid JSON but not an array, is answered with status 500, not 400 (`.map` throws a
`TypeError`, which the outer `catch` answers). -/
theorem postRecipe_object_ingredients :
    sampleRuntime.jsonParse "\x7b\x7d" = some (JsValue.object []) ∧
    InvalidIngredients (JsValue.object []) ∧
    postRecipeHandler true sampleRuntime createTables
        (ingredientsRequest (JsValue.string "\x7b\x7d")) 7
      = ({ status := 500, body := Body.error "Failed to add recipe" }, createTables) :=
  ⟨rfl, trivial, rfl⟩

/-- C14 as amended: a create request whose `ingredients` or `steps` field is a text that is
not valid JSON is answered with status 400; one whose field is, or parses to, a value that
is not an array, or an array with an item that lacks a text `name` or `unit` (for steps,
a text `instruction`), is answered with status 400 or 500; in both cases nothing is
written to storage. -/
theorem postRecipe_invalid_fields (rt : JsRuntime) (db : Database) (req : CreateRequest)
    (now : Nat) :
    ((∃ t, (req.body.ingredients = JsValue.string t ∨ req.body.steps = JsValue.string t) ∧
        rt.jsonParse t = none) →
      (postRecipeHandler true rt db req now).1.status = 400 ∧
      ∀ flag, (postRecipeHandler flag rt db req now).2 = db) ∧
    (((∃ pi, parseField rt req.body.ingredients = some pi ∧ InvalidIngredients pi) ∨
        (∃ ps, parseField rt req.body.steps = some ps ∧ InvalidSteps ps)) →
      ((postRecipeHandler true rt db req now).1.status = 400 ∨
        (postRecipeHandler true rt db req now).1.status = 500) ∧
      ∀ flag, (postRecipeHandler flag rt db req now).2 = db) := by
  refine ⟨?_, ?_⟩
  · rintro ⟨t, hfield, hparse⟩
    have hnone : parseField rt req.body.ingredients = none ∨
        parseField rt req.body.steps = none := by
      rcases hfield with h | h
      · left; rw [h]; exact hparse
      · right; rw [h]; exact hparse
    have hrej : ∀ flag, flag = false ∨
        (truthy req.body.name && truthy req.body.ingredients && truthy req.body.steps)
          = false ∨
        parseField rt req.body.ingredients = none ∨ parseField rt req.body.steps = none ∨
        ratingOutOfRange rt req.body.rating = true := by
      intro flag
      rcases hnone with h | h
      · exact Or.inr (Or.inr (Or.inl h))
      · exact Or.inr (Or.inr (Or.inr (Or.inl h)))
    exact ⟨(postRecipeHandler_rejects true rt db req now (hrej true)).2.1 rfl,
      fun flag => (postRecipeHandler_rejects flag rt db req now (hrej flag)).1⟩
  · intro hbad
    have hbuild : ∀ pi ps, parseField rt req.body.ingredients = some pi →
        parseField rt req.body.steps = some ps →
        ∃ e, buildRecipeData rt req.body req.picture pi ps = Except.error e := by
      intro pi ps hi hs
      apply buildRecipeData_error
      rcases hbad with ⟨pi', hi', hinv⟩ | ⟨ps', hs', hinv⟩
      · rw [hi] at hi'; cases hi'; exact Or.inl hinv
      · rw [hs] at hs'; cases hs'; exact Or.inr hinv
    exact ⟨(postRecipeHandler_build_error true rt db req now hbuild).2 rfl,
      fun flag => (postRecipeHandler_build_error flag rt db req now hbuild).1⟩

theorem postRecipe_invalid_fields_witness :
    (∃ t, ((ingredientsRequest (JsValue.string "[")).body.ingredients = JsValue.string t ∨
        (ingredientsRequest (JsValue.string "[")).body.steps = JsValue.string t) ∧
      sampleRuntime.jsonParse t = none) ∧
    (postRecipeHandler true sampleRuntime createTables
      (ingredientsRequest (JsValue.string "[")) 7).1.status = 400 ∧
    ∀ flag, (postRecipeHandler flag sampleRuntime createTables
      (ingredientsRequest (JsValue.string "[")) 7).2 = createTables :=
  ⟨⟨"[", Or.inl rfl, rfl⟩,
    (postRecipe_invalid_fields sampleRuntime createTables
      (ingredientsRequest (JsValue.string "[")) 7).1 ⟨"[", Or.inl rfl, rfl⟩⟩

/-! ## Created and failed -/

/-- C15: for a create request that passes the validation of the handler (the three
required fields are present, both structured fields parse, the rating is accepted) and
from which `recipeData` is built, the handler responds 201 with the id `addRecipe`
returns when `addRecipe` succeeds, and 500 when `addRecipe` throws; it responds 201 in
no other case. -/
theorem postRecipe_created (rt : JsRuntime) (db : Database) (req : CreateRequest) (now : Nat)
    (pi ps : JsValue)
    (hfields : (truthy req.body.name && truthy req.body.ingredients && truthy req.body.steps)
      = true)
    (hi : parseField rt req.body.ingredients = some pi)
    (hs : parseField rt req.body.steps = some ps)
    (hr : ratingOutOfRange rt req.body.rating = false) :
    (∀ data, buildRecipeData rt req.body req.picture pi ps = Except.ok data →
      (∀ id db1, addRecipe db data now = (Except.ok id, db1) →
        postRecipeHandler true rt db req now =
          ({ status := 201, body := Body.created "Recipe added successfully" id }, db1)) ∧
      (∀ e db1, addRecipe db data now = (Except.error e, db1) →
        postRecipeHandler true rt db req now =
          ({ status := 500, body := Body.error "Failed to add recipe" }, db1))) ∧
    ((postRecipeHandler true rt db req now).1.status = 201 →
      ∃ data id, buildRecipeData rt req.body req.picture pi ps = Except.ok data ∧
        (addRecipe db data now).1 = Except.ok id) := by
  have hunfold : postRecipeHandler true rt db req now =
      (match buildRecipeData rt req.body req.picture pi ps with
        | Except.error _ => ({ status := 500, body := Body.error "Failed to add recipe" }, db)
        | Except.ok recipeData =>
          match addRecipe db recipeData now with
          | (Except.ok recipeId, db1) =>
            ({ status := 201, body := Body.created "Recipe added successfully" recipeId }, db1)
          | (Except.error _, db1) =>
            ({ status := 500, body := Body.error "Failed to add recipe" }, db1)) := by
    unfold postRecipeHandler
    simp [hfields, hi, hs, hr]
  rw [hunfold]
  refine ⟨?_, ?_⟩
  · intro data hdata
    rw [hdata]
    refine ⟨?_, ?_⟩
    · intro id db1 h; simp [h]
    · intro e db1 h; simp [h]
  · intro hstatus
    cases hb : buildRecipeData rt req.body req.picture pi ps with
    | error e => rw [hb] at hstatus; simp at hstatus
    | ok data =>
      rw [hb] at hstatus
      dsimp only at hstatus
      rcases ha : addRecipe db data now with ⟨res, db1⟩
      rw [ha] at hstatus
      cases res with
      | error e => simp at hstatus
      | ok id => exact ⟨data, id, rfl, by rw [ha]⟩

theorem postRecipe_created_witness :
    (truthy soupRequest.body.name && truthy soupRequest.body.ingredients &&
      truthy soupRequest.body.steps) = true ∧
    parseField sampleRuntime soupRequest.body.ingredients = some soupIngredients ∧
    parseField sampleRuntime soupRequest.body.steps = some soupSteps ∧
    ratingOutOfRange sampleRuntime soupRequest.body.rating = false ∧
    ((postRecipeHandler true sampleRuntime createTables soupRequest 7).1.status = 201 →
      ∃ data id,
        buildRecipeData sampleRuntime soupRequest.body soupRequest.picture soupIngredients
          soupSteps = Except.ok data ∧
        (addRecipe createTables data 7).1 = Except.ok id) :=
  ⟨rfl, rfl, rfl, rfl,
    (postRecipe_created sampleRuntime createTables soupRequest 7 soupIngredients soupSteps
      rfl rfl rfl rfl).2⟩

/-! ## Before the database is initialised -/

/-- C16 fails as stated: while `isDatabaseInitialized` is false, the create route answers
a request whose picture is larger than 5MB with status 400, not 503: the upload
middleware runs before the handler reads the flag. -/
theorem postRecipe_upload_before_flag :
    postRecipeRoute false sampleRuntime createTables
        (pictureRequest "image/png" (5 * 1024 * 1024 + 1)) 7
      = ({ status := 400, body := Body.error "File too large. Maximum size is 5MB." },
          createTables) :=
  rfl

/-- C16 as amended: while `isDatabaseInitialized` is false no route invokes a storage
operation or returns a success response: the health, list and get-by-id routes and the
create handler respond 503; the create route responds 503 once its upload has been
accepted, and 400 or 500 when the upload is rejected first; the database is left as it
was. `startServer` sets the flag exactly when `db.init()` has returned without error. -/
theorem routes_before_init (rt : JsRuntime) (coll : Collation) (db : Database)
    (req : CreateRequest) (id : IdParam) (now : Nat) (init : Except DbError Unit) :
    (healthRoute false).status = 503 ∧
    ((getRecipesRoute false db).1.status = 503 ∧ (getRecipesRoute false db).2 = db) ∧
    ((getRecipeRoute false coll db id).1.status = 503 ∧
      (getRecipeRoute false coll db id).2 = db) ∧
    ((postRecipeHandler false rt db req now).1.status = 503 ∧
      (postRecipeHandler false rt db req now).2 = db) ∧
    ((postRecipeRoute false rt db req now).2 = db ∧
      ((postRecipeRoute false rt db req now).1.status = 503 ∨
        (postRecipeRoute false rt db req now).1.status = 400 ∨
        (postRecipeRoute false rt db req now).1.status = 500) ∧
      (∀ file, upload req.picture = Except.ok file →
        (postRecipeRoute false rt db req now).1.status = 503)) ∧
    Server.loaded.isDatabaseInitialized = false ∧
    ((startServer Server.loaded init).isDatabaseInitialized = true ↔
      ∃ u, init = Except.ok u) := by
  refine ⟨rfl, ⟨rfl, rfl⟩, ⟨rfl, rfl⟩, ⟨rfl, rfl⟩, ⟨?_, ?_, ?_⟩, rfl, ?_⟩
  · unfold postRecipeRoute
    cases upload req.picture <;> rfl
  · unfold postRecipeRoute
    cases hu : upload req.picture with
    | error e => cases e <;> simp [errorMiddleware]
    | ok file => exact Or.inl rfl
  · intro file hfile
    unfold postRecipeRoute
    rw [hfile]
    rfl
  · cases init with
    | error e => simp [startServer, Server.loaded]
    | ok u => simp [startServer]

/-! ## What the create route persists -/

theorem postRecipeHandler_accepts (rt : JsRuntime) (db : Database) (req : CreateRequest)
    (now : Nat) {pi ps : JsValue}
    (hfields : (truthy req.body.name && truthy req.body.ingredients && truthy req.body.steps)
      = true)
    (hi : parseField rt req.body.ingredients = some pi)
    (hs : parseField rt req.body.steps = some ps)
    (hr : ratingOutOfRange rt req.body.rating = false) :
    postRecipeHandler true rt db req now =
      (match buildRecipeData rt req.body req.picture pi ps with
        | Except.error _ => ({ status := 500, body := Body.error "Failed to add recipe" }, db)
        | Except.ok recipeData =>
          match addRecipe db recipeData now with
          | (Except.ok recipeId, db1) =>
            ({ status := 201, body := Body.created "Recipe added successfully" recipeId }, db1)
          | (Except.error _, db1) =>
            ({ status := 500, body := Body.error "Failed to add recipe" }, db1)) := by
  unfold postRecipeHandler
  simp [hfields, hi, hs, hr]

theorem postRecipeHandler_created_inv {flag : Bool} {rt : JsRuntime} {db : Database}
    {req : CreateRequest} {now : Nat}
    (h : (postRecipeHandler flag rt db req now).1.status = 201) :
    ∃ data id, (addRecipe db data now).1 = Except.ok id ∧
      (postRecipeHandler flag rt db req now).2 = (addRecipe db data now).2 := by
  have hnot : ¬ (flag = false ∨
      (truthy req.body.name && truthy req.body.ingredients && truthy req.body.steps) = false ∨
      parseField rt req.body.ingredients = none ∨ parseField rt req.body.steps = none ∨
      ratingOutOfRange rt req.body.rating = true) := by
    intro hrej
    obtain ⟨-, h400, h503⟩ := postRecipeHandler_rejects flag rt db req now hrej
    cases flag with
    | false => rw [h503 rfl] at h; cases h
    | true => rw [h400 rfl] at h; cases h
  simp only [not_or] at hnot
  obtain ⟨hflag, hfields, hi, hs, hr⟩ := hnot
  have hflag' : flag = true := by simpa using hflag
  subst hflag'
  obtain ⟨pi, hpi⟩ := Option.ne_none_iff_exists'.mp hi
  obtain ⟨ps, hps⟩ := Option.ne_none_iff_exists'.mp hs
  have hfields' : (truthy req.body.name && truthy req.body.ingredients &&
      truthy req.body.steps) = true := by
    cases hb : (truthy req.body.name && truthy req.body.ingredients && truthy req.body.steps)
    · exact absurd hb hfields
    · rfl
  have hr' : ratingOutOfRange rt req.body.rating = false := by
    cases hb : ratingOutOfRange rt req.body.rating
    · rfl
    · exact absurd hb hr
  have hacc := postRecipeHandler_accepts rt db req now hfields' hpi hps hr'
  rw [hacc] at h ⊢
  cases hb : buildRecipeData rt req.body req.picture pi ps with
  | error e => rw [hb] at h; simp at h
  | ok data =>
    rw [hb] at h
    dsimp only at h ⊢
    rcases ha : addRecipe db data now with ⟨res, db1⟩
    rw [ha] at h
    cases res with
    | error e => simp at h
    | ok id => exact ⟨data, id, by rw [ha], by rw [ha]⟩

theorem postRecipeRoute_created_inv {flag : Bool} {rt : JsRuntime} {db : Database}
    {req : CreateRequest} {now : Nat}
    (h : (postRecipeRoute flag rt db req now).1.status = 201) :
    ∃ data id, (addRecipe db data now).1 = Except.ok id ∧
      (postRecipeRoute flag rt db req now).2 = (addRecipe db data now).2 := by
  unfold postRecipeRoute at h ⊢
  cases hu : upload req.picture with
  | error e =>
    rw [hu] at h
    cases e <;> simp [errorMiddleware] at h
  | ok file =>
    rw [hu] at h
    exact postRecipeHandler_created_inv h

theorem orNullNumber_ne_zero (x : Option Int) : orNullNumber x ≠ some 0 := by
  cases x with
  | none => simp [orNullNumber]
  | some n =>
    by_cases h : n = 0
    · simp [orNullNumber, h]
    · simp [orNullNumber, h]

theorem stored_price_ne_zero (x : Option Int) : (orNullNumber x).map toReal ≠ some 0 := by
  cases h : orNullNumber x with
  | none => simp
  | some v =>
    have hv : v ≠ 0 := by
      rintro rfl
      exact orNullNumber_ne_zero x h
    simpa using fun h0 => hv (toReal_eq_zero.mp h0)

/-- C18 at the failing input: a create request whose name is a single space passes the
check `!name`, is trimmed afterwards, and the recipe row is persisted with an empty
name. -/
theorem postRecipe_blank_name :
    truthy (JsValue.string " ") = true ∧
    (postRecipeRoute true sampleRuntime createTables (namedRequest (JsValue.string " ")) 7).1
      = { status := 201, body := Body.created "Recipe added successfully" 1 } ∧
    (postRecipeRoute true sampleRuntime createTables
        (namedRequest (JsValue.string " ")) 7).2.tables.recipes.map (fun r => (r.id, r.name))
      = [(1, "")] :=
  ⟨rfl, rfl, rfl⟩

/-- C19 fails as stated: a create request with cooking time -5, price -2 and an amount of
-1 is answered 201, and the rows are persisted with those values. -/
theorem postRecipe_negative_values :
    (postRecipeRoute true sampleRuntime createTables negativeRequest 7).1.status = 201 ∧
    (postRecipeRoute true sampleRuntime createTables negativeRequest 7).2.tables.recipes.map
        (fun r => (r.cooking_time, r.estimated_price))
      = [(some (-5), some (-2))] ∧
    (postRecipeRoute true sampleRuntime createTables
        negativeRequest 7).2.tables.recipe_ingredients.map (fun l => l.amount)
      = [JsNumber.int (-1)] :=
  ⟨rfl, rfl, rfl⟩

/-- C19 as amended: every recipe persisted through `POST /api/recipes` has a cooking time
that is absent or different from 0 and an estimated price that is absent or different
from 0 (addRecipe stores `x || null`); neither the route nor the schema bounds their
sign or the amount of an ingredient link. -/
theorem postRecipe_persisted_numbers (flag : Bool) (rt : JsRuntime) (db : Database)
    (req : CreateRequest) (now : Nat)
    (h : (postRecipeRoute flag rt db req now).1.status = 201) :
    ∃ row, (postRecipeRoute flag rt db req now).2.tables.recipes = db.tables.recipes ++ [row] ∧
      row.cooking_time ≠ some 0 ∧ row.estimated_price ≠ some 0 := by
  obtain ⟨data, id, hok, hdb⟩ := postRecipeRoute_created_inv h
  have hadd : addRecipe db data now = (Except.ok id, (addRecipe db data now).2) := by
    rw [← hok]
  obtain ⟨-, -, n, -, hrows⟩ := addRecipe_recipes hadd
  rw [hdb]
  exact ⟨_, hrows, orNullNumber_ne_zero _, stored_price_ne_zero _⟩

theorem postRecipe_persisted_numbers_witness :
    (postRecipeRoute true sampleRuntime createTables soupRequest 7).1.status = 201 ∧
    ∃ row,
      (postRecipeRoute true sampleRuntime createTables soupRequest 7).2.tables.recipes
        = createTables.tables.recipes ++ [row] ∧
      row.cooking_time ≠ some 0 ∧ row.estimated_price ≠ some 0 :=
  ⟨rfl, postRecipe_persisted_numbers true sampleRuntime createTables soupRequest 7 rfl⟩

/-! ## Keys of the link and step tables -/

/-- C20: after any sequence of `addRecipe` calls from the empty database, no two rows of
`recipe_ingredients` have the same (recipe_id, ingredient_id) pair and no two rows of
`recipe_steps` the same (recipe_id, step_number) pair. -/
theorem link_and_step_keys_unique (calls : List (RecipeData × Nat)) :
    ((addRecipes createTables calls).tables.recipe_ingredients.map
      (fun r => (r.recipe_id, r.ingredient_id))).Nodup ∧
    ((addRecipes createTables calls).tables.recipe_steps.map
      (fun r => (r.recipe_id, r.step_number))).Nodup :=
  ⟨(valid_addRecipes calls valid_createTables).recipe_ingredients_key,
    (valid_addRecipes calls valid_createTables).recipe_steps_key⟩

/-! ## Recipes already stored -/

/-- C17 fails as stated: `soup` is stored with a line "Water" that has no unit of its
own; after `addRecipe` for `tea`, whose line "Water" has unit "dl", `getRecipe` of the
soup returns the entry "Water" with unit "dl" instead of none. -/
theorem getRecipe_unit_overwritten :
    (addRecipe (addRecipe createTables soup 7).2 tea 8).1 = Except.ok 2 ∧
    (getRecipe Collation.binary (addRecipe createTables soup 7).2
        (IdParam.int 1)).toOption.map (Option.map (fun d => d.ingredients))
      = some (some [{ name := "Salt", amount := 1, unit := some "tsp" },
              { name := "Water", amount := 2, unit := none }]) ∧
    (getRecipe Collation.binary (addRecipe (addRecipe createTables soup 7).2 tea 8).2
        (IdParam.int 1)).toOption.map (Option.map (fun d => d.ingredients))
      = some (some [{ name := "Salt", amount := 1, unit := some "tsp" },
              { name := "Water", amount := 2, unit := some "dl" }]) := by
  refine ⟨rfl, ?_, ?_⟩ <;> decide

theorem addIngredients_rows {recipeId : Nat} (lines : List IngredientInput) {tx tx' : Tx}
    (h : addIngredients recipeId lines tx = (Except.ok (), tx')) :
    ∃ (g : IngredientRow → IngredientRow) (extra : List IngredientRow),
      (∀ i, (g i).id = i.id ∧ (g i).name = i.name) ∧
      tx'.tables.ingredients = tx.tables.ingredients.map g ++ extra := by
  induction lines generalizing tx with
  | nil =>
    simp [addIngredients] at h
    subst h
    exact ⟨fun i => i, [], fun i => ⟨rfl, rfl⟩, by simp⟩
  | cons line rest ih =>
    obtain ⟨tx1, h1, h2⟩ := addIngredients_cons_ok h
    obtain ⟨g, extra, hg, hrows⟩ := ih h2
    obtain ⟨n, a, lid, iid, -, -, -, -, -, -, hcase⟩ := addIngredient_spec h1
    rcases hcase with ⟨row, -, -, hing⟩ | ⟨-, -, hing⟩
    · refine ⟨fun i => g (setUnit n (orNullText line.unit) i), extra, ?_, ?_⟩
      · intro i
        have e1 : (setUnit n (orNullText line.unit) i).id = i.id := by
          simp only [setUnit]; split_ifs <;> rfl
        have e2 : (setUnit n (orNullText line.unit) i).name = i.name := by
          simp only [setUnit]; split_ifs <;> rfl
        exact ⟨(hg _).1.trans e1, (hg _).2.trans e2⟩
      · rw [hrows, hing, List.map_map]
        rfl
    · refine ⟨g, g { id := iid, name := n, unit := orNullText line.unit } :: extra, hg, ?_⟩
      rw [hrows, hing]
      simp

theorem forall₂_left {α β : Type} {R : α → β → Prop} {l : List α} {m : List β}
    (h : List.Forall₂ R l m) : ∀ a ∈ l, ∃ b ∈ m, R a b := by
  induction h with
  | nil => simp
  | @cons a b l m hab _ ih =>
    intro x hx
    rcases List.mem_cons.mp hx with rfl | hx
    · exact ⟨b, List.mem_cons_self _ _, hab⟩
    · obtain ⟨y, hy, hR⟩ := ih x hx
      exact ⟨y, List.mem_cons_of_mem _ hy, hR⟩

/-- What a successful `addRecipe` does to each table: it appends one recipe row with a
fresh id, appends links and steps of that id, and keeps every ingredient row up to its
unit, possibly appending new ones. -/
theorem addRecipe_frame {db db' : Database} {data : RecipeData} {now r : Nat}
    (hv : db.tables.Valid) (h : addRecipe db data now = (Except.ok r, db')) :
    r ∉ db.tables.recipes.map (fun x => x.id) ∧
    (∃ row : RecipeRow, db'.tables.recipes = db.tables.recipes ++ [row] ∧ row.id = r) ∧
    (∃ links, db'.tables.recipe_ingredients = db.tables.recipe_ingredients ++ links ∧
      ∀ l ∈ links, l.recipe_id = r) ∧
    (∃ rows, db'.tables.recipe_steps = db.tables.recipe_steps ++ rows ∧
      ∀ s ∈ rows, s.recipe_id = r) ∧
    ∃ (g : IngredientRow → IngredientRow) (extra : List IngredientRow),
      (∀ i, (g i).id = i.id ∧ (g i).name = i.name) ∧
      db'.tables.ingredients = db.tables.ingredients.map g ++ extra := by
  obtain ⟨hfresh, hrow, links, hlinks, hall⟩ := addRecipe_links hv h
  refine ⟨hfresh, hrow, ⟨links, hlinks, ?_⟩, ?_, ?_⟩
  · intro l hl
    obtain ⟨line, -, hr, -⟩ := forall₂_left hall l hl
    exact hr
  · obtain ⟨tx, htx, rfl⟩ := addRecipe_ok h
    obtain ⟨tx1, tx2, h1, h2, h3⟩ := addRecipeTx_ok htx
    obtain ⟨-, f2⟩ := addIngredients_frame _ h2
    obtain ⟨-, -, -, rows, g4, grid, -⟩ := addSteps_ok _ h3
    obtain ⟨-, -, -, -, -, n, -, rfl⟩ := insertRecipe_ok h1
    exact ⟨rows, by show tx.tables.recipe_steps = _; rw [g4, f2]; rfl, grid⟩
  · obtain ⟨tx, htx, rfl⟩ := addRecipe_ok h
    obtain ⟨tx1, tx2, h1, h2, h3⟩ := addRecipeTx_ok htx
    obtain ⟨g, extra, hg, hrows⟩ := addIngredients_rows _ h2
    obtain ⟨-, g2, -⟩ := addSteps_ok _ h3
    obtain ⟨-, -, -, -, -, n, -, rfl⟩ := insertRecipe_ok h1
    exact ⟨g, extra, hg, by show tx.tables.ingredients = _; rw [g2, hrows]; rfl⟩

theorem orderedInsert_forall₂ {α : Type} {S : α → α → Prop} (r : α → α → Prop)
    [DecidableRel r] (hS : ∀ a' a b' b, S a' a → S b' b → (r a' b' ↔ r a b))
    {x' x : α} (hx : S x' x) {l' l : List α} (h : List.Forall₂ S l' l) :
    List.Forall₂ S (List.orderedInsert r x' l') (List.orderedInsert r x l) := by
  induction h with
  | nil => exact List.Forall₂.cons hx List.Forall₂.nil
  | @cons y' y l' l hy hl ih =>
    simp only [List.orderedInsert]
    by_cases hr : r x y
    · have hr' : r x' y' := (hS x' x y' y hx hy).mpr hr
      simp only [hr, hr', if_true]
      exact List.Forall₂.cons hx (List.Forall₂.cons hy hl)
    · have hr' : ¬ r x' y' := fun c => hr ((hS x' x y' y hx hy).mp c)
      simp only [hr, hr', if_false]
      exact List.Forall₂.cons hy ih

theorem insertionSort_forall₂ {α : Type} {S : α → α → Prop} (r : α → α → Prop)
    [DecidableRel r] (hS : ∀ a' a b' b, S a' a → S b' b → (r a' b' ↔ r a b))
    {l' l : List α} (h : List.Forall₂ S l' l) :
    List.Forall₂ S (List.insertionSort r l') (List.insertionSort r l) := by
  induction h with
  | nil => exact List.Forall₂.nil
  | @cons y' y l' l hy _ ih =>
    simp only [List.insertionSort]
    exact orderedInsert_forall₂ r hS hy ih

theorem filter_id_after {old extra : List IngredientRow} (g : IngredientRow → IngredientRow)
    (hg : ∀ i, (g i).id = i.id ∧ (g i).name = i.name)
    (hnd : ((old.map g ++ extra).map (fun x => x.id)).Nodup) {k : Nat}
    (hk : k ∈ old.map (fun x => x.id)) :
    (old.map g ++ extra).filter (fun i => decide (k = i.id)) =
      (old.filter (fun i => decide (k = i.id))).map g := by
  have hextra : extra.filter (fun i => decide (k = i.id)) = [] := by
    rw [List.filter_eq_nil_iff]
    intro x hx
    simp only [decide_eq_true_eq]
    intro he
    rw [List.map_append, List.nodup_append] at hnd
    obtain ⟨-, -, hdis⟩ := hnd
    obtain ⟨i, hi, hik⟩ := List.mem_map.mp hk
    refine hdis (a := k) ?_ ?_
    · rw [List.map_map]
      exact List.mem_map.mpr ⟨i, hi, by simp [Function.comp, (hg i).1, hik]⟩
    · exact List.mem_map.mpr ⟨x, hx, he.symm⟩
  rw [List.filter_append, hextra, List.append_nil, List.filter_map]
  congr 1
  apply List.filter_congr
  intro i _
  simp [Function.comp, (hg i).1]

/-- The join of `getRecipe` for recipe `r` after the ingredient rows have been updated in
their unit and extended, the links of `r` being the same: entry by entry the same names
and amounts, and the same entries when every link of `r` has a unit of its own. -/
theorem joinIngredients_frame {t t' : Tables} {r : Nat} (g : IngredientRow → IngredientRow)
    (extra : List IngredientRow)
    (hlinks : t'.recipe_ingredients.filter (fun ri => decide (ri.recipe_id = r)) =
      t.recipe_ingredients.filter (fun ri => decide (ri.recipe_id = r)))
    (hfk : ∀ l ∈ t.recipe_ingredients, l.ingredient_id ∈ t.ingredients.map (fun x => x.id))
    (hg : ∀ i, (g i).id = i.id ∧ (g i).name = i.name)
    (hrows : t'.ingredients = t.ingredients.map g ++ extra)
    (hnd : (t'.ingredients.map (fun x => x.id)).Nodup) :
    List.Forall₂
      (fun (e' e : IngredientEntry) => e'.name = e.name ∧ e'.amount = e.amount ∧
        ((∀ l ∈ t.recipe_ingredients, l.recipe_id = r → l.unit ≠ none) → e' = e))
      (joinIngredients t' r) (joinIngredients t r) := by
  unfold joinIngredients
  rw [hlinks]
  have hmem : ∀ ri ∈ t.recipe_ingredients.filter (fun ri => decide (ri.recipe_id = r)),
      ri ∈ t.recipe_ingredients ∧ ri.recipe_id = r := by
    intro ri hri
    rw [List.mem_filter] at hri
    exact ⟨hri.1, by simpa using hri.2⟩
  generalize t.recipe_ingredients.filter (fun ri => decide (ri.recipe_id = r)) = links at hmem
  induction links with
  | nil => exact List.Forall₂.nil
  | cons ri rest ih =>
    simp only [List.flatMap_cons]
    apply List.rel_append
    · obtain ⟨hri, hr⟩ := hmem ri (List.mem_cons_self _ _)
      rw [hrows] at hnd ⊢
      rw [filter_id_after g hg hnd (hfk ri hri), List.map_map]
      rw [List.forall₂_map_left_iff, List.forall₂_map_right_iff, List.forall₂_same]
      intro i _
      refine ⟨(hg i).2, rfl, ?_⟩
      intro hown
      have hu := hown ri hri hr
      cases hunit : ri.unit with
      | none => exact absurd hunit hu
      | some u => simp [Function.comp, coalesce, hunit, (hg i).2]
    · exact ih (fun x hx => hmem x (List.mem_cons_of_mem _ hx))

theorem filter_append_fresh {γ : Type} (key : γ → Nat) {old extra : List γ} {r : Nat}
    (hextra : ∀ x ∈ extra, key x ≠ r) :
    (old ++ extra).filter (fun x => decide (key x = r)) =
      old.filter (fun x => decide (key x = r)) := by
  have : extra.filter (fun x => decide (key x = r)) = [] := by
    rw [List.filter_eq_nil_iff]
    intro x hx
    simpa using hextra x hx
  rw [List.filter_append, this, List.append_nil]

/-- The queries of `getRecipe` for a stored recipe `r` give the same recipe row and steps
after a further `addRecipe` call, and entries with the same names and amounts. -/
theorem selectRecipe_after_addRecipe (coll : Collation) (db : Database) (data : RecipeData)
    (now r : Nat) (d : RecipeDetail) (hv : db.tables.Valid)
    (h : selectRecipe coll db r = some d) :
    ∃ d', selectRecipe coll (addRecipe db data now).2 r = some d' ∧
      d'.recipe = d.recipe ∧ d'.steps = d.steps ∧
      List.Forall₂ (fun (e' e : IngredientEntry) => e'.name = e.name ∧ e'.amount = e.amount)
        d'.ingredients d.ingredients ∧
      ((∀ l ∈ db.tables.recipe_ingredients, l.recipe_id = r → l.unit ≠ none) →
        d'.ingredients = d.ingredients) := by
  rcases hres : addRecipe db data now with ⟨res, db'⟩
  cases res with
  | error e =>
    have htab : db'.tables = db.tables := addRecipe_error hres
    have hget : selectRecipe coll db' r = selectRecipe coll db r := by
      unfold selectRecipe
      rw [htab]
    refine ⟨d, by rw [hget, h], rfl, rfl, ?_, fun _ => rfl⟩
    rw [List.forall₂_same]
    exact fun _ _ => ⟨rfl, rfl⟩
  | ok rnew =>
    have hv' : db'.tables.Valid := by
      have := valid_addRecipe db data now hv
      rwa [hres] at this
    obtain ⟨hfresh, ⟨row, hrec, hrow⟩, ⟨links, hlinks, hlr⟩, ⟨rows, hsteps, hsr⟩,
      g, extra, hg, hing⟩ := addRecipe_frame hv hres
    obtain ⟨hdmem, hdid, -, -⟩ := selectRecipe_eq_some h
    have hne : rnew ≠ r := by
      intro he
      apply hfresh
      rw [he, ← hdid]
      exact List.mem_map_of_mem (fun x => x.id) hdmem
    have e1 : db'.tables.recipes.filter (fun x => decide (x.id = r)) =
        db.tables.recipes.filter (fun x => decide (x.id = r)) := by
      rw [hrec]
      apply filter_append_fresh (fun x : RecipeRow => x.id)
      intro x hx
      rw [List.mem_singleton] at hx
      rw [hx, hrow]
      exact hne
    have e2 : db'.tables.recipe_ingredients.filter (fun x => decide (x.recipe_id = r)) =
        db.tables.recipe_ingredients.filter (fun x => decide (x.recipe_id = r)) := by
      rw [hlinks]
      apply filter_append_fresh (fun x : RecipeIngredientRow => x.recipe_id)
      intro x hx
      rw [hlr x hx]
      exact hne
    have e3 : selectSteps db'.tables r = selectSteps db.tables r := by
      unfold selectSteps
      rw [hsteps, filter_append_fresh (fun x : RecipeStepRow => x.recipe_id)]
      intro x hx
      rw [hsr x hx]
      exact hne
    have hjoin := joinIngredients_frame g extra e2 hv.recipe_ingredients_ingredient_fkey hg
      hing hv'.ingredients_pkey
    have hsorted := insertionSort_forall₂
      (fun a b : IngredientEntry => coll.le a.name b.name = true)
      (by
        intro a' a b' b ha hb
        show coll.le a'.name b'.name = true ↔ coll.le a.name b.name = true
        rw [ha.1, hb.1]) hjoin
    unfold selectRecipe at h ⊢
    rw [e1, e3]
    cases hf : db.tables.recipes.filter (fun x => decide (x.id = r)) with
    | nil => rw [hf] at h; cases h
    | cons recipe rest =>
      rw [hf] at h
      simp only [Option.some.injEq] at h
      subst h
      refine ⟨_, rfl, rfl, rfl, ?_, ?_⟩
      · exact hsorted.imp (fun _ _ hab => ⟨hab.1, hab.2.1⟩)
      · intro hown
        have heq := hsorted.imp (fun _ _ hab => hab.2.2 hown)
        rw [List.forall₂_eq_eq_eq] at heq
        exact heq

/-- C17 as amended: for a recipe `r` stored in a database that satisfies the schema
constraints, after any further `addRecipe` call, successful or failed, `getRecipe r`
returns the same recipe fields and the same steps, and ingredient entries with the same
names and amounts in the same order; the entries are the same altogether when every link
of `r` has a unit of its own. (An entry whose link has no unit shows the unit of the
ingredient row, which a later call that names the ingredient overwrites.) -/
theorem getRecipe_after_addRecipe (coll : Collation) (db : Database) (data : RecipeData)
    (now r : Nat) (d : RecipeDetail) (hv : db.tables.Valid)
    (h : getRecipe coll db (IdParam.int r) = Except.ok (some d)) :
    ∃ d', getRecipe coll (addRecipe db data now).2 (IdParam.int r) = Except.ok (some d') ∧
      d'.recipe = d.recipe ∧ d'.steps = d.steps ∧
      List.Forall₂ (fun (e' e : IngredientEntry) => e'.name = e.name ∧ e'.amount = e.amount)
        d'.ingredients d.ingredients ∧
      ((∀ l ∈ db.tables.recipe_ingredients, l.recipe_id = r → l.unit ≠ none) →
        d'.ingredients = d.ingredients) := by
  obtain ⟨hle, hsel⟩ := getRecipe_int_ok h
  rw [getRecipe_int coll _ hle]
  obtain ⟨d', h1, hrest⟩ := selectRecipe_after_addRecipe coll db data now r d hv hsel
  exact ⟨d', by rw [h1], hrest⟩

theorem getRecipe_after_addRecipe_witness :
    (addRecipe createTables soup 7).2.tables.Valid ∧
    (∃ d, getRecipe Collation.binary (addRecipe createTables soup 7).2
        (IdParam.int (1 : Nat)) = Except.ok (some d) ∧
      ∃ d', getRecipe Collation.binary
          (addRecipe (addRecipe createTables soup 7).2 tea 8).2 (IdParam.int (1 : Nat))
            = Except.ok (some d') ∧
        d'.recipe = d.recipe ∧ d'.steps = d.steps ∧
        List.Forall₂
          (fun (e' e : IngredientEntry) => e'.name = e.name ∧ e'.amount = e.amount)
          d'.ingredients d.ingredients) := by
  refine ⟨valid_addRecipe createTables soup 7 valid_createTables, ?_⟩
  have hget := getRecipe_int Collation.binary (addRecipe createTables soup 7).2
    (show 1 ≤ int4Max by decide)
  cases hd : selectRecipe Collation.binary (addRecipe createTables soup 7).2 1 with
  | none => exact absurd hd (by decide)
  | some d =>
    rw [hd] at hget
    obtain ⟨d', h1, h2, h3, h4, -⟩ :=
      getRecipe_after_addRecipe Collation.binary (addRecipe createTables soup 7).2 tea 8 1 d
        (valid_addRecipe createTables soup 7 valid_createTables) hget
    exact ⟨d, hget, d', h1, h2, h3, h4⟩

/-! ## No orphans -/

/-- C21: after any sequence of `addRecipe` calls, successful or failed, from the empty
database, every row of `recipe_ingredients` and of `recipe_steps` refers to a recipe row
that exists, and every row of `recipe_ingredients` to an ingredient row that exists. -/
theorem no_orphans (calls : List (RecipeData × Nat)) :
    (∀ l ∈ (addRecipes createTables calls).tables.recipe_ingredients,
      ∃ r ∈ (addRecipes createTables calls).tables.recipes, r.id = l.recipe_id) ∧
    (∀ s ∈ (addRecipes createTables calls).tables.recipe_steps,
      ∃ r ∈ (addRecipes createTables calls).tables.recipes, r.id = s.recipe_id) ∧
    (∀ l ∈ (addRecipes createTables calls).tables.recipe_ingredients,
      ∃ i ∈ (addRecipes createTables calls).tables.ingredients, i.id = l.ingredient_id) := by
  have hv := valid_addRecipes calls valid_createTables
  refine ⟨?_, ?_, ?_⟩
  · intro l hl
    obtain ⟨r, hr, he⟩ := List.mem_map.mp (hv.recipe_ingredients_recipe_fkey l hl)
    exact ⟨r, hr, he⟩
  · intro s hs
    obtain ⟨r, hr, he⟩ := List.mem_map.mp (hv.recipe_steps_recipe_fkey s hs)
    exact ⟨r, hr, he⟩
  · intro l hl
    obtain ⟨i, hi, he⟩ := List.mem_map.mp (hv.recipe_ingredients_ingredient_fkey l hl)
    exact ⟨i, hi, he⟩

/-! ## The picture input of the form -/

/-- C22 fails as stated: an image of exactly 5MB is not rejected; it becomes the picture
of the form. -/
theorem handlePictureChange_five_megabytes :
    fiveMegabyteImage.size = 5 * 1024 * 1024 ∧
    (handlePictureChange FormState.initial (some fiveMegabyteImage)).picture
      = some fiveMegabyteImage ∧
    (handlePictureChange FormState.initial (some fiveMegabyteImage)).message = "" :=
  ⟨rfl, rfl, rfl⟩

/-- C22 as amended: `handlePictureChange` rejects every file larger than 5MB with the
message "File size must be less than 5MB", leaving picture and preview as they were; a
file of at most 5MB whose type starts with `image/` becomes the picture. -/
theorem handlePictureChange_size (form : FormState) (f : SelectedFile) :
    (5 * 1024 * 1024 < f.size →
      handlePictureChange form (some f) =
        { form with message := "File size must be less than 5MB", messageType := "error" }) ∧
    (f.size ≤ 5 * 1024 * 1024 → startsWith f.type "image/" = true →
      (handlePictureChange form (some f)).picture = some f ∧
      (handlePictureChange form (some f)).picturePreview = some f.dataUrl) := by
  refine ⟨?_, ?_⟩
  · intro h
    simp [handlePictureChange, h]
  · intro h ht
    have h' : ¬ 5 * 1024 * 1024 < f.size := by omega
    unfold handlePictureChange
    simp only [h', if_false, ht, Bool.true_eq_false]
    split_ifs <;> exact ⟨rfl, rfl⟩

/-! ## Display of the cooking time -/

/-- C30: for a positive number of minutes n, `formatTime n` is "<n>m" when n < 60,
"<h>h" when n is a multiple of 60 and "<h>h <m>m" otherwise, with h = n / 60 and
m = n % 60, so that 60 h + m = n and m < 60; for 0 and for an absent value it is
"---". -/
theorem formatTime_spec (n : Nat) (hn : 0 < n) :
    (n < 60 → formatTime (some n) = toString n ++ "m") ∧
    (n % 60 = 0 → formatTime (some n) = toString (n / 60) ++ "h") ∧
    (60 ≤ n → n % 60 ≠ 0 →
      formatTime (some n) = toString (n / 60) ++ "h " ++ toString (n % 60) ++ "m") ∧
    60 * (n / 60) + n % 60 = n ∧ n % 60 < 60 ∧
    formatTime (some 0) = "---" ∧ formatTime none = "---" := by
  have h0 : n ≠ 0 := by omega
  refine ⟨?_, ?_, ?_, Nat.div_add_mod n 60, Nat.mod_lt n (by decide), rfl, rfl⟩
  · intro h
    simp [formatTime, h0, h]
  · intro h
    have h60 : ¬ n < 60 := by omega
    simp [formatTime, h0, h60, h]
  · intro h hm
    have h60 : ¬ n < 60 := by omega
    have hpos : 0 < n % 60 := by omega
    simp [formatTime, h0, h60, hpos]

theorem formatTime_spec_witness :
    0 < 90 ∧ formatTime (some 90) = "1h 30m" ∧ formatTime (some 45) = "45m" ∧
    formatTime (some 120) = "2h" ∧
    (60 ≤ 90 → 90 % 60 ≠ 0 →
      formatTime (some 90) = toString (90 / 60) ++ "h " ++ toString (90 % 60) ++ "m") :=
  ⟨by decide, by decide, by decide, by decide, (formatTime_spec 90 (by decide)).2.2.1⟩

/-! ## The rating after validation -/

/-- C24 at the failing input: the rating text "7abc" passes the rating validation of the
handler (`<` and `>` read it as NaN), `parseInt` reads it as 7, the handler hands 7 to
`addRecipe`, the CHECK constraint rejects it and the response is 500. -/
theorem postRecipe_rating_text_suffix :
    ratingOutOfRange sampleRuntime (JsValue.string "7abc") = false ∧
    sampleRuntime.parseInt (JsValue.string "7abc") = JsNumber.int 7 ∧
    (buildRecipeData sampleRuntime (ratedRequest "7abc").body none soupIngredients
      soupSteps).toOption.map (fun data => data.rating) = some (some 7) ∧
    (postRecipeHandler true sampleRuntime createTables (ratedRequest "7abc") 7).1
      = { status := 500, body := Body.error "Failed to add recipe" } ∧
    (postRecipeHandler true sampleRuntime createTables (ratedRequest "7abc") 7).2.tables
      = createTables.tables :=
  ⟨rfl, rfl, rfl, rfl, rfl⟩

/-! ## Optional fields of the recipe row -/

/-- C25 fails as stated: an estimated price of 0 is provided by the input, and the
inserted recipe row has estimated price NULL; an estimated price of 16777217 is provided
by the input, and the `REAL` column holds 16777216. -/
theorem addRecipe_price_zero :
    freeSoup.estimated_price = some 0 ∧
    (addRecipe createTables freeSoup 7).1 = Except.ok 1 ∧
    (addRecipe createTables freeSoup 7).2.tables.recipes.map
      (fun r => (r.id, r.estimated_price)) = [(1, none)] ∧
    oddPriceSoup.estimated_price = some 16777217 ∧
    (addRecipe createTables oddPriceSoup 7).1 = Except.ok 1 ∧
    (addRecipe createTables oddPriceSoup 7).2.tables.recipes.map
      (fun r => (r.id, r.estimated_price)) = [(1, some 16777216)] :=
  ⟨rfl, rfl, rfl, rfl, rfl, rfl⟩

/-- C25 as amended: after a successful `addRecipe` the inserted recipe row has the
picture path, cooking time and rating of the input whenever the input provides a
non-empty text, respectively a number other than 0; it has the estimated price of the
input rounded to single precision when that is a number other than 0, which is the price
itself when its magnitude is at most 16777216; a field is NULL exactly when the input
omits it or provides the empty text, respectively 0. -/
theorem addRecipe_optional_fields (db db' : Database) (data : RecipeData) (now r : Nat)
    (h : addRecipe db data now = (Except.ok r, db')) :
    ∃ row, db'.tables.recipes = db.tables.recipes ++ [row] ∧ row.id = r ∧
      (∀ s, data.picture_path = some s → s ≠ "" → row.picture_path = some s) ∧
      (∀ v, data.cooking_time = some v → v ≠ 0 → row.cooking_time = some v) ∧
      (∀ v, data.estimated_price = some v → v ≠ 0 →
        row.estimated_price = some (toReal v) ∧
        (-16777216 ≤ v → v ≤ 16777216 → row.estimated_price = some v)) ∧
      (∀ v, data.rating = some v → v ≠ 0 → row.rating = some v) ∧
      (row.picture_path = none ↔ data.picture_path = none ∨ data.picture_path = some "") ∧
      (row.cooking_time = none ↔ data.cooking_time = none ∨ data.cooking_time = some 0) ∧
      (row.estimated_price = none ↔
        data.estimated_price = none ∨ data.estimated_price = some 0) ∧
      (row.rating = none ↔ data.rating = none ∨ data.rating = some 0) := by
  obtain ⟨-, -, n, -, hrows⟩ := addRecipe_recipes h
  have hnum : ∀ x : Option Int,
      (∀ v, x = some v → v ≠ 0 → orNullNumber x = some v) ∧
      (orNullNumber x = none ↔ x = none ∨ x = some 0) := by
    intro x
    cases x with
    | none => simp [orNullNumber]
    | some v =>
      by_cases hv : v = 0
      · simp [orNullNumber, hv]
      · simp [orNullNumber, hv]
  have htext : ∀ x : Option String,
      (∀ s, x = some s → s ≠ "" → orNullText x = some s) ∧
      (orNullText x = none ↔ x = none ∨ x = some "") := by
    intro x
    cases x with
    | none => simp [orNullText]
    | some s =>
      by_cases hs : s = ""
      · simp [orNullText, hs]
      · simp [orNullText, hs]
  refine ⟨_, hrows, rfl, (htext _).1, (hnum _).1, ?_, (hnum _).1, (htext _).2,
    (hnum _).2, ?_, (hnum _).2⟩
  · intro v hv hv0
    have hstored : (orNullNumber data.estimated_price).map toReal = some (toReal v) := by
      rw [(hnum _).1 v hv hv0]
      rfl
    refine ⟨hstored, fun hlo hhi => ?_⟩
    rw [toReal_exact hlo hhi] at hstored
    exact hstored
  · show (orNullNumber data.estimated_price).map toReal = none ↔ _
    rw [Option.map_eq_none']
    exact (hnum _).2

theorem addRecipe_optional_fields_witness :
    addRecipe createTables soup 7 = (Except.ok 1, (addRecipe createTables soup 7).2) ∧
    ∃ row, (addRecipe createTables soup 7).2.tables.recipes
        = createTables.tables.recipes ++ [row] ∧ row.id = 1 ∧
      (∀ v, soup.cooking_time = some v → v ≠ 0 → row.cooking_time = some v) ∧
      (row.estimated_price = none ↔
        soup.estimated_price = none ∨ soup.estimated_price = some 0) := by
  refine ⟨rfl, ?_⟩
  obtain ⟨row, h1, h2, -, h4, -, -, -, -, h9, -⟩ :=
    addRecipe_optional_fields createTables _ soup 7 1 rfl
  exact ⟨row, h1, h2, h4, h9⟩

/-! ## The rating of the form -/

/-- C27 at the failing input: on a valid form, a click on the third star and a second
click on it leave the rating text "0"; `validateForm` then sets the rating error and
returns false, and the form data would carry the rating "0". -/
theorem clickStar_twice :
    (validateForm sampleRuntime soupForm).1 = true ∧
    (clickStar sampleRuntime soupForm 3).rating = "3" ∧
    (clickStar sampleRuntime (clickStar sampleRuntime soupForm 3) 3).rating = "0" ∧
    validateForm sampleRuntime (clickStar sampleRuntime (clickStar sampleRuntime soupForm 3) 3)
      = (false,
          { clickStar sampleRuntime (clickStar sampleRuntime soupForm 3) 3 with
            errors := [(ErrorKey.rating, "Rating must be between 1 and 5")] }) ∧
    optionalField (clickStar sampleRuntime (clickStar sampleRuntime soupForm 3) 3).rating
      = JsValue.string "0" := by
  refine ⟨by decide, by decide, by decide, by decide, rfl⟩

/-! ## Error keys after a removal -/

/-- C28 at the failing input: `validateForm` has set errors on the blank second
ingredient and the blank second step. After `removeIngredient(0)` the blank ingredient is
the only one, at index 0, and the keys `ingredient_1_name` and `ingredient_1_amount` are
still set: they refer to index 1, beyond the list, and the entry that carried them shows
no error. Likewise `step_1` after `removeStep(0)`. -/
theorem removeIngredient_keeps_keys :
    markedForm.errors
      = [(ErrorKey.ingredient 1 IngredientFieldName.name, "Ingredient name is required"),
         (ErrorKey.ingredient 1 IngredientFieldName.amount, "Valid amount is required"),
         (ErrorKey.step 1, "Step instruction is required")] ∧
    (removeIngredient markedForm 0).ingredients = [{ name := "", amount := "", unit := "" }] ∧
    (removeIngredient markedForm 0).errors = markedForm.errors ∧
    (removeStep markedForm 0).steps = [{ instruction := "" }] ∧
    (removeStep markedForm 0).errors = markedForm.errors := by
  refine ⟨by decide, by decide, by decide, by decide, by decide⟩

/-! ## The lists of the form are never empty -/

theorem length_eraseIdx_pos {α : Type} (l : List α) (i : Nat) (h : 1 < l.length) :
    1 ≤ (l.eraseIdx i).length := by
  rw [List.length_eraseIdx]
  split_ifs <;> omega

theorem applyAction_lists (rt : JsRuntime) (form : FormState) (action : FormAction)
    (h : 1 ≤ form.ingredients.length ∧ 1 ≤ form.steps.length) :
    1 ≤ (applyAction rt form action).ingredients.length ∧
    1 ≤ (applyAction rt form action).steps.length := by
  obtain ⟨hi, hs⟩ := h
  cases action with
  | addIngredient => exact ⟨by simp [applyAction, addIngredientField], hs⟩
  | removeIngredient index =>
    simp only [applyAction, removeIngredient]
    split_ifs with h1
    · exact ⟨length_eraseIdx_pos _ _ h1, hs⟩
    · exact ⟨hi, hs⟩
  | addStep => exact ⟨hi, by simp [applyAction, addStep]⟩
  | removeStep index =>
    simp only [applyAction, removeStep]
    split_ifs with h1
    · exact ⟨hi, length_eraseIdx_pos _ _ h1⟩
    · exact ⟨hi, hs⟩
  | ingredientChange index field value =>
    simp only [applyAction, handleIngredientChange]
    split_ifs
    · exact ⟨by simpa using hi, hs⟩
    · exact ⟨hi, hs⟩
  | stepChange index value =>
    simp only [applyAction, handleStepChange]
    split_ifs
    · exact ⟨hi, by simpa using hs⟩
    · exact ⟨hi, hs⟩
  | nameChange value => exact ⟨hi, hs⟩
  | pictureChange file =>
    simp only [applyAction, handlePictureChange]
    cases file with
    | none => exact ⟨hi, hs⟩
    | some f =>
      simp only
      split_ifs <;> exact ⟨hi, hs⟩
  | starClick starValue => exact ⟨hi, hs⟩
  | submit responseOk success failure =>
    simp only [applyAction, handleSubmit, validateForm]
    split_ifs
    · exact ⟨hi, hs⟩
    · exact ⟨by simp [FormState.initial], by simp [FormState.initial]⟩
    · exact ⟨hi, hs⟩

/-- C29: in every state the form reaches from its initial state by adding and removing
ingredients and steps, editing fields, choosing a picture, clicking a star and
submitting (with or without success), the list of ingredients and the list of steps
each hold at least one entry. -/
theorem form_lists_nonempty (rt : JsRuntime) (actions : List FormAction) :
    1 ≤ (applyActions rt FormState.initial actions).ingredients.length ∧
    1 ≤ (applyActions rt FormState.initial actions).steps.length := by
  have key : ∀ (form : FormState),
      1 ≤ form.ingredients.length ∧ 1 ≤ form.steps.length →
      1 ≤ (applyActions rt form actions).ingredients.length ∧
      1 ≤ (applyActions rt form actions).steps.length := by
    induction actions with
    | nil => intro form h; exact h
    | cons action rest ih =>
      intro form h
      exact ih _ (applyAction_lists rt form action h)
  exact key FormState.initial ⟨by decide, by decide⟩

/-! ## From the form to the handler -/

theorem form_sample_text :
    arrayText (JsValue.array (soupForm.steps.map stepObject))
      = "[\x7b\"instruction\":\"Boil\"\x7d,\x7b\"instruction\":\"Serve\"\x7d]" ∧
    (postRecipeHandler true formRuntime createTables (formRequest arrayText "" soupForm) 7).1
      = { status := 201, body := Body.created "Recipe added successfully" 1 } := by
  refine ⟨by decide, ?_⟩
  rfl

theorem ingredientErrors_nil (rt : JsRuntime) (l : List IngredientField) (index : Nat)
    (h : ingredientErrors rt index l = []) : ∀ ing ∈ l, trim ing.name ≠ "" := by
  induction l generalizing index with
  | nil => simp
  | cons x xs ih =>
    unfold ingredientErrors at h
    simp only [List.append_eq_nil] at h
    obtain ⟨⟨h1, -⟩, h3⟩ := h
    intro ing hing
    rcases List.mem_cons.mp hing with rfl | hing
    · intro he
      simp [he] at h1
    · exact ih (index + 1) h3 ing hing

theorem stepErrors_nil (l : List StepField) (index : Nat) (h : stepErrors index l = []) :
    ∀ step ∈ l, trim step.instruction ≠ "" := by
  induction l generalizing index with
  | nil => simp
  | cons x xs ih =>
    unfold stepErrors at h
    simp only [List.append_eq_nil] at h
    obtain ⟨h1, h3⟩ := h
    intro step hstep
    rcases List.mem_cons.mp hstep with rfl | hstep
    · intro he
      simp [he] at h1
    · exact ih (index + 1) h3 step hstep

/-- What a form on which `validateForm` returns true satisfies, as far as the handler
checks it. -/
theorem validateForm_true {rt : JsRuntime} {form : FormState}
    (h : (validateForm rt form).1 = true) :
    trim form.name ≠ "" ∧ (∀ ing ∈ form.ingredients, trim ing.name ≠ "") ∧
    (∀ step ∈ form.steps, trim step.instruction ≠ "") ∧
    ratingOutOfRange rt (JsValue.string form.rating) = false := by
  simp only [validateForm, decide_eq_true_eq] at h
  unfold formErrors at h
  simp only [List.append_eq_nil] at h
  obtain ⟨⟨⟨⟨⟨h1, h2⟩, h3⟩, -⟩, -⟩, h6⟩ := h
  refine ⟨?_, ingredientErrors_nil rt _ 0 h2, stepErrors_nil _ 0 h3, ?_⟩
  · intro he
    simp [he] at h1
  · cases hr : ratingOutOfRange rt (JsValue.string form.rating)
    · rfl
    · simp [hr] at h6

/-- The request built from a form on which `validateForm` returns true passes the checks
of the handler, and its `ingredients` and `steps` fields are the texts of the full
lists. -/
theorem formRequest_accepted (rt : JsRuntime) (stringify : JsValue → String)
    (filename : String) (form : FormState) (db : Database) (now : Nat) (flag : Bool)
    (hvalid : (validateForm rt form).1 = true)
    (hi : rt.jsonParse (stringify (JsValue.array (form.ingredients.map ingredientObject)))
      = some (JsValue.array (form.ingredients.map ingredientObject)))
    (hs : rt.jsonParse (stringify (JsValue.array (form.steps.map stepObject)))
      = some (JsValue.array (form.steps.map stepObject)))
    (hni : stringify (JsValue.array (form.ingredients.map ingredientObject)) ≠ "")
    (hns : stringify (JsValue.array (form.steps.map stepObject)) ≠ "") :
    (postRecipeHandler flag rt db (formRequest stringify filename form) now).1.status ≠ 400 ∧
    (formRequest stringify filename form).body.ingredients =
      JsValue.string (stringify (JsValue.array (form.ingredients.map ingredientObject))) ∧
    (formRequest stringify filename form).body.steps =
      JsValue.string (stringify (JsValue.array (form.steps.map stepObject))) ∧
    parseField rt (formRequest stringify filename form).body.ingredients =
      some (JsValue.array (form.ingredients.map ingredientObject)) ∧
    parseField rt (formRequest stringify filename form).body.steps =
      some (JsValue.array (form.steps.map stepObject)) := by
  obtain ⟨hname, hings, hsteps, hrating⟩ := validateForm_true hvalid
  have e1 : submittedIngredients form = form.ingredients := by
    unfold submittedIngredients
    rw [List.filter_eq_self]
    intro ing hing
    simpa using hings ing hing
  have e2 : submittedSteps form = form.steps := by
    unfold submittedSteps
    rw [List.filter_eq_self]
    intro step hstep
    simpa using hsteps step hstep
  have b1 : (formRequest stringify filename form).body.ingredients =
      JsValue.string (stringify (JsValue.array (form.ingredients.map ingredientObject))) := by
    simp [formRequest, e1]
  have b2 : (formRequest stringify filename form).body.steps =
      JsValue.string (stringify (JsValue.array (form.steps.map stepObject))) := by
    simp [formRequest, e2]
  have p1 : parseField rt (formRequest stringify filename form).body.ingredients =
      some (JsValue.array (form.ingredients.map ingredientObject)) := by
    rw [b1]; exact hi
  have p2 : parseField rt (formRequest stringify filename form).body.steps =
      some (JsValue.array (form.steps.map stepObject)) := by
    rw [b2]; exact hs
  refine ⟨?_, b1, b2, p1, p2⟩
  cases flag with
  | false => simp [postRecipeHandler]
  | true =>
    have hfields : (truthy (formRequest stringify filename form).body.name &&
        truthy (formRequest stringify filename form).body.ingredients &&
        truthy (formRequest stringify filename form).body.steps) = true := by
      rw [b1, b2]
      simp [formRequest, truthy, hname, hni, hns]
    have hr : ratingOutOfRange rt (formRequest stringify filename form).body.rating
        = false := by
      show ratingOutOfRange rt (optionalField form.rating) = false
      unfold optionalField
      split_ifs with h0
      · simp [ratingOutOfRange, truthy]
      · exact hrating
    rw [postRecipeHandler_accepts rt db _ now hfields p1 p2 hr]
    cases buildRecipeData rt (formRequest stringify filename form).body
        (formRequest stringify filename form).picture
        (JsValue.array (form.ingredients.map ingredientObject))
        (JsValue.array (form.steps.map stepObject)) with
    | error e => simp
    | ok data =>
      dsimp only
      rcases addRecipe db data now with ⟨res, db1⟩
      cases res <;> simp

/-- C26: for a form state on which `validateForm` returns true, the request `handleSubmit`
builds passes the required-field, JSON-parsing and rating validation of the handler: the
handler does not respond 400; and the request carries every ingredient of the form, as an
object with its name, amount and unit, and every step, as an object with its instruction,
in the order of the form. `JSON.stringify` is taken to produce a non-empty text that
`JSON.parse` reads back as the array it was given. -/
theorem form_passes_validation (rt : JsRuntime) (stringify : JsValue → String)
    (filename : String) (form : FormState) (db : Database) (now : Nat) (flag : Bool)
    (items lines : List JsValue)
    (hitems : items = form.ingredients.map (fun l =>
      JsValue.object [("name", JsValue.string l.name), ("amount", JsValue.string l.amount),
        ("unit", JsValue.string l.unit)]))
    (hlines : lines = form.steps.map (fun s =>
      JsValue.object [("instruction", JsValue.string s.instruction)]))
    (hvalid : (validateForm rt form).1 = true)
    (hi : rt.jsonParse (stringify (JsValue.array items)) = some (JsValue.array items))
    (hs : rt.jsonParse (stringify (JsValue.array lines)) = some (JsValue.array lines))
    (hni : stringify (JsValue.array items) ≠ "")
    (hns : stringify (JsValue.array lines) ≠ "") :
    (postRecipeHandler flag rt db (formRequest stringify filename form) now).1.status ≠ 400 ∧
    (formRequest stringify filename form).body.ingredients =
      JsValue.string (stringify (JsValue.array items)) ∧
    (formRequest stringify filename form).body.steps =
      JsValue.string (stringify (JsValue.array lines)) ∧
    parseField rt (formRequest stringify filename form).body.ingredients =
      some (JsValue.array items) ∧
    parseField rt (formRequest stringify filename form).body.steps =
      some (JsValue.array lines) := by
  subst hitems hlines
  exact formRequest_accepted rt stringify filename form db now flag hvalid hi hs hni hns

theorem form_passes_validation_witness :
    (validateForm formRuntime soupForm).1 = true ∧
    (postRecipeHandler true formRuntime createTables (formRequest arrayText "" soupForm) 7).1.status
      ≠ 400 ∧
    (formRequest arrayText "" soupForm).body.ingredients =
      JsValue.string (arrayText (JsValue.array
        [JsValue.object [("name", JsValue.string "Salt"), ("amount", JsValue.string "1"),
           ("unit", JsValue.string "tsp")],
         JsValue.object [("name", JsValue.string "Water"), ("amount", JsValue.string "2"),
           ("unit", JsValue.string "")]])) :=
  have t := form_passes_validation formRuntime arrayText "" soupForm createTables 7 true
    _ _ rfl rfl (by decide) rfl rfl (by decide) (by decide)
  ⟨by decide, t.1, t.2.1⟩

/-! ## When `addRecipe` succeeds -/

theorem insertRecipe_succeeds (tx : Tx) (n : String) (picture_path : Option String)
    (ct ep rating : Option Int) (now : Nat) (hab : tx.aborted = false)
    (hct : inInt4 ct = true) (hr4 : inInt4 rating = true) (hep : inReal ep = true)
    (hcheck : ratingCheck rating = true)
    (hseq : tx.seqs.recipes < int4Max) (hahead : ∀ r ∈ tx.tables.recipes, r.id ≤ tx.seqs.recipes) :
    ∃ tx1, insertRecipe tx (some n) picture_path ct ep rating now
      = (Except.ok (tx.seqs.recipes + 1), tx1) := by
  have hfresh : tx.seqs.recipes + 1 ∉ tx.tables.recipes.map (fun r => r.id) := by
    intro hmem
    obtain ⟨r, hr, he⟩ := List.mem_map.mp hmem
    have := hahead r hr
    omega
  have hseq' : ¬ int4Max ≤ tx.seqs.recipes := by omega
  unfold insertRecipe
  simp [hab, hct, hr4, hep, hcheck, hseq', hfresh]

theorem upsertIngredient_succeeds (tx : Tx) (n : String) (unit : Option String)
    (hab : tx.aborted = false) (hseq : tx.seqs.ingredients < int4Max)
    (hahead : ∀ r ∈ tx.tables.ingredients, r.id ≤ tx.seqs.ingredients) :
    ∃ id tx1, upsertIngredient tx (some n) unit = (Except.ok id, tx1) := by
  have hfresh : tx.seqs.ingredients + 1 ∉ tx.tables.ingredients.map (fun r => r.id) := by
    intro hmem
    obtain ⟨r, hr, he⟩ := List.mem_map.mp hmem
    have := hahead r hr
    omega
  have hseq' : ¬ int4Max ≤ tx.seqs.ingredients := by omega
  unfold upsertIngredient
  simp only [hab, Bool.false_eq_true, if_false, hseq']
  cases hf : tx.tables.ingredients.find? (fun r => decide (r.name = n)) with
  | some row => exact ⟨_, _, rfl⟩
  | none =>
    simp only [hfresh, if_false]
    exact ⟨_, _, rfl⟩

theorem insertRecipeIngredient_succeeds (tx : Tx) (recipe_id ingredient_id : Nat)
    (a : JsNumber) (unit : Option String) (hab : tx.aborted = false)
    (hreal : inRealNumber (some a) = true)
    (hseq : tx.seqs.recipe_ingredients < int4Max)
    (hahead : ∀ r ∈ tx.tables.recipe_ingredients, r.id ≤ tx.seqs.recipe_ingredients)
    (hkey : (recipe_id, ingredient_id) ∉
      tx.tables.recipe_ingredients.map (fun r => (r.recipe_id, r.ingredient_id)))
    (hr : recipe_id ∈ tx.tables.recipes.map (fun r => r.id))
    (hi : ingredient_id ∈ tx.tables.ingredients.map (fun r => r.id)) :
    ∃ tx1, insertRecipeIngredient tx recipe_id ingredient_id (some a) unit
      = (Except.ok (), tx1) := by
  have hfresh : tx.seqs.recipe_ingredients + 1 ∉
      tx.tables.recipe_ingredients.map (fun r => r.id) := by
    intro hmem
    obtain ⟨r, hr, he⟩ := List.mem_map.mp hmem
    have := hahead r hr
    omega
  have hseq' : ¬ int4Max ≤ tx.seqs.recipe_ingredients := by omega
  unfold insertRecipeIngredient
  simp only [hab, hreal, Bool.true_eq_false, Bool.false_eq_true, if_false, hseq', hfresh, hkey,
    hr, hi, not_true_eq_false]
  exact ⟨_, rfl⟩

theorem insertRecipeStep_succeeds (tx : Tx) (recipe_id step_number : Nat) (text : String)
    (hab : tx.aborted = false) (hseq : tx.seqs.recipe_steps < int4Max)
    (hahead : ∀ r ∈ tx.tables.recipe_steps, r.id ≤ tx.seqs.recipe_steps)
    (hkey : (recipe_id, step_number) ∉
      tx.tables.recipe_steps.map (fun r => (r.recipe_id, r.step_number)))
    (hr : recipe_id ∈ tx.tables.recipes.map (fun r => r.id)) :
    ∃ tx1, insertRecipeStep tx recipe_id step_number (some text)
      = (Except.ok (tx.seqs.recipe_steps + 1), tx1) := by
  have hfresh : tx.seqs.recipe_steps + 1 ∉ tx.tables.recipe_steps.map (fun r => r.id) := by
    intro hmem
    obtain ⟨r, hr, he⟩ := List.mem_map.mp hmem
    have := hahead r hr
    omega
  have hseq' : ¬ int4Max ≤ tx.seqs.recipe_steps := by omega
  unfold insertRecipeStep
  simp only [hab, Bool.false_eq_true, if_false, hseq', hfresh, hkey, hr, not_true_eq_false]
  exact ⟨_, rfl⟩

theorem addIngredient_of_ok {recipeId : Nat} {line : IngredientInput} {tx tx1 tx2 : Tx}
    {id : Nat}
    (h1 : upsertIngredient tx line.name (orNullText line.unit) = (Except.ok id, tx1))
    (h2 : insertRecipeIngredient tx1 recipeId id line.amount line.unit = (Except.ok (), tx2)) :
    addIngredient recipeId line tx = (Except.ok (), tx2) := by
  unfold addIngredient
  rw [h1]
  simpa using h2

/-- One pass of the ingredient loop succeeds when the line has a name and an amount, the
sequences have room, and no ingredient already linked to the recipe carries the name of
the line; the same then holds for the remaining lines. -/
theorem addIngredient_succeeds (r : Nat) (line : IngredientInput)
    (rest : List IngredientInput) (tx : Tx)
    (hab : tx.aborted = false) (hv : tx.tables.Valid)
    (hai : ∀ i ∈ tx.tables.ingredients, i.id ≤ tx.seqs.ingredients)
    (hal : ∀ l ∈ tx.tables.recipe_ingredients, l.id ≤ tx.seqs.recipe_ingredients)
    (hr : r ∈ tx.tables.recipes.map (fun x => x.id))
    (hsi : tx.seqs.ingredients < int4Max)
    (hsl : tx.seqs.recipe_ingredients < int4Max)
    (hname : ∃ n, line.name = some n)
    (hamount : ∃ a, line.amount = some a ∧ inRealNumber (some a) = true)
    (hfresh : line.name ∉ rest.map (fun l => l.name))
    (hused : ∀ l ∈ tx.tables.recipe_ingredients, l.recipe_id = r →
      ∀ i ∈ tx.tables.ingredients, i.id = l.ingredient_id →
      ∀ x ∈ line :: rest, x.name ≠ some i.name) :
    ∃ tx', addIngredient r line tx = (Except.ok (), tx') ∧
      tx'.aborted = false ∧
      tx'.seqs.recipes = tx.seqs.recipes ∧
      tx'.seqs.recipe_steps = tx.seqs.recipe_steps ∧
      tx'.seqs.ingredients = tx.seqs.ingredients + 1 ∧
      tx'.seqs.recipe_ingredients = tx.seqs.recipe_ingredients + 1 ∧
      (∀ i ∈ tx'.tables.ingredients, i.id ≤ tx'.seqs.ingredients) ∧
      (∀ l ∈ tx'.tables.recipe_ingredients, l.id ≤ tx'.seqs.recipe_ingredients) ∧
      (∀ l ∈ tx'.tables.recipe_ingredients, l.recipe_id = r →
        ∀ i ∈ tx'.tables.ingredients, i.id = l.ingredient_id →
        ∀ x ∈ rest, x.name ≠ some i.name) := by
  obtain ⟨n, hn⟩ := hname
  obtain ⟨a, ha, hreal⟩ := hamount
  have hfk := hv.recipe_ingredients_ingredient_fkey
  obtain ⟨iid, tx1, h1⟩ :=
    upsertIngredient_succeeds tx n (orNullText line.unit) hab hsi hai
  have h1' : upsertIngredient tx line.name (orNullText line.unit) = (Except.ok iid, tx1) := by
    rw [hn]; exact h1
  obtain ⟨-, n', hn', hcases⟩ := upsertIngredient_ok h1
  obtain rfl : n = n' := by simpa using hn'
  have hlinks : tx1.tables.recipe_ingredients = tx.tables.recipe_ingredients := by
    rcases hcases with ⟨row, -, -, rfl⟩ | ⟨-, -, -, rfl⟩ <;> rfl
  have hrecipes : tx1.tables.recipes = tx.tables.recipes := by
    rcases hcases with ⟨row, -, -, rfl⟩ | ⟨-, -, -, rfl⟩ <;> rfl
  have hab1 : tx1.aborted = false := by
    rcases hcases with ⟨row, -, -, rfl⟩ | ⟨-, -, -, rfl⟩ <;> rfl
  have hseqs1 : tx1.seqs = { tx.seqs with ingredients := tx.seqs.ingredients + 1 } := by
    rcases hcases with ⟨row, -, -, rfl⟩ | ⟨-, hid, -, rfl⟩
    · rfl
    · subst hid; rfl
  -- the row carrying the name of the line after the upsert
  have hrow : ∃ i ∈ tx1.tables.ingredients, i.id = iid ∧ i.name = n := by
    rcases hcases with ⟨row, hf, hid, rfl⟩ | ⟨-, -, -, rfl⟩
    · obtain ⟨hmem, hname⟩ := find_name_some hf
      exact ⟨setUnit n (orNullText line.unit) row, List.mem_map_of_mem _ hmem,
        by simp [setUnit, hname, hid], by simp [setUnit, hname]⟩
    · exact ⟨{ id := iid, name := n, unit := orNullText line.unit },
        List.mem_append_right _ (List.mem_singleton_self _), rfl, rfl⟩
  -- every row after the upsert is an old row up to its unit, or the row of the line
  have hrows : ∀ i ∈ tx1.tables.ingredients,
      (∃ i0 ∈ tx.tables.ingredients, i0.id = i.id ∧ i0.name = i.name) ∨
        (i.id = tx.seqs.ingredients + 1 ∧ i.name = n) := by
    intro i hi
    rcases hcases with ⟨row, -, -, rfl⟩ | ⟨-, hid, -, rfl⟩
    · obtain ⟨i0, hi0, rfl⟩ := List.mem_map.mp hi
      refine Or.inl ⟨i0, hi0, ?_, ?_⟩ <;> (unfold setUnit; split_ifs <;> rfl)
    · rcases List.mem_append.mp hi with hi | hi
      · exact Or.inl ⟨i, hi, rfl, rfl⟩
      · simp only [List.mem_singleton] at hi
        subst hi
        exact Or.inr ⟨hid, rfl⟩
  have hv1 : tx1.tables.Valid := valid_upsertIngredient hv h1
  have hlinked : ∀ l ∈ tx.tables.recipe_ingredients, l.ingredient_id ≤ tx.seqs.ingredients := by
    intro l hl
    have := hfk l hl
    obtain ⟨i, hi, he⟩ := List.mem_map.mp this
    have := hai i hi
    omega
  have hkey : (r, iid) ∉
      tx1.tables.recipe_ingredients.map (fun x => (x.recipe_id, x.ingredient_id)) := by
    rw [hlinks]
    intro hmem
    obtain ⟨l, hl, he⟩ := List.mem_map.mp hmem
    simp only [Prod.mk.injEq] at he
    obtain ⟨i, hi, hid, hnm⟩ := hrow
    rcases hrows i hi with ⟨i0, hi0, h0id, h0nm⟩ | ⟨hnew, -⟩
    · exact hused l hl he.1 i0 hi0 (by rw [h0id, hid, he.2]) line (by simp)
        (by rw [hn, h0nm, hnm])
    · have := hlinked l hl
      omega
  obtain ⟨tx2, h2⟩ := insertRecipeIngredient_succeeds tx1 r iid a line.unit hab1 hreal
    (by rw [hseqs1]; exact hsl) (by rw [hlinks, hseqs1]; exact hal) hkey
    (by rw [hrecipes]; exact hr)
    (by obtain ⟨i, hi, hid, -⟩ := hrow; exact List.mem_map.mpr ⟨i, hi, hid⟩)
  have h2' : insertRecipeIngredient tx1 r iid line.amount line.unit = (Except.ok (), tx2) := by
    rw [ha]; exact h2
  obtain ⟨-, -, -, -, -, a', -, htx2⟩ := insertRecipeIngredient_ok h2
  have hing2 : tx2.tables.ingredients = tx1.tables.ingredients := by rw [htx2]
  have hlinks2 : tx2.tables.recipe_ingredients = tx.tables.recipe_ingredients ++
      [{ id := tx.seqs.recipe_ingredients + 1, recipe_id := r, ingredient_id := iid,
         amount := toRealNumber a', unit := line.unit }] := by
    rw [htx2, hseqs1]; simp [hlinks]
  have hseqs2 : tx2.seqs.recipes = tx.seqs.recipes ∧
      tx2.seqs.recipe_steps = tx.seqs.recipe_steps ∧
      tx2.seqs.ingredients = tx.seqs.ingredients + 1 ∧
      tx2.seqs.recipe_ingredients = tx.seqs.recipe_ingredients + 1 := by
    rw [htx2, hseqs1]
    exact ⟨rfl, rfl, rfl, rfl⟩
  have hv2 : tx2.tables.Valid := valid_insertRecipeIngredient hv1 h2
  refine ⟨tx2, addIngredient_of_ok h1' h2', by rw [htx2], hseqs2.1, hseqs2.2.1,
    hseqs2.2.2.1, hseqs2.2.2.2, ?_, ?_, ?_⟩
  · intro i hi
    rw [hing2] at hi
    rw [hseqs2.2.2.1]
    rcases hrows i hi with ⟨i0, hi0, h0id, -⟩ | ⟨hnew, -⟩
    · have := hai i0 hi0
      omega
    · omega
  · intro l hl
    rw [hlinks2] at hl
    rw [hseqs2.2.2.2]
    rcases List.mem_append.mp hl with hl | hl
    · have := hal l hl
      omega
    · simp only [List.mem_singleton] at hl
      subst hl
      exact le_refl _
  · intro l hl hlr i hi hil x hx
    rw [hing2] at hi
    rw [hlinks2] at hl
    rcases List.mem_append.mp hl with hl | hl
    · rcases hrows i hi with ⟨i0, hi0, h0id, h0nm⟩ | ⟨hnew, -⟩
      · rw [← h0nm]
        exact hused l hl hlr i0 hi0 (by rw [h0id, hil]) x (List.mem_cons_of_mem _ hx)
      · have := hlinked l hl
        omega
    · simp only [List.mem_singleton] at hl
      subst hl
      obtain ⟨i', hi', hid', hnm'⟩ := hrow
      have hsame : i = i' :=
        same_row_of_id hv1.ingredients_pkey hi hi' (by rw [hil, hid'])
      rw [hsame, hnm']
      intro hxn
      exact hfresh (List.mem_map.mpr ⟨x, hx, by rw [hxn, hn]⟩)

theorem addIngredients_succeeds (r : Nat) (lines : List IngredientInput) :
    ∀ tx : Tx, tx.aborted = false → tx.tables.Valid →
      (∀ i ∈ tx.tables.ingredients, i.id ≤ tx.seqs.ingredients) →
      (∀ l ∈ tx.tables.recipe_ingredients, l.id ≤ tx.seqs.recipe_ingredients) →
      r ∈ tx.tables.recipes.map (fun x => x.id) →
      tx.seqs.ingredients + lines.length ≤ int4Max →
      tx.seqs.recipe_ingredients + lines.length ≤ int4Max →
      (∀ line ∈ lines, (∃ n, line.name = some n) ∧
        ∃ a, line.amount = some a ∧ inRealNumber (some a) = true) →
      (lines.map (fun l => l.name)).Nodup →
      (∀ l ∈ tx.tables.recipe_ingredients, l.recipe_id = r →
        ∀ i ∈ tx.tables.ingredients, i.id = l.ingredient_id →
        ∀ x ∈ lines, x.name ≠ some i.name) →
      ∃ tx', addIngredients r lines tx = (Except.ok (), tx') ∧ tx'.aborted = false ∧
        tx'.seqs.recipes = tx.seqs.recipes ∧
        tx'.seqs.recipe_steps = tx.seqs.recipe_steps := by
  induction lines with
  | nil =>
    intro tx hab _ _ _ _ _ _ _ _ _
    exact ⟨tx, rfl, hab, rfl, rfl⟩
  | cons line rest ih =>
    intro tx hab hv hai hal hr hsi hsl hlines hnd hused
    simp only [List.length_cons] at hsi hsl
    simp only [List.map_cons, List.nodup_cons] at hnd
    obtain ⟨hname, hamount⟩ := hlines line (List.mem_cons_self _ _)
    obtain ⟨tx1, h1, hab1, hq1, hq2, hq3, hq4, hai1, hal1, hused1⟩ :=
      addIngredient_succeeds r line rest tx hab hv hai hal hr (by omega) (by omega)
        hname hamount hnd.1 hused
    have hv1 : tx1.tables.Valid := valid_addIngredient hv h1
    obtain ⟨tx2, h2, hab2, hq5, hq6⟩ := ih tx1 hab1 hv1 hai1 hal1
      (by
        obtain ⟨n, a, lid, iid, -, -, hrec, -⟩ := addIngredient_spec h1
        rw [hrec]; exact hr)
      (by rw [hq3]; omega) (by rw [hq4]; omega)
      (fun x hx => hlines x (List.mem_cons_of_mem _ hx)) hnd.2 hused1
    refine ⟨tx2, ?_, hab2, by rw [hq5, hq1], by rw [hq6, hq2]⟩
    show (match addIngredient r line tx with
      | (Except.error e, tx1) => (Except.error e, tx1)
      | (Except.ok _, tx1) => addIngredients r rest tx1) = _
    rw [h1]
    exact h2

theorem addSteps_succeeds (r : Nat) (steps : List StepInput) :
    ∀ (index : Nat) (tx : Tx), tx.aborted = false →
      (∀ s ∈ tx.tables.recipe_steps, s.id ≤ tx.seqs.recipe_steps) →
      r ∈ tx.tables.recipes.map (fun x => x.id) →
      tx.seqs.recipe_steps + steps.length ≤ int4Max →
      (∀ step ∈ steps, ∃ t, step.instruction = some t) →
      (∀ s ∈ tx.tables.recipe_steps, s.recipe_id = r → s.step_number ≤ index) →
      ∃ tx', addSteps r index steps tx = (Except.ok (), tx') := by
  induction steps with
  | nil =>
    intro index tx _ _ _ _ _ _
    exact ⟨tx, rfl⟩
  | cons step rest ih =>
    intro index tx hab hahead hr hroom hsteps hnum
    simp only [List.length_cons] at hroom
    obtain ⟨t, ht⟩ := hsteps step (List.mem_cons_self _ _)
    have hkey : (r, index + 1) ∉
        tx.tables.recipe_steps.map (fun x => (x.recipe_id, x.step_number)) := by
      intro hmem
      obtain ⟨s, hs, he⟩ := List.mem_map.mp hmem
      simp only [Prod.mk.injEq] at he
      have := hnum s hs he.1
      omega
    obtain ⟨tx1, h1⟩ := insertRecipeStep_succeeds tx r (index + 1) t hab (by omega) hahead
      hkey hr
    obtain ⟨-, -, -, -, -, t', -, htx1⟩ := insertRecipeStep_ok h1
    obtain ⟨tx2, h2⟩ := ih (index + 1) tx1 (by rw [htx1])
      (by
        intro s hs
        rw [htx1] at hs ⊢
        rcases List.mem_append.mp hs with hs | hs
        · have := hahead s hs
          show s.id ≤ tx.seqs.recipe_steps + 1
          omega
        · simp only [List.mem_singleton] at hs
          subst hs
          exact le_refl _)
      (by rw [htx1]; exact hr)
      (by rw [htx1]; show tx.seqs.recipe_steps + 1 + rest.length ≤ int4Max; omega)
      (fun x hx => hsteps x (List.mem_cons_of_mem _ hx))
      (by
        intro s hs hsr
        rw [htx1] at hs
        rcases List.mem_append.mp hs with hs | hs
        · have := hnum s hs hsr
          omega
        · simp only [List.mem_singleton] at hs
          subst hs
          exact le_refl _)
    refine ⟨tx2, ?_⟩
    show (match insertRecipeStep tx r (index + 1) step.instruction with
      | (Except.error e, tx1) => (Except.error e, tx1)
      | (Except.ok _, tx1) => addSteps r (index + 1) rest tx1) = _
    rw [ht, h1]
    exact h2

theorem inInt4_orNullNumber {v : Option Int} (h : inInt4 v = true) :
    inInt4 (orNullNumber v) = true := by
  cases v with
  | none => rfl
  | some n =>
    unfold orNullNumber
    dsimp only
    split_ifs
    · rfl
    · exact h

theorem inReal_orNullNumber {v : Option Int} (h : inReal v = true) :
    inReal (orNullNumber v) = true := by
  cases v with
  | none => rfl
  | some n =>
    unfold orNullNumber
    dsimp only
    split_ifs
    · rfl
    · exact h

theorem rating_orNullNumber {v : Option Int} (h : ∀ n, v = some n → 1 ≤ n ∧ n ≤ 5) :
    inInt4 (orNullNumber v) = true ∧ ratingCheck (orNullNumber v) = true := by
  cases v with
  | none => exact ⟨rfl, rfl⟩
  | some n =>
    obtain ⟨h1, h5⟩ := h n rfl
    unfold orNullNumber
    dsimp only
    split_ifs
    · exact ⟨rfl, rfl⟩
    · refine ⟨?_, ?_⟩
      · simp only [inInt4, Bool.and_eq_true, decide_eq_true_eq]
        omega
      · simp only [ratingCheck, Bool.and_eq_true, decide_eq_true_eq]
        omega

theorem documented_soup (data : RecipeData) (hname : data.name = soup.name)
    (hlines : ∀ line ∈ data.ingredients,
      line.name = some "Salt" ∧ (line.amount = some 1 ∨ line.amount = some 2) ∨
        line ∈ soup.ingredients)
    (hsteps : data.steps = soup.steps)
    (hct : ∀ v, data.cooking_time = some v → 0 < v)
    (hep : ∀ v, data.estimated_price = some v → 0 ≤ v)
    (hrating : data.rating = soup.rating) : DocumentedInput data := by
  refine ⟨⟨"Soup", hname, by decide⟩, ?_, ?_, hct, hep, ?_⟩
  · intro line hl
    rcases hlines line hl with ⟨hn, ha | ha⟩ | hmem
    · exact ⟨⟨_, hn, by decide⟩, 1, ha, by decide⟩
    · exact ⟨⟨_, hn, by decide⟩, 2, ha, by decide⟩
    · simp only [soup, List.mem_cons, List.mem_singleton, List.not_mem_nil, or_false] at hmem
      rcases hmem with rfl | rfl
      · exact ⟨⟨_, rfl, by decide⟩, 1, rfl, by decide⟩
      · exact ⟨⟨_, rfl, by decide⟩, 2, rfl, by decide⟩
  · intro step hs
    rw [hsteps] at hs
    simp only [soup, List.mem_cons, List.mem_singleton, List.not_mem_nil, or_false] at hs
    rcases hs with rfl | rfl
    · exact ⟨_, rfl, by decide⟩
    · exact ⟨_, rfl, by decide⟩
  · intro v hv
    rw [hrating] at hv
    simp only [soup, Option.some.injEq] at hv
    subst hv
    decide

theorem valid_restoredDb : restoredDb.tables.Valid := by
  constructor <;> simp [restoredDb, ratingCheck]

/-- C23, as stated, fails. The recipe `saltySoup` meets the documented constraints and
names "Salt" on two lines: on the empty database the second link violates
`UNIQUE(recipe_id, ingredient_id)`. A cooking time beyond `INTEGER`, a price beyond `REAL`,
a recipe id the sequence has yet to reach and an exhausted sequence make the call fail in
the same way on inputs that meet the documented constraints. -/
theorem addRecipe_documented_input_fails :
    createTables.tables.Valid ∧ restoredDb.tables.Valid ∧ exhaustedDb.tables.Valid ∧
    DocumentedInput saltySoup ∧ DocumentedInput slowSoup ∧ DocumentedInput pricedSoup ∧
    DocumentedInput soup ∧
    (addRecipe createTables saltySoup 7).1 = Except.error DbError.uniqueViolation ∧
    (addRecipe createTables slowSoup 7).1 = Except.error DbError.numericOutOfRange ∧
    (addRecipe createTables pricedSoup 7).1 = Except.error DbError.numericOutOfRange ∧
    (addRecipe restoredDb soup 7).1 = Except.error DbError.uniqueViolation ∧
    (addRecipe exhaustedDb soup 7).1 = Except.error DbError.sequenceExhausted := by
  have hsoup : ∀ line ∈ soup.ingredients,
      line.name = some "Salt" ∧ (line.amount = some 1 ∨ line.amount = some 2) ∨
        line ∈ soup.ingredients := fun _ h => Or.inr h
  have hct : ∀ v : Int, soup.cooking_time = some v → 0 < v := by
    intro v hv
    simp only [soup, Option.some.injEq] at hv
    omega
  have hep : ∀ v : Int, soup.estimated_price = some v → 0 ≤ v := by
    intro v hv
    simp [soup] at hv
  refine ⟨valid_createTables, valid_restoredDb, valid_createTables, ?_, ?_, ?_, ?_,
    rfl, rfl, rfl, rfl, rfl⟩
  · refine documented_soup saltySoup rfl ?_ rfl hct hep rfl
    intro line hl
    simp only [saltySoup, List.mem_cons, List.mem_singleton, List.not_mem_nil, or_false] at hl
    rcases hl with rfl | rfl
    · exact Or.inl ⟨rfl, Or.inl rfl⟩
    · exact Or.inl ⟨rfl, Or.inr rfl⟩
  · refine documented_soup slowSoup rfl hsoup rfl ?_ hep rfl
    intro v hv
    simp only [slowSoup, Option.some.injEq] at hv
    omega
  · refine documented_soup pricedSoup rfl hsoup rfl hct ?_ rfl
    intro v hv
    simp only [pricedSoup, Option.some.injEq] at hv
    omega
  · exact documented_soup soup rfl hsoup rfl hct hep rfl

/-- C23, amended: on a database state that satisfies the schema constraints, whose ids were
drawn from the sequences and whose sequences have room for the call, `addRecipe` succeeds
on every input that meets the documented constraints, names no ingredient on two lines and
keeps the cooking time within `INTEGER` and the price and amounts within `REAL`; the id
returned is the next value of the recipe sequence. -/
theorem addRecipe_succeeds (db : Database) (data : RecipeData) (now : Nat)
    (hv : db.tables.Valid) (hahead : SeqAhead db.tables db.seqs)
    (hroom : SeqRoom db.seqs data) (hdoc : DocumentedInput data)
    (hst : StorableInput data) :
    ∃ db', addRecipe db data now = (Except.ok (db.seqs.recipes + 1), db') := by
  obtain ⟨n, hn, -⟩ := hdoc.name
  obtain ⟨hr4, hcheck⟩ := rating_orNullNumber hdoc.rating
  obtain ⟨tx1, h1⟩ := insertRecipe_succeeds (Tx.begin db) n (orNullText data.picture_path)
    (orNullNumber data.cooking_time) (orNullNumber data.estimated_price)
    (orNullNumber data.rating) now rfl (inInt4_orNullNumber hst.cooking_time) hr4
    (inReal_orNullNumber hst.estimated_price) hcheck hroom.recipes hahead.recipes
  obtain ⟨-, hfresh, -, -, -, n', -, htx1⟩ := insertRecipe_ok h1
  have hv1 : tx1.tables.Valid := valid_insertRecipe hv h1
  have hlinks1 : tx1.tables.recipe_ingredients = db.tables.recipe_ingredients := by
    rw [htx1]; rfl
  have hsteps1 : tx1.tables.recipe_steps = db.tables.recipe_steps := by rw [htx1]; rfl
  have hr1 : (Tx.begin db).seqs.recipes + 1 ∈ tx1.tables.recipes.map (fun x => x.id) := by
    rw [htx1]; simp
  obtain ⟨tx2, h2, hab2, -, hq2⟩ :=
    addIngredients_succeeds ((Tx.begin db).seqs.recipes + 1) data.ingredients tx1
      (by rw [htx1]) hv1
      (by rw [htx1]; exact hahead.ingredients)
      (by rw [htx1]; exact hahead.recipe_ingredients)
      hr1
      (by rw [htx1]; exact hroom.ingredients)
      (by rw [htx1]; exact hroom.recipe_ingredients)
      (by
        intro line hl
        obtain ⟨⟨m, hm, -⟩, a, ha, -⟩ := hdoc.lines line hl
        have hreal := hst.amounts line hl
        rw [ha] at hreal
        exact ⟨⟨m, hm⟩, _, ha, hreal⟩)
      hst.distinct
      (by
        intro l hl hlr
        rw [hlinks1] at hl
        exact absurd hlr (fresh_of_fkey hv.recipe_ingredients_recipe_fkey hfresh l hl))
  obtain ⟨hrec2, hsteps2⟩ := addIngredients_frame data.ingredients h2
  obtain ⟨tx3, h3⟩ := addSteps_succeeds ((Tx.begin db).seqs.recipes + 1) data.steps 0 tx2 hab2
    (by rw [hsteps2, hsteps1, hq2, htx1]; exact hahead.recipe_steps)
    (by rw [hrec2]; exact hr1)
    (by rw [hq2, htx1]; exact hroom.recipe_steps)
    (by
      intro step hs
      obtain ⟨t, ht, -⟩ := hdoc.steps step hs
      exact ⟨t, ht⟩)
    (by
      intro s hs hsr
      rw [hsteps2, hsteps1] at hs
      exact absurd hsr (fresh_of_fkey hv.recipe_steps_recipe_fkey hfresh s hs))
  refine ⟨tx3.commit, ?_⟩
  have htx : addRecipeTx (Tx.begin db) data now
      = (Except.ok ((Tx.begin db).seqs.recipes + 1), tx3) := by
    unfold addRecipeTx
    rw [hn, h1]
    dsimp only
    rw [h2]
    dsimp only
    rw [h3]
  unfold addRecipe
  rw [htx]
  rfl

theorem addRecipe_succeeds_witness :
    ∃ db', addRecipe createTables soup 7 = (Except.ok (createTables.seqs.recipes + 1), db') :=
  addRecipe_succeeds createTables soup 7 valid_createTables
    ⟨by simp [createTables], by simp [createTables], by simp [createTables],
      by simp [createTables]⟩
    ⟨by decide, by decide, by decide, by decide⟩
    (documented_soup soup rfl (fun _ h => Or.inr h) rfl
      (by intro v hv; simp only [soup, Option.some.injEq] at hv; omega)
      (by intro v hv; simp [soup] at hv) rfl)
    ⟨by decide, by decide, by decide, by decide⟩

end RecipeDb
